import Mathlib

/-!
# PKI object core (`pkibase.c`): shallow embedding

The C translation unit `pkibase.c` is embedded as pure functions over explicit state.

* Pointers to tokens are natural numbers (addresses); a byte item is the list of its bytes.
* An object (`nssPKIObject`) is embedded by value: its instance array is a list whose length
  is `numInstances`.
* The two `PLHashTable`s of a collection are lists of entries `(keyHash, key, value)`. The
  table itself belongs to NSPR (`plhash.h`), not to this file; its operations are embedded by
  their contract: an entry matches a key when the stored hash equals the key's hash and the
  key comparator accepts the pair, adding under a present key replaces the value. The order
  of the list stands for the enumeration order of the buckets.
* Keys are embedded by value: a key of the UID table is the identifier stored in the node,
  a key of the instance table is the instance as it was when it was added.
* Collection nodes live in an arena (`nodes`); a node pointer is an index into it.
* A `NULL` dereference is undefined behaviour and is the outer `none` of an operation.
* The outcome of every allocation that the code checks is an input (`AllocEnv`); insertion
  into a hash table, whose result the code never checks, always succeeds.
-/

namespace PKIBase

/-! ## Base types -/

/-- The NSPR status type: an integer, `0` for success and `-1` for failure. -/
abbrev PRStatus := Int

/-- The value of `PR_SUCCESS`. -/
abbrev PR_SUCCESS : PRStatus := 0

/-- The value of `PR_FAILURE`. -/
abbrev PR_FAILURE : PRStatus := -1

/-- The number of byte items of a unique identifier (`#define MAX_ITEMS_FOR_UID 2`). -/
abbrev MAX_ITEMS_FOR_UID : Nat := 2

/-- A byte item `(data, size)`: the bytes it points to; `size` is their number. -/
structure NSSItem where
  data : List Nat
deriving DecidableEq, Repr

/-- The `size` field of an item. -/
def NSSItem.size (it : NSSItem) : Nat := it.data.length

/-- The zeroed item (`data = NULL`, `size = 0`). -/
def NSSItem.zero : NSSItem := ⟨[]⟩

/-- Modelled from the spec: `nssItem_Equal` (declared in `pkim.h`, defined outside this file).
Equality of byte items is bytewise, on equal sizes. -/
def nssItem_Equal (one two : NSSItem) : Bool :=
  one.size == two.size && one.data == two.data

/-- The array `NSSItem uid[MAX_ITEMS_FOR_UID]`. -/
structure UID where
  uid0 : NSSItem
  uid1 : NSSItem
deriving DecidableEq, Repr

/-- Array access `uid[i]`. -/
def UID.get (u : UID) : Nat → NSSItem
  | 0 => u.uid0
  | _ => u.uid1

/-- The result of `nsslibc_memset(uid, 0, sizeof uid)`. -/
def UID.zero : UID := ⟨NSSItem.zero, NSSItem.zero⟩

/-- A token instance `nssCryptokiObject`: the handle, the token it lives on, and its label. -/
structure nssCryptokiObject where
  handle : Nat
  token : Nat
  label : Option String
deriving DecidableEq, Repr

/-- Modelled from the spec: `nssCryptokiObject_Equal` (token driver, outside this file):
"equivalent to `(a.token, a.handle) == (b.token, b.handle)`". -/
def nssCryptokiObject_Equal (o1 o2 : nssCryptokiObject) : Bool :=
  o1.token == o2.token && o1.handle == o2.handle

/-- The lock kinds of `nssPKILockType`. -/
inductive nssPKILockType where
  | nssPKILock
  | nssPKIMonitor
deriving DecidableEq, Repr

/-- The object `nssPKIObject`: reference count (a `PRInt32`), instance array, lock kind. -/
structure nssPKIObject where
  refCount : Int
  instances : List nssCryptokiObject
  lockType : nssPKILockType
deriving DecidableEq, Repr

/-- The field `numInstances`. -/
def nssPKIObject.numInstances (o : nssPKIObject) : Nat := o.instances.length

/-- Outcome of the allocations made during one call, one flag per allocation site that the
code checks. -/
structure AllocEnv where
  /-- The call `nssArena_Mark` of `add_object_instance`. -/
  markOk : Bool
  /-- The call `nss_ZNEW(collection->arena, pkiObjectCollectionNode)`. -/
  nodeOk : Bool
  /-- The calls `nssArena_Create`, `nss_ZNEW` and `nssPKIObject_NewLock` of `nssPKIObject_Create`. -/
  objectOk : Bool
  /-- The call `nss_ZNEWARRAY` or `nss_ZREALLOCARRAY` of `nssPKIObject_AddInstance`. -/
  arrayOk : Bool
deriving DecidableEq, Repr

/-- The allocator that never fails. -/
def AllocEnv.ok : AllocEnv := ⟨true, true, true, true⟩

/-! ## Hash-table keys -/

/-- Comparison of the keys of the object hash table (`compare_objects`). -/
def compare_objects (uid_one uid_two : UID) : Bool :=
  (List.range MAX_ITEMS_FOR_UID).all fun i => nssItem_Equal (uid_one.get i) (uid_two.get i)

/-- Comparison of the keys of the instance hash table (`compare_instances`). -/
def compare_instances (one two : nssCryptokiObject) : Bool :=
  one.token == two.token && one.handle == two.handle

/-- Hash of a key of the object hash table (`hash_object`); `PLHashNumber` is 32 bits wide. -/
def hash_object (uid : UID) : Nat :=
  (List.range' 1 (MAX_ITEMS_FOR_UID - 1)).foldl
    (fun hashvalue i => hashvalue ^^^ ((uid.get i).size % 2 ^ 32))
    ((uid.get 0).size % 2 ^ 32)

/-- Hash of a key of the instance hash table (`hash_instance`). -/
def hash_instance (key : nssCryptokiObject) : Nat :=
  (key.token % 2 ^ 32) ^^^ (key.handle % 2 ^ 32)

/-! ## The NSPR hash table -/

/-- An entry `PLHashEntry`. -/
structure PLHashEntry (κ ν : Type) where
  keyHash : Nat
  key : κ
  value : ν
deriving DecidableEq, Repr

/-- A `PLHashTable`, as the list of its entries in enumeration order. -/
abbrev PLHashTable (κ ν : Type) := List (PLHashEntry κ ν)

/-- The entry test of `PL_HashTableRawLookup`:
`he->keyHash == keyHash && (*ht->keyCompare)(key, he->key)`. -/
def PLHashEntry.matches {κ ν : Type} (keyHash : κ → Nat) (keyCompare : κ → κ → Bool)
    (key : κ) (he : PLHashEntry κ ν) : Bool :=
  he.keyHash == keyHash key && keyCompare key he.key

/-- The NSPR call `PL_HashTableLookup`: the value of the first matching entry. -/
def PL_HashTableLookup {κ ν : Type} (keyHash : κ → Nat) (keyCompare : κ → κ → Bool)
    (ht : PLHashTable κ ν) (key : κ) : Option ν :=
  (ht.find? (PLHashEntry.matches keyHash keyCompare key)).map (·.value)

/-- The NSPR call `PL_HashTableAdd`: on a hit the value of the matching entry is replaced
(its key is kept), on a miss a new entry is added. -/
def PL_HashTableAdd {κ ν : Type} (keyHash : κ → Nat) (keyCompare : κ → κ → Bool) :
    PLHashTable κ ν → κ → ν → PLHashTable κ ν
  | [], key, value => [⟨keyHash key, key, value⟩]
  | he :: rest, key, value =>
    if PLHashEntry.matches keyHash keyCompare key he then
      { he with value := value } :: rest
    else
      he :: PL_HashTableAdd keyHash keyCompare rest key value

/-- The NSPR call `PL_HashTableRemove`: removes the first matching entry and tells whether
there was one. -/
def PL_HashTableRemove {κ ν : Type} (keyHash : κ → Nat) (keyCompare : κ → κ → Bool) :
    PLHashTable κ ν → κ → PLHashTable κ ν × Bool
  | [], _ => ([], false)
  | he :: rest, key =>
    if PLHashEntry.matches keyHash keyCompare key he then
      (rest, true)
    else
      let r := PL_HashTableRemove keyHash keyCompare rest key
      (he :: r.1, r.2)

/-- The return codes of an enumerator that this file uses. -/
inductive HTEnumerate where
  | HT_ENUMERATE_NEXT
  | HT_ENUMERATE_STOP
  | HT_ENUMERATE_REMOVE
deriving DecidableEq, Repr

/-- The NSPR call `PL_HashTableEnumerateEntries`, started at entry number `n`: calls `f`
on each entry in turn, drops the entries for which it answers `HT_ENUMERATE_REMOVE`, stops
after the entry for which it answers `HT_ENUMERATE_STOP`. Returns the number of entries
visited, the remaining table and the final state of the enumerator's argument. -/
def PL_HashTableEnumerateEntries {κ ν σ : Type}
    (f : PLHashEntry κ ν → Nat → σ → Option (HTEnumerate × σ)) :
    PLHashTable κ ν → Nat → σ → Option (Nat × PLHashTable κ ν × σ)
  | [], n, arg => some (n, [], arg)
  | he :: rest, n, arg =>
    match f he n arg with
    | none => none
    | some (HTEnumerate.HT_ENUMERATE_STOP, arg1) => some (n + 1, he :: rest, arg1)
    | some (HTEnumerate.HT_ENUMERATE_REMOVE, arg1) =>
      match PL_HashTableEnumerateEntries f rest (n + 1) arg1 with
      | none => none
      | some (m, rest1, arg2) => some (m, rest1, arg2)
    | some (HTEnumerate.HT_ENUMERATE_NEXT, arg1) =>
      match PL_HashTableEnumerateEntries f rest (n + 1) arg1 with
      | none => none
      | some (m, rest1, arg2) => some (m, he :: rest1, arg2)

/-! ## Objects -/

/-- Wrap-around of a 32-bit signed counter (`PRInt32`). -/
def wrapInt32 (x : Int) : Int := (x + 2 ^ 31) % 2 ^ 32 - 2 ^ 31

/-- The loop of `nssPKIObject_AddInstance` and `nssPKIObject_HasInstance`: the index `i` of
the first instance from position `i` on that equals `inst`, if there is one. -/
def findInstance (inst : nssCryptokiObject) : List nssCryptokiObject → Nat → Option Nat
  | [], _ => none
  | x :: rest, i =>
    if nssCryptokiObject_Equal x inst then some i else findInstance inst rest (i + 1)

/-- The assignment `object->instances[i]->label = label`. -/
def setLabel (instances : List nssCryptokiObject) (i : Nat) (label : Option String) :
    List nssCryptokiObject :=
  match instances[i]? with
  | none => instances
  | some x => instances.set i { x with label := label }

/-- The function `nssPKIObject_AddInstance`; `arrayOk` tells whether the array allocation
succeeds. Returns the status and the object afterwards. -/
def nssPKIObject_AddInstance (arrayOk : Bool) (object : nssPKIObject)
    (inst : nssCryptokiObject) : PRStatus × nssPKIObject :=
  if object.numInstances = 0 then
    if arrayOk then
      (PR_SUCCESS, { object with instances := object.instances ++ [inst] })
    else
      (PR_FAILURE, object)
  else
    match findInstance inst object.instances 0 with
    | some i =>
      (PR_SUCCESS, { object with instances := setLabel object.instances i inst.label })
    | none =>
      if arrayOk then
        (PR_SUCCESS, { object with instances := object.instances ++ [inst] })
      else
        (PR_FAILURE, object)

/-- The function `nssPKIObject_HasInstance`. -/
def nssPKIObject_HasInstance (object : nssPKIObject) (inst : nssCryptokiObject) : Bool :=
  (findInstance inst object.instances 0).isSome

/-- The function `nssPKIObject_Create` (`NULL` is `none`). The zero-allocated object gets
its lock, then the optional instance, then its first reference. -/
def nssPKIObject_Create (env : AllocEnv) (instanceOpt : Option nssCryptokiObject)
    (lockType : nssPKILockType) : Option nssPKIObject :=
  if !env.objectOk then none
  else
    let object : nssPKIObject := { refCount := 0, instances := [], lockType := lockType }
    match instanceOpt with
    | some inst =>
      let r := nssPKIObject_AddInstance env.arrayOk object inst
      if r.1 ≠ PR_SUCCESS then none
      else some { r.2 with refCount := wrapInt32 (r.2.refCount + 1) }
    | none => some { object with refCount := wrapInt32 (object.refCount + 1) }

/-- The function `nssPKIObject_AddRef`. -/
def nssPKIObject_AddRef (object : nssPKIObject) : nssPKIObject :=
  { object with refCount := wrapInt32 (object.refCount + 1) }

/-- The function `nssPKIObject_Destroy`: the returned flag (true when this call destroyed
the object) and the object afterwards. When the count reaches zero the instances, the lock
and the arena that holds the object are destroyed: no object is left (`none`). -/
def nssPKIObject_Destroy (object : nssPKIObject) : Option nssPKIObject × Bool :=
  let o : nssPKIObject := { object with refCount := wrapInt32 (object.refCount - 1) }
  if o.refCount = 0 then (none, true) else (some o, false)

/-! ## Object collections -/

/-- The kinds of object a collection can hold (`pkiObjectType`). -/
inductive pkiObjectType where
  | pkiObjectType_Certificate
  | pkiObjectType_CRL
  | pkiObjectType_PrivateKey
  | pkiObjectType_PublicKey
deriving DecidableEq, Repr

/-- The error codes that this file stores in the last-error slot. -/
inductive NSSError where
  | NSS_ERROR_NOT_FOUND
  | NSS_ERROR_INVALID_ARGUMENT
deriving DecidableEq, Repr

/-- A node `pkiObjectCollectionNode`: the object or proto-object (`none` is `NULL`), whether
it is a real object, and its unique identifier. -/
structure pkiObjectCollectionNode where
  haveObject : Bool
  object : Option nssPKIObject
  uid : UID
deriving DecidableEq, Repr

/-- The collection `nssPKIObjectCollectionStr` without its function pointers: the arena of
nodes (a node pointer is an index into `nodes`), the two hash tables whose values are node
pointers, the counter `size` and the two kind tags. -/
structure nssPKIObjectCollection where
  nodes : List pkiObjectCollectionNode
  PKIobjecthashtable : PLHashTable UID Nat
  PKIinstancehashtable : PLHashTable nssCryptokiObject Nat
  size : Nat
  objectType : pkiObjectType
  lockType : nssPKILockType
deriving DecidableEq, Repr

/-- The function pointers of a collection. Each UID function receives the buffer `uid` and
returns its status and the buffer afterwards; `createObject` returns `none` for `NULL`. -/
structure Vtable where
  getUIDFromObject : nssPKIObject → UID → PRStatus × UID
  getUIDFromInstance : nssCryptokiObject → UID → PRStatus × UID
  createObject : nssPKIObject → Option nssPKIObject

/-- The function `nssPKIObjectCollection_Create` when its allocations succeed: the collection
is zero-allocated, the two tables are new and the lock kind is recorded. -/
def nssPKIObjectCollection_Create (lockType : nssPKILockType) : nssPKIObjectCollection :=
  { nodes := [], PKIobjecthashtable := [], PKIinstancehashtable := [], size := 0,
    objectType := pkiObjectType.pkiObjectType_Certificate, lockType := lockType }

/-- The function `nssPKIObjectCollection_Count`. -/
def nssPKIObjectCollection_Count (collection : nssPKIObjectCollection) : Nat :=
  collection.size

/-- The statement `collection->size++`. The counter is a `PRUint32`; it cannot wrap before
the arena holds `2 ^ 32` nodes, so the increment is not reduced. -/
def sizeIncr (size : Nat) : Nat := size + 1

/-- The statement `collection->size--` on a `PRUint32`. -/
def sizeDecr (size : Nat) : Nat := if size = 0 then 2 ^ 32 - 1 else size - 1

/-- The function `nssPKIObjectCollection_AddObject`. -/
def nssPKIObjectCollection_AddObject (vt : Vtable) (env : AllocEnv)
    (collection : nssPKIObjectCollection) (object : nssPKIObject) :
    nssPKIObjectCollection × PRStatus :=
  if !env.nodeOk then (collection, PR_FAILURE)
  else
    let node : pkiObjectCollectionNode :=
      { haveObject := true, object := some (nssPKIObject_AddRef object),
        uid := (vt.getUIDFromObject object UID.zero).2 }
    let nodePtr := collection.nodes.length
    ({ collection with
        nodes := collection.nodes ++ [node]
        PKIobjecthashtable :=
          PL_HashTableAdd hash_object compare_objects collection.PKIobjecthashtable
            node.uid nodePtr
        size := sizeIncr collection.size }, PR_SUCCESS)

/-- Whether `nssPKIObject_AddInstance` takes its branch `if (found)`: the object has an
instance with the `(token, handle)` of the new one, whose label is moved into the stored
instance before the new instance is discarded with `nssCryptokiObject_Destroy`. -/
def nssPKIObject_AddInstance_discards (object : nssPKIObject) (inst : nssCryptokiObject) :
    Bool :=
  object.numInstances != 0 && (findInstance inst object.instances 0).isSome

/-- The function `add_object_instance`. The result is the collection afterwards, the returned
node pointer (`none` is `NULL`) and the flag `*foundIt`. When the UID index has the
identifier and `nssPKIObject_AddInstance` discards the instance, the following
`PL_HashTableAdd(collection->PKIinstancehashtable, instance, node)` hashes and stores the
destroyed instance: that run is undefined (outer `none`). -/
def add_object_instance (vt : Vtable) (env : AllocEnv) (collection : nssPKIObjectCollection)
    (inst : nssCryptokiObject) : Option (nssPKIObjectCollection × Option Nat × Bool) :=
  match PL_HashTableLookup hash_instance compare_instances
      collection.PKIinstancehashtable inst with
  | some node => some (collection, some node, true)
  | none =>
    if !env.markOk then some (collection, none, false)
    else
      let r := vt.getUIDFromInstance inst UID.zero
      if r.1 ≠ PR_SUCCESS then some (collection, none, false)
      else
        let uid := r.2
        match PL_HashTableLookup hash_object compare_objects
            collection.PKIobjecthashtable uid with
        | some node =>
          match collection.nodes[node]? with
          | none => none
          | some nd =>
            match nd.object with
            | none => none
            | some o =>
              if nssPKIObject_AddInstance_discards o inst then none
              else
                let o1 := (nssPKIObject_AddInstance env.arrayOk o inst).2
                some ({ collection with
                          nodes := collection.nodes.set node { nd with object := some o1 }
                          PKIinstancehashtable :=
                            PL_HashTableAdd hash_instance compare_instances
                              collection.PKIinstancehashtable inst node },
                      some node, false)
        | none =>
          if !env.nodeOk then some (collection, none, false)
          else
            match nssPKIObject_Create env (some inst) collection.lockType with
            | none => some (collection, none, false)
            | some o =>
              let node : pkiObjectCollectionNode :=
                { haveObject := false, object := some o, uid := uid }
              let nodePtr := collection.nodes.length
              some ({ collection with
                        nodes := collection.nodes ++ [node]
                        PKIobjecthashtable :=
                          PL_HashTableAdd hash_object compare_objects
                            collection.PKIobjecthashtable node.uid nodePtr
                        size := sizeIncr collection.size
                        PKIinstancehashtable :=
                          PL_HashTableAdd hash_instance compare_instances
                            collection.PKIinstancehashtable inst nodePtr },
                    some nodePtr, false)

/-- The loop of `nssPKIObjectCollection_AddInstances` from index `i` on, over the instances
before the `NULL` terminator; `allocs i` is the allocator's behaviour in iteration `i`. -/
def AddInstances_loop (vt : Vtable) (allocs : Nat → AllocEnv) (numInstances : Nat) :
    nssPKIObjectCollection → List nssCryptokiObject → Nat → PRStatus →
    Option (nssPKIObjectCollection × PRStatus)
  | collection, [], _, status => some (collection, status)
  | collection, inst :: rest, i, status =>
    if numInstances = 0 ∨ i < numInstances then
      if status = PR_SUCCESS then
        match add_object_instance vt (allocs i) collection inst with
        | none => none
        | some (c1, none, _) => AddInstances_loop vt allocs numInstances c1 rest (i + 1) PR_FAILURE
        | some (c1, some _, _) => AddInstances_loop vt allocs numInstances c1 rest (i + 1) status
      else
        AddInstances_loop vt allocs numInstances collection rest (i + 1) status
    else some (collection, status)

/-- The function `nssPKIObjectCollection_AddInstances`; `instances` is `none` for a `NULL`
array and otherwise the instances before the terminator. -/
def nssPKIObjectCollection_AddInstances (vt : Vtable) (allocs : Nat → AllocEnv)
    (collection : nssPKIObjectCollection) (instances : Option (List nssCryptokiObject))
    (numInstances : Nat) : Option (nssPKIObjectCollection × PRStatus) :=
  match instances with
  | none => some (collection, PR_SUCCESS)
  | some l => AddInstances_loop vt allocs numInstances collection l 0 PR_SUCCESS

/-- The function `nssPKIObjectCollection_RemoveNode`. -/
def nssPKIObjectCollection_RemoveNode (collection : nssPKIObjectCollection) (node : Nat) :
    Option nssPKIObjectCollection :=
  match collection.nodes[node]? with
  | none => none
  | some nd =>
    some { collection with
      PKIobjecthashtable :=
        (PL_HashTableRemove hash_object compare_objects collection.PKIobjecthashtable nd.uid).1
      size := sizeDecr collection.size }

/-- The argument `struct get_obj_args` of `get_objects_callback`, without the collection. -/
structure get_obj_args where
  rvObjects : List (Option nssPKIObject)
  rvSize : Nat
  nr_objs : Nat
  error : Int
deriving DecidableEq, Repr

/-- The enumerator `get_objects_callback`; the state is the node arena and the arguments. -/
def get_objects_callback (vt : Vtable) (he : PLHashEntry UID Nat) (_index : Nat)
    (st : List pkiObjectCollectionNode × get_obj_args) :
    Option (HTEnumerate × (List pkiObjectCollectionNode × get_obj_args)) :=
  let nodePtr := he.value
  match st.1[nodePtr]? with
  | none => none
  | some node =>
    match node.object with
    | none => none
    | some o =>
      let promoted : Option (Option pkiObjectCollectionNode) :=
        if !node.haveObject then
          match vt.createObject o with
          | none => some none
          | some o1 => some (some { node with object := some o1, haveObject := true })
        else some (some node)
      match promoted with
      | none => none
      | some none =>
        some (HTEnumerate.HT_ENUMERATE_REMOVE,
          (st.1.set nodePtr { node with object := none }, { st.2 with error := 1 }))
      | some (some node1) =>
        match node1.object with
        | none => none
        | some o2 =>
          if st.2.nr_objs < st.2.rvObjects.length then
            let o3 := nssPKIObject_AddRef o2
            let args1 : get_obj_args :=
              { st.2 with
                rvObjects := st.2.rvObjects.set st.2.nr_objs (some o3)
                nr_objs := st.2.nr_objs + 1 }
            let nodes1 := st.1.set nodePtr { node1 with object := some o3 }
            if args1.nr_objs < args1.rvSize then
              some (HTEnumerate.HT_ENUMERATE_NEXT, (nodes1, args1))
            else
              some (HTEnumerate.HT_ENUMERATE_STOP, (nodes1, args1))
          else none

/-- The result of `nssPKIObjectCollection_GetObjects`: the collection and the buffer
afterwards, the returned status and the last-error slot. -/
structure GetObjectsResult where
  collection : nssPKIObjectCollection
  rvObjects : List (Option nssPKIObject)
  status : PRStatus
  lastError : Option NSSError
deriving DecidableEq, Repr

/-- The function `nssPKIObjectCollection_GetObjects`; `lastError` is the error slot on
entry. Reading `*rvObjects` needs a buffer with at least one slot. -/
def nssPKIObjectCollection_GetObjects (vt : Vtable) (lastError : Option NSSError)
    (collection : nssPKIObjectCollection) (rvObjects : List (Option nssPKIObject))
    (rvSize : Nat) : Option GetObjectsResult :=
  let args : get_obj_args := { rvObjects := rvObjects, rvSize := rvSize, nr_objs := 0, error := 0 }
  match PL_HashTableEnumerateEntries (get_objects_callback vt)
      collection.PKIobjecthashtable 0 (collection.nodes, args) with
  | none => none
  | some (numentries, table, nodes, args1) =>
    let c1 : nssPKIObjectCollection :=
      { collection with nodes := nodes, PKIobjecthashtable := table }
    if numentries = 0 then some ⟨c1, args1.rvObjects, PR_SUCCESS, lastError⟩
    else
      match args1.rvObjects[0]? with
      | none => none
      | some first =>
        if args1.error = 0 ∧ first = none then
          some ⟨c1, args1.rvObjects, PR_SUCCESS, some NSSError.NSS_ERROR_NOT_FOUND⟩
        else some ⟨c1, args1.rvObjects, PR_SUCCESS, lastError⟩

/-- The result of `nssPKIObjectCollection_GetCertificates` and of
`nssPKIObjectCollection_GetCRLs`: the collection afterwards, the returned array (`none` is
`NULL`) and the last-error slot. -/
structure GetArrayResult where
  collection : nssPKIObjectCollection
  rv : Option (List (Option nssPKIObject))
  lastError : Option NSSError
deriving DecidableEq, Repr

/-- The function `nssPKIObjectCollection_GetCertificates`; `rvOpt` is the caller's buffer
if there is one, `arrayOk` the outcome of the allocation made when there is none. -/
def nssPKIObjectCollection_GetCertificates (vt : Vtable) (arrayOk : Bool)
    (lastError : Option NSSError) (collection : nssPKIObjectCollection)
    (rvOpt : Option (List (Option nssPKIObject))) (maximumOpt : Nat) :
    Option GetArrayResult :=
  if collection.size = 0 then some ⟨collection, none, lastError⟩
  else
    let rvSize := if maximumOpt = 0 then collection.size else min collection.size maximumOpt
    let buffer : Option (List (Option nssPKIObject)) :=
      match rvOpt with
      | some b => some b
      | none => if arrayOk then some (List.replicate (rvSize + 1) none) else none
    match buffer with
    | none => some ⟨collection, none, lastError⟩
    | some b =>
      match nssPKIObjectCollection_GetObjects vt lastError collection b rvSize with
      | none => none
      | some r =>
        if r.status ≠ PR_SUCCESS then some ⟨r.collection, none, r.lastError⟩
        else some ⟨r.collection, some r.rvObjects, r.lastError⟩

/-- The function `nssPKIObjectCollection_GetCRLs`, whose body is that of
`nssPKIObjectCollection_GetCertificates`. -/
def nssPKIObjectCollection_GetCRLs (vt : Vtable) (arrayOk : Bool)
    (lastError : Option NSSError) (collection : nssPKIObjectCollection)
    (rvOpt : Option (List (Option nssPKIObject))) (maximumOpt : Nat) :
    Option GetArrayResult :=
  nssPKIObjectCollection_GetCertificates vt arrayOk lastError collection rvOpt maximumOpt

/-- The enumerator `collection_traverse_callback`; the state is the node arena and the list
of the objects handed to the user's callback so far. The callback's status is discarded. -/
def collection_traverse_callback (vt : Vtable) (he : PLHashEntry UID Nat) (_index : Nat)
    (st : List pkiObjectCollectionNode × List nssPKIObject) :
    Option (HTEnumerate × (List pkiObjectCollectionNode × List nssPKIObject)) :=
  let nodePtr := he.value
  match st.1[nodePtr]? with
  | none => none
  | some node =>
    if !node.haveObject then
      match node.object with
      | none => none
      | some o =>
        match vt.createObject o with
        | none =>
          some (HTEnumerate.HT_ENUMERATE_REMOVE,
            (st.1.set nodePtr { node with object := none }, st.2))
        | some o1 =>
          some (HTEnumerate.HT_ENUMERATE_NEXT,
            (st.1.set nodePtr { node with object := some o1, haveObject := true },
             st.2 ++ [o1]))
    else
      match node.object with
      | none => none
      | some o => some (HTEnumerate.HT_ENUMERATE_NEXT, (st.1, st.2 ++ [o]))

/-- The function `nssPKIObjectCollection_Traverse`: the collection afterwards, the returned
status and the objects handed to the callback, in order. -/
def nssPKIObjectCollection_Traverse (vt : Vtable) (collection : nssPKIObjectCollection) :
    Option (nssPKIObjectCollection × PRStatus × List nssPKIObject) :=
  match PL_HashTableEnumerateEntries (collection_traverse_callback vt)
      collection.PKIobjecthashtable 0 (collection.nodes, []) with
  | none => none
  | some (_, table, nodes, seen) =>
    some ({ collection with nodes := nodes, PKIobjecthashtable := table }, PR_SUCCESS, seen)

/-- The function `nssPKIObjectCollection_AddInstanceAsObject`. The call of
`STAN_ForceCERTCertificateUpdate` does not touch the collection. -/
def nssPKIObjectCollection_AddInstanceAsObject (vt : Vtable) (env : AllocEnv)
    (collection : nssPKIObjectCollection) (inst : nssCryptokiObject) :
    Option (nssPKIObjectCollection × PRStatus) :=
  match add_object_instance vt env collection inst with
  | none => none
  | some (c1, none, _) => some (c1, PR_FAILURE)
  | some (c1, some nodePtr, _) =>
    match c1.nodes[nodePtr]? with
    | none => none
    | some node =>
      if !node.haveObject then
        match node.object with
        | none => none
        | some o =>
          match vt.createObject o with
          | none =>
            match nssPKIObjectCollection_RemoveNode
                { c1 with nodes := c1.nodes.set nodePtr { node with object := none } }
                nodePtr with
            | none => none
            | some c2 => some (c2, PR_FAILURE)
          | some o1 =>
            some ({ c1 with
                      nodes := c1.nodes.set nodePtr
                        { node with object := some o1, haveObject := true } }, PR_SUCCESS)
      else some (c1, PR_SUCCESS)

/-! ## Objects: removal of instances -/

/-- The loop of `nssPKIObject_RemoveInstanceForToken`: the index `i` of the first instance
from position `i` on whose token is `token`, if there is one. -/
def findToken (token : Nat) : List nssCryptokiObject → Nat → Option Nat
  | [], _ => none
  | x :: rest, i => if x.token = token then some i else findToken token rest (i + 1)

/-- The function `nssPKIObject_RemoveInstanceForToken`. After the loop the count is
decremented in every case and the array is cut to the new count (the outcome of the
reallocation does not change its contents). -/
def nssPKIObject_RemoveInstanceForToken (object : nssPKIObject) (token : Nat) :
    PRStatus × nssPKIObject :=
  if object.numInstances = 0 then (PR_SUCCESS, object)
  else
    let instances1 : List nssCryptokiObject :=
      match findToken token object.instances 0 with
      | some i =>
        match object.instances[object.numInstances - 1]? with
        | some last => object.instances.set i last
        | none => object.instances
      | none => object.instances
    (PR_SUCCESS, { object with instances := instances1.take (object.numInstances - 1) })

/-- The loop of `nssPKIObject_DeleteStoredObject` from index `i` on, for `fuel` more
iterations, over the array `arr` (a `NULL` slot is `none`); `nssToken_DeleteStoredObject`
is the token driver's deletion. Returns the array, `numNotDestroyed` and the status. -/
def DeleteStoredObject_loop (nssToken_DeleteStoredObject : nssCryptokiObject → PRStatus) :
    Nat → Nat → List (Option nssCryptokiObject) → Nat → PRStatus →
    Option (List (Option nssCryptokiObject) × Nat × PRStatus)
  | 0, _, arr, numNotDestroyed, status => some (arr, numNotDestroyed, status)
  | fuel + 1, i, arr, numNotDestroyed, _ =>
    match arr[i]? with
    | some (some inst) =>
      let status := nssToken_DeleteStoredObject inst
      let arr1 := arr.set i none
      if status = PR_SUCCESS then
        DeleteStoredObject_loop nssToken_DeleteStoredObject fuel (i + 1) arr1
          numNotDestroyed status
      else
        DeleteStoredObject_loop nssToken_DeleteStoredObject fuel (i + 1)
          (arr1.set numNotDestroyed (some inst)) (numNotDestroyed + 1) status
    | _ => none

/-- The function `nssPKIObject_DeleteStoredObject`: the returned status and the object
afterwards, whose instances are the first `numNotDestroyed` slots of the array. -/
def nssPKIObject_DeleteStoredObject
    (nssToken_DeleteStoredObject : nssCryptokiObject → PRStatus) (object : nssPKIObject) :
    Option (PRStatus × nssPKIObject) :=
  match DeleteStoredObject_loop nssToken_DeleteStoredObject object.numInstances 0
      (object.instances.map some) 0 PR_SUCCESS with
  | none => none
  | some (arr, numNotDestroyed, status) =>
    if numNotDestroyed = 0 then some (status, { object with instances := [] })
    else
      some (status, { object with instances := (arr.take numNotDestroyed).filterMap id })

/-! ## Certificates and best-match selection -/

/-- The time value `NSSTime`: a wrapper of a `PRTime`. -/
structure NSSTime where
  prTime : Int
deriving DecidableEq, Repr

/-- A usage descriptor `NSSUsage`, which this file only hands on to the decoded form. -/
abbrev NSSUsage := Nat

/-- Modelled from the spec: the decoded form of a certificate (`nssDecodedCert`, declared
outside this file), with its payload `data` and the four methods that the selection calls:
usage match, validity at a time, trust for a usage, and the "newer" comparator, which is
applied to the payload of the other decoded form. -/
structure nssDecodedCert where
  data : Nat
  matchUsage : NSSUsage → Bool
  isValidAtTime : NSSTime → Bool
  isTrustedForUsage : NSSUsage → Bool
  isNewerThan : Nat → Bool

/-- Modelled from the spec: a certificate `NSSCertificate` (declared outside this file): the
object it extends, its DER encoding, and its decoded form if it has one. -/
structure NSSCertificate where
  object : nssPKIObject
  encoding : NSSItem
  decoding : Option nssDecodedCert

/-- Modelled from the spec: `nssCertificate_GetDecoding` (defined outside this file) returns
the decoded form, or `NULL` when there is none. -/
def nssCertificate_GetDecoding (c : NSSCertificate) : Option nssDecodedCert := c.decoding

/-- Modelled from the spec: `nssCertificate_AddRef` (defined outside this file) add-refs the
object of the certificate and returns the certificate. -/
def nssCertificate_AddRef (c : NSSCertificate) : NSSCertificate :=
  { c with object := nssPKIObject_AddRef c.object }

/-- The local variables of `nssCertificateArray_FindBestCertificate` that live across the
iterations; `bestCert` and `bestdc` are always assigned together. -/
structure BestCertState where
  best : Option (NSSCertificate × nssDecodedCert)
  bestCertMatches : Bool
  bestCertIsValidAtTime : Bool
  bestCertIsTrusted : Bool

/-- The end of the loop body, "Otherwise, take the newer one": the candidate replaces the
best certificate unless the best one is newer. -/
def FindBest_newer (s : BestCertState) (bestdc : nssDecodedCert) (c : NSSCertificate)
    (dc : nssDecodedCert) : BestCertState :=
  if !bestdc.isNewerThan dc.data then { s with best := some (nssCertificate_AddRef c, dc) }
  else s

/-- The part of the loop body on trust for the usage. -/
def FindBest_trust (usage : NSSUsage) (s : BestCertState) (bestdc : nssDecodedCert)
    (c : NSSCertificate) (dc : nssDecodedCert) : BestCertState :=
  if s.bestCertIsTrusted || bestdc.isTrustedForUsage usage then
    if !dc.isTrustedForUsage usage then { s with bestCertIsTrusted := true }
    else FindBest_newer { s with bestCertIsTrusted := true } bestdc c dc
  else
    if dc.isTrustedForUsage usage then
      { s with best := some (nssCertificate_AddRef c, dc), bestCertIsTrusted := true }
    else FindBest_newer s bestdc c dc

/-- The part of the loop body on validity at the time. -/
def FindBest_time (time : NSSTime) (usage : NSSUsage) (s : BestCertState)
    (bestdc : nssDecodedCert) (c : NSSCertificate) (dc : nssDecodedCert) : BestCertState :=
  if s.bestCertIsValidAtTime || bestdc.isValidAtTime time then
    if !dc.isValidAtTime time then { s with bestCertIsValidAtTime := true }
    else FindBest_trust usage { s with bestCertIsValidAtTime := true } bestdc c dc
  else
    if dc.isValidAtTime time then
      { s with best := some (nssCertificate_AddRef c, dc), bestCertIsValidAtTime := true }
    else FindBest_trust usage s bestdc c dc

/-- One iteration of the loop of `nssCertificateArray_FindBestCertificate` on the
certificate `c`. The reference that a replaced best certificate held is released by
`nssCertificate_Destroy`, which leaves the returned certificate untouched. -/
def FindBest_step (time : NSSTime) (usage : NSSUsage) (s : BestCertState)
    (c : NSSCertificate) : BestCertState :=
  match nssCertificate_GetDecoding c with
  | none => s
  | some dc =>
    let thisCertMatches := dc.matchUsage usage
    match s.best with
    | none =>
      { s with best := some (nssCertificate_AddRef c, dc), bestCertMatches := thisCertMatches }
    | some (_, bestdc) =>
      if s.bestCertMatches && !thisCertMatches then s
      else if !s.bestCertMatches && thisCertMatches then
        { s with best := some (nssCertificate_AddRef c, dc),
                 bestCertMatches := thisCertMatches }
      else FindBest_time time usage s bestdc c dc

/-- The first statement of `nssCertificateArray_FindBestCertificate`: the time to use is
the given one, or else the clock reading `PR_Now` (`NSSTime_Now(&sTime)`). -/
def FindBest_timeArg (PR_Now : Int) (timeOpt : Option NSSTime) : NSSTime :=
  match timeOpt with
  | some t => t
  | none => ⟨PR_Now⟩

/-- The function `nssCertificateArray_FindBestCertificate`; `certs` is `none` for a `NULL`
array and otherwise the certificates before the terminator, `PR_Now` is the clock reading
used when no time is given. The argument `policiesOpt` is never read. -/
def nssCertificateArray_FindBestCertificate (PR_Now : Int)
    (certs : Option (List NSSCertificate)) (timeOpt : Option NSSTime) (usage : NSSUsage) :
    Option NSSCertificate :=
  let time : NSSTime := FindBest_timeArg PR_Now timeOpt
  match certs with
  | none => none
  | some l =>
    ((l.foldl (FindBest_step time usage)
      { best := none, bestCertMatches := false, bestCertIsValidAtTime := false,
        bestCertIsTrusted := false }).best).map fun b => b.1

/-! ## Arrays of certificates, nicknames, CRL identifiers -/

/-- The contents of a `NULL`-terminated array: the slots before the first `NULL`. -/
def readArray {α : Type} : List (Option α) → List α
  | [] => []
  | none :: _ => []
  | some x :: rest => x :: readArray rest

/-- The copy loop of `nssCertificateArray_Join`:
`for (cp = certs2; *cp; cp++, count1++) certs[count1] = *cp;`. -/
def Join_copy {α : Type} : List (Option α) → List α → Nat → List (Option α)
  | certs, [], _ => certs
  | certs, c :: rest, count1 => Join_copy (certs.set count1 (some c)) rest (count1 + 1)

/-- The function `nssCertificateArray_Join`; an array is `none` for `NULL` and otherwise its
certificates before the terminator, `arrayOk` is the outcome of the reallocation. The
reallocated array has `count + 1` slots, the new ones zeroed. -/
def nssCertificateArray_Join (arrayOk : Bool) (certs1 certs2 : Option (List NSSCertificate)) :
    Option (List NSSCertificate) :=
  match certs1, certs2 with
  | some l1, some l2 =>
    let count1 := l1.length
    let count := count1 + l2.length
    if !arrayOk then none
    else
      let certs : List (Option NSSCertificate) :=
        l1.map some ++ List.replicate (count + 1 - count1) none
      some (readArray (Join_copy certs l2 count1))
  | some l1, none => some l1
  | none, c2 => c2

/-- Modelled from the spec: `nssUTF8_Duplicate` (defined outside this file) returns "a fresh
copy owned by the caller", `NULL` for `NULL` or when the allocation fails. -/
def nssUTF8_Duplicate (allocOk : Bool) (s : Option String) : Option String :=
  if allocOk then s else none

/-- The loop of `nssPKIObject_GetNicknameForToken` over the instances; the token of an
instance is never `NULL`. -/
def GetNicknameForToken_loop (allocOk : Bool) (tokenOpt : Option Nat) :
    List nssCryptokiObject → Option String
  | [] => none
  | x :: rest =>
    if (tokenOpt.isNone && x.label.isSome) || (some x.token == tokenOpt) then
      nssUTF8_Duplicate allocOk x.label
    else GetNicknameForToken_loop allocOk tokenOpt rest

/-- The function `nssPKIObject_GetNicknameForToken`. -/
def nssPKIObject_GetNicknameForToken (allocOk : Bool) (object : nssPKIObject)
    (tokenOpt : Option Nat) : Option String :=
  GetNicknameForToken_loop allocOk tokenOpt object.instances

/-- The value of the NSPR constant `PR_FALSE` (`#define PR_FALSE 0`). -/
abbrev PR_FALSE : Int := 0

/-- The value of the NSPR constant `PR_TRUE` (`#define PR_TRUE 1`). -/
abbrev PR_TRUE : Int := 1

/-- Modelled from the spec: a CRL `NSSCRL` (declared outside this file): the object it
extends and its DER encoding, the zeroed item when the encoding is absent. -/
structure NSSCRL where
  object : nssPKIObject
  encoding : NSSItem
deriving DecidableEq, Repr

/-- Modelled from the spec: `nssCRL_GetEncoding` (defined outside this file) returns the
encoding, or `NULL` when it is absent ("an absent item has `length = 0`"). -/
def nssCRL_GetEncoding (crl : NSSCRL) : Option NSSItem :=
  if crl.encoding.size = 0 then none else some crl.encoding

/-- The function `crl_getUIDFromObject`: the returned value, the buffer `uid` afterwards and
the last-error slot afterwards. -/
def crl_getUIDFromObject (lastError : Option NSSError) (o : NSSCRL) (uid : UID) :
    PRStatus × UID × Option NSSError :=
  match nssCRL_GetEncoding o with
  | none => (PR_FALSE, uid, some NSSError.NSS_ERROR_INVALID_ARGUMENT)
  | some encoding => (PR_SUCCESS, { uid0 := encoding, uid1 := NSSItem.zero }, lastError)

/-! ## Vocabulary of the properties -/

/-- No two instances of the list share `(token, handle)`. -/
abbrev DistinctInstances (l : List nssCryptokiObject) : Prop :=
  l.Pairwise fun a b => nssCryptokiObject_Equal a b = false

/-- A call that touches the reference count of an object. -/
inductive RefCall where
  | AddRef
  | Destroy
deriving DecidableEq, Repr

/-- One call applied to an object that is alive (`some`) or destroyed (`none`): the object
afterwards and, for `nssPKIObject_Destroy`, the flag it returned. A call on a destroyed
object is undefined behaviour; it has no result and leaves no object. -/
def applyRefCall : Option nssPKIObject → RefCall → Option nssPKIObject × Option Bool
  | none, _ => (none, none)
  | some o, RefCall.AddRef => (some (nssPKIObject_AddRef o), none)
  | some o, RefCall.Destroy => ((nssPKIObject_Destroy o).1, some (nssPKIObject_Destroy o).2)

/-- The flags returned by the `nssPKIObject_Destroy` calls of a sequence, in call order. -/
def runRefCalls : Option nssPKIObject → List RefCall → List Bool
  | _, [] => []
  | s, c :: rest =>
    match (applyRefCall s c).2 with
    | some b => b :: runRefCalls (applyRefCall s c).1 rest
    | none => runRefCalls (applyRefCall s c).1 rest

/-- The assertion `PR_ASSERT(object->refCount > 0)` of `nssPKIObject_Destroy`; it cannot hold
of an object that has been destroyed. -/
def refCountPositive : Option nssPKIObject → Bool
  | none => false
  | some o => decide (1 ≤ o.refCount)

/-- Every `nssPKIObject_Destroy` of the sequence is applied to a count of at least one. -/
def destroysLive : Option nssPKIObject → List RefCall → Bool
  | _, [] => true
  | s, c :: rest =>
    (c != RefCall.Destroy || refCountPositive s) && destroysLive (applyRefCall s c).1 rest

/-- Every call of the sequence is applied to an object that has not been destroyed. -/
def callsDefined : Option nssPKIObject → List RefCall → Bool
  | _, [] => true
  | s, c :: rest => s.isSome && callsDefined (applyRefCall s c).1 rest

/-! ## Sample inputs -/

/-- The identifier `(DER = "aa", ∅)`: one byte `0xaa`, second item absent. -/
def sampleUID : UID := ⟨⟨[0xaa]⟩, NSSItem.zero⟩

/-- A table of function pointers for which every instance and object has the identifier
`sampleUID` and every promotion of a proto-object fails (`createObject` returns `NULL`). -/
def failingVtable : Vtable :=
  { getUIDFromObject := fun _ _ => (PR_SUCCESS, sampleUID)
    getUIDFromInstance := fun _ _ => (PR_SUCCESS, sampleUID)
    createObject := fun _ => none }

/-- A table of function pointers for which the identifier of an instance is the one-byte
item holding its handle, and promotion returns the proto-object itself. -/
def handleVtable : Vtable :=
  { getUIDFromObject := fun _ _ => (PR_SUCCESS, sampleUID)
    getUIDFromInstance := fun inst _ => (PR_SUCCESS, ⟨⟨[inst.handle]⟩, NSSItem.zero⟩)
    createObject := fun o => some o }

/-- The allocator that never fails, in every iteration. -/
def allocsOk : Nat → AllocEnv := fun _ => AllocEnv.ok

/-! ## The invariant of instance insertion -/

/-- The identifier that `getUIDFromInstance` writes into a zeroed buffer. -/
def uidOf (vt : Vtable) (inst : nssCryptokiObject) : UID :=
  (vt.getUIDFromInstance inst UID.zero).2

/-- The instance list `l` of the node with identifier `u` is right for the instances `seen`
added so far: no `(token, handle)` twice, only added instances with identifier `u`, and one
for every added instance with identifier `u`. -/
structure NodeInv (vt : Vtable) (seen : List nssCryptokiObject) (u : UID)
    (l : List nssCryptokiObject) : Prop where
  distinct : DistinctInstances l
  sound : ∀ x ∈ l, x ∈ seen ∧ uidOf vt x = u
  complete : ∀ y ∈ seen, uidOf vt y = u → ∃ x ∈ l, nssCryptokiObject_Equal x y = true

/-- The state of a collection into which exactly the instances `seen` have been added. -/
structure CollInv (vt : Vtable) (c : nssPKIObjectCollection)
    (seen : List nssCryptokiObject) : Prop where
  objHash : ∀ he ∈ c.PKIobjecthashtable, he.keyHash = hash_object he.key
  objNodup : (c.PKIobjecthashtable.map fun he => he.key).Nodup
  sizeEq : c.size = c.PKIobjecthashtable.length
  objKeys : ∀ u, u ∈ (c.PKIobjecthashtable.map fun he => he.key) ↔ ∃ y ∈ seen, uidOf vt y = u
  objNodes : ∀ he ∈ c.PKIobjecthashtable, ∃ nd o, c.nodes[he.value]? = some nd ∧
    nd.uid = he.key ∧ nd.object = some o ∧ NodeInv vt seen he.key o.instances
  instHash : ∀ he ∈ c.PKIinstancehashtable, he.keyHash = hash_instance he.key ∧ he.key ∈ seen
  instAll : ∀ y ∈ seen, ∃ he ∈ c.PKIinstancehashtable,
    nssCryptokiObject_Equal he.key y = true

/-- A token driver whose deletion fails exactly for the instances on token 2. -/
def sampleDelete : nssCryptokiObject → PRStatus :=
  fun x => if x.token = 2 then PR_FAILURE else PR_SUCCESS

/-- A certificate with count 1, the one-byte encoding `n`, and a decoded form whose answers
do not depend on the usage or the time: `usageOk`, `valid`, `trusted`, and `newer` on the
payload of the other certificate (the payload of this one is `n`). -/
def sampleCert (n : Nat) (usageOk valid trusted : Bool) (newer : Nat → Bool) :
    NSSCertificate :=
  { object := ⟨1, [], nssPKILockType.nssPKIMonitor⟩
    encoding := ⟨[n]⟩
    decoding := some
      { data := n
        matchUsage := fun _ => usageOk
        isValidAtTime := fun _ => valid
        isTrustedForUsage := fun _ => trusted
        isNewerThan := newer } }

/-- What a property of the selection looks at in a certificate: its encoding, its count,
and the answers of its decoded form for a usage and a time. -/
def certView (time : NSSTime) (usage : NSSUsage) (c : NSSCertificate) :
    NSSItem × Int × Option (Bool × Bool × Bool) :=
  (c.encoding, c.object.refCount,
    c.decoding.map fun dc =>
      (dc.matchUsage usage, dc.isValidAtTime time, dc.isTrustedForUsage usage))

/-- The state of the selection after the certificates `seen`: no best certificate exactly
when none of them has a decoded form; otherwise the best certificate is one of them,
add-refed, `bestCertMatches` is its answer on the usage, and it is true as soon as one of
them matches the usage. -/
def BestInv (usage : NSSUsage) (seen : List NSSCertificate) (s : BestCertState) : Prop :=
  (s.best = none → ∀ c ∈ seen, c.decoding = none) ∧
  ∀ b bdc, s.best = some (b, bdc) →
    (∃ c ∈ seen, c.decoding = some bdc ∧ b = nssCertificate_AddRef c) ∧
    s.bestCertMatches = bdc.matchUsage usage ∧
    ∀ c ∈ seen, ∀ dc, c.decoding = some dc → dc.matchUsage usage = true →
      s.bestCertMatches = true

/-- What "iterate the core, stop calling it at the first failure" means: the instances are
handed to `add_object_instance` one after the other, iteration `i` with the allocator
`allocs i`; the first call that returns `NULL` ends the run with failure and no later
instance reaches the core. -/
def addUntilFailure (vt : Vtable) (allocs : Nat → AllocEnv) :
    nssPKIObjectCollection → List nssCryptokiObject → Nat →
    Option (nssPKIObjectCollection × PRStatus)
  | c, [], _ => some (c, PR_SUCCESS)
  | c, inst :: rest, i =>
    match add_object_instance vt (allocs i) c inst with
    | none => none
    | some (c1, none, _) => some (c1, PR_FAILURE)
    | some (c1, some _, _) => addUntilFailure vt allocs c1 rest (i + 1)

/-- The UID index of a collection is well formed: every entry is hashed by its key, no key
occurs twice, every entry's node is in the arena, carries the entry's key as its identifier
and has an object, and `size` is at least the number of entries. -/
structure UidIndexWF (c : nssPKIObjectCollection) : Prop where
  objHash : ∀ he ∈ c.PKIobjecthashtable, he.keyHash = hash_object he.key
  objNodup : (c.PKIobjecthashtable.map fun he => he.key).Nodup
  objNodes : ∀ he ∈ c.PKIobjecthashtable, ∃ nd o, c.nodes[he.value]? = some nd ∧
    nd.uid = he.key ∧ nd.object = some o
  sizeGe : c.PKIobjecthashtable.length ≤ c.size

/-- The object that the node `v` of the arena holds (`NULL` is `none`). -/
def objAt (nodes : List pkiObjectCollectionNode) (v : Nat) : Option nssPKIObject :=
  (nodes[v]?).bind fun nd => nd.object

/-- The collection after `nssPKIObjectCollection_AddInstances` of the instance
`(token 100, handle 1)` on a new collection with `failingVtable`: one proto-object node. -/
def protoCollection : nssPKIObjectCollection :=
  { nodes := [⟨false, some ⟨1, [⟨1, 100, none⟩], nssPKILockType.nssPKIMonitor⟩, sampleUID⟩]
    PKIobjecthashtable := [⟨1, sampleUID, 0⟩]
    PKIinstancehashtable := [⟨101, ⟨1, 100, none⟩, 0⟩]
    size := 1
    objectType := pkiObjectType.pkiObjectType_Certificate
    lockType := nssPKILockType.nssPKIMonitor }

/-- The collection after `nssPKIObjectCollection_AddInstances` of the instances
`(token 100, handle 1)` and `(token 100, handle 2)` on a new collection with
`handleVtable`: two proto-object nodes. -/
def twoNodeCollection : nssPKIObjectCollection :=
  { nodes :=
      [⟨false, some ⟨1, [⟨1, 100, none⟩], nssPKILockType.nssPKIMonitor⟩,
          ⟨⟨[1]⟩, NSSItem.zero⟩⟩,
        ⟨false, some ⟨1, [⟨2, 100, none⟩], nssPKILockType.nssPKIMonitor⟩,
          ⟨⟨[2]⟩, NSSItem.zero⟩⟩]
    PKIobjecthashtable := [⟨1, ⟨⟨[1]⟩, NSSItem.zero⟩, 0⟩, ⟨1, ⟨⟨[2]⟩, NSSItem.zero⟩, 1⟩]
    PKIinstancehashtable := [⟨101, ⟨1, 100, none⟩, 0⟩, ⟨102, ⟨2, 100, none⟩, 1⟩]
    size := 2
    objectType := pkiObjectType.pkiObjectType_Certificate
    lockType := nssPKILockType.nssPKIMonitor }

/-! ## Lemmas on instances and counters -/

theorem nssCryptokiObject_Equal_iff (a b : nssCryptokiObject) :
    nssCryptokiObject_Equal a b = true ↔ a.token = b.token ∧ a.handle = b.handle := by
  simp [nssCryptokiObject_Equal]

theorem findInstance_none (inst : nssCryptokiObject) (l : List nssCryptokiObject) (i : Nat) :
    findInstance inst l i = none ↔ ∀ x ∈ l, nssCryptokiObject_Equal x inst = false := by
  induction l generalizing i with
  | nil => simp [findInstance]
  | cons x rest ih =>
    by_cases hx : nssCryptokiObject_Equal x inst = true
    · simp [findInstance, hx]
    · simp only [Bool.not_eq_true] at hx
      simp [findInstance, hx, ih]

theorem findInstance_some (inst : nssCryptokiObject) (l : List nssCryptokiObject) (i j : Nat)
    (h : findInstance inst l i = some j) :
    ∃ pre x post, l = pre ++ x :: post ∧ j = i + pre.length ∧
      (∀ y ∈ pre, nssCryptokiObject_Equal y inst = false) ∧
      nssCryptokiObject_Equal x inst = true := by
  induction l generalizing i with
  | nil => simp [findInstance] at h
  | cons x rest ih =>
    by_cases hx : nssCryptokiObject_Equal x inst = true
    · simp [findInstance, hx] at h
      exact ⟨[], x, rest, by simp, by simp [h], by simp, hx⟩
    · simp only [Bool.not_eq_true] at hx
      simp only [findInstance, hx] at h
      obtain ⟨pre, y, post, h1, h2, h3, h4⟩ := ih (i + 1) (by simpa using h)
      refine ⟨x :: pre, y, post, by simp [h1], by simp [h2]; omega, ?_, h4⟩
      intro z hz
      rcases List.mem_cons.1 hz with rfl | hz
      · exact hx
      · exact h3 z hz

theorem setLabel_append (pre post : List nssCryptokiObject) (x : nssCryptokiObject)
    (label : Option String) :
    setLabel (pre ++ x :: post) pre.length label = pre ++ { x with label := label } :: post := by
  have h : (pre ++ x :: post)[pre.length]? = some x := by
    rw [List.getElem?_append_right (Nat.le_refl _)]
    simp
  unfold setLabel
  rw [h]
  simp

theorem nssPKIObject_AddInstance_cases (arrayOk : Bool) (object : nssPKIObject)
    (inst : nssCryptokiObject) :
    (∃ pre x post, object.instances = pre ++ x :: post ∧
        (∀ y ∈ pre, nssCryptokiObject_Equal y inst = false) ∧
        nssCryptokiObject_Equal x inst = true ∧
        nssPKIObject_AddInstance arrayOk object inst =
          (PR_SUCCESS,
            { object with instances := pre ++ { x with label := inst.label } :: post })) ∨
    ((∀ y ∈ object.instances, nssCryptokiObject_Equal y inst = false) ∧
        nssPKIObject_AddInstance arrayOk object inst =
          if arrayOk then
            (PR_SUCCESS, { object with instances := object.instances ++ [inst] })
          else (PR_FAILURE, object)) := by
  unfold nssPKIObject_AddInstance
  by_cases h0 : object.numInstances = 0
  · right
    have hnil : object.instances = [] := by
      simpa [nssPKIObject.numInstances] using h0
    simp [h0, hnil]
  · cases hf : findInstance inst object.instances 0 with
    | none =>
      right
      refine ⟨(findInstance_none inst _ 0).1 hf, ?_⟩
      simp [h0]
    | some i =>
      left
      obtain ⟨pre, x, post, h1, h2, h3, h4⟩ := findInstance_some inst _ 0 i hf
      refine ⟨pre, x, post, h1, h3, h4, ?_⟩
      simp only [h0, if_false]
      have hi : i = pre.length := by omega
      rw [hi, h1, setLabel_append]

theorem nssCryptokiObject_Equal_setLabel_left (x y : nssCryptokiObject) (l : Option String) :
    nssCryptokiObject_Equal { x with label := l } y = nssCryptokiObject_Equal x y := rfl

theorem nssCryptokiObject_Equal_setLabel_right (x y : nssCryptokiObject) (l : Option String) :
    nssCryptokiObject_Equal y { x with label := l } = nssCryptokiObject_Equal y x := rfl

theorem nssPKIObject_AddInstance_distinct_step (arrayOk : Bool) (object : nssPKIObject)
    (inst : nssCryptokiObject) (h : DistinctInstances object.instances) :
    DistinctInstances (nssPKIObject_AddInstance arrayOk object inst).2.instances := by
  rcases nssPKIObject_AddInstance_cases arrayOk object inst with
    ⟨pre, x, post, h1, h2, h3, h4⟩ | ⟨h1, h2⟩
  · rw [h4]
    simp only [DistinctInstances] at h ⊢
    rw [h1] at h
    rw [List.pairwise_append] at h ⊢
    obtain ⟨hp, hq, hpq⟩ := h
    rw [List.pairwise_cons] at hq
    refine ⟨hp, ?_, ?_⟩
    · rw [List.pairwise_cons]
      exact ⟨fun a ha => by
        rw [nssCryptokiObject_Equal_setLabel_left]; exact hq.1 a ha, hq.2⟩
    · intro a ha b hb
      rcases List.mem_cons.1 hb with rfl | hb
      · rw [nssCryptokiObject_Equal_setLabel_right]
        exact hpq a ha x (List.mem_cons_self _ _)
      · exact hpq a ha b (List.mem_cons_of_mem _ hb)
  · rw [h2]
    cases arrayOk with
    | false => simpa using h
    | true =>
      simp only [DistinctInstances, if_true] at h ⊢
      rw [List.pairwise_append]
      refine ⟨h, by simp, ?_⟩
      intro a ha b hb
      simp only [List.mem_singleton] at hb
      subst hb
      exact h1 a ha

theorem nssPKIObject_Create_refCount (env : AllocEnv) (instanceOpt : Option nssCryptokiObject)
    (lockType : nssPKILockType) (o : nssPKIObject)
    (h : nssPKIObject_Create env instanceOpt lockType = some o) : o.refCount = 1 := by
  unfold nssPKIObject_Create at h
  by_cases hok : env.objectOk = true
  · simp only [hok, Bool.not_true] at h
    cases instanceOpt with
    | none =>
      simp at h
      subst h
      simp [wrapInt32]
    | some inst =>
      simp only [Bool.false_eq_true, if_false] at h
      rcases nssPKIObject_AddInstance_cases env.arrayOk
          { refCount := 0, instances := [], lockType := lockType } inst with
        ⟨pre, x, post, h1, _, _, _⟩ | ⟨_, h2⟩
      · simp at h1
      · rw [h2] at h
        cases harr : env.arrayOk with
        | false => simp [harr] at h
        | true =>
          simp [harr] at h
          subst h
          simp [wrapInt32]
  · simp [hok] at h

theorem getLast?_cons_of_ne_nil {α : Type} (c : α) (rest : List α) (h : rest ≠ []) :
    (c :: rest).getLast? = rest.getLast? := by
  cases rest with
  | nil => exact absurd rfl h
  | cons d rest2 => simp [List.getLast?_cons_cons]

theorem destroysLive_none (calls : List RefCall) (h : destroysLive none calls = true) :
    calls.count RefCall.Destroy = 0 := by
  induction calls with
  | nil => rfl
  | cons c rest ih =>
    cases c with
    | AddRef =>
      simp only [destroysLive, applyRefCall, Bool.and_eq_true] at h
      rw [List.count_cons_of_ne (by decide)]
      exact ih h.2
    | Destroy =>
      simp [destroysLive, refCountPositive] at h

theorem count_zero_nil (calls : List RefCall) (hA : calls.count RefCall.AddRef = 0)
    (hD : calls.count RefCall.Destroy = 0) : calls = [] := by
  cases calls with
  | nil => rfl
  | cons c rest =>
    cases c with
    | AddRef => simp at hA
    | Destroy => simp at hD

theorem runRefCalls_spec (calls : List RefCall) :
    ∀ o : nssPKIObject, -2 ^ 31 ≤ o.refCount → o.refCount < 2 ^ 31 →
      destroysLive (some o) calls = true → 1 ≤ calls.count RefCall.Destroy →
      o.refCount + calls.count RefCall.AddRef ≤ calls.count RefCall.Destroy →
      ∃ m, calls.count RefCall.Destroy = m + 1 ∧
        runRefCalls (some o) calls = List.replicate m false ++ [true] ∧
        calls.getLast? = some RefCall.Destroy ∧ callsDefined (some o) calls = true := by
  induction calls with
  | nil => intro o _ _ _ hd _; simp at hd
  | cons c rest ih =>
    intro o hlo hhi hlive hd hsum
    cases c with
    | AddRef =>
      simp only [destroysLive, applyRefCall, Bool.and_eq_true] at hlive
      have cA : (RefCall.AddRef :: rest).count RefCall.AddRef =
          rest.count RefCall.AddRef + 1 := by simp
      have cD : (RefCall.AddRef :: rest).count RefCall.Destroy =
          rest.count RefCall.Destroy := by simp [List.count_cons]
      rw [cD] at hd hsum
      rw [cA] at hsum
      have hne : rest ≠ [] := by
        intro h
        rw [h] at hd
        simp at hd
      obtain ⟨m, hm1, hm2, hm3, hm4⟩ := ih (nssPKIObject_AddRef o)
        (by simp only [nssPKIObject_AddRef, wrapInt32]; omega)
        (by simp only [nssPKIObject_AddRef, wrapInt32]; omega) hlive.2 hd
        (by
          simp only [nssPKIObject_AddRef, wrapInt32]
          push_cast at hsum ⊢
          omega)
      refine ⟨m, by rw [cD]; exact hm1, ?_, ?_, ?_⟩
      · simp only [runRefCalls, applyRefCall]
        exact hm2
      · rw [getLast?_cons_of_ne_nil _ _ hne]; exact hm3
      · simp only [callsDefined, applyRefCall, Option.isSome_some, Bool.true_and]
        exact hm4
    | Destroy =>
      simp only [destroysLive, applyRefCall, Bool.and_eq_true, bne_self_eq_false,
        Bool.false_or, refCountPositive, decide_eq_true_eq] at hlive
      obtain ⟨hpos, hrest⟩ := hlive
      have cA : (RefCall.Destroy :: rest).count RefCall.AddRef =
          rest.count RefCall.AddRef := by simp [List.count_cons]
      have cD : (RefCall.Destroy :: rest).count RefCall.Destroy =
          rest.count RefCall.Destroy + 1 := by simp
      rw [cD] at hd hsum
      rw [cA] at hsum
      have hw : wrapInt32 (o.refCount - 1) = o.refCount - 1 := by
        unfold wrapInt32
        omega
      by_cases h1 : o.refCount = 1
      · have hdes : nssPKIObject_Destroy o = (none, true) := by
          simp [nssPKIObject_Destroy, h1, wrapInt32]
        rw [hdes] at hrest
        have hD0 := destroysLive_none rest hrest
        have hA0 : rest.count RefCall.AddRef = 0 := by
          rw [h1, hD0] at hsum
          push_cast at hsum
          omega
        have hnil := count_zero_nil rest hA0 hD0
        subst hnil
        refine ⟨0, by simp, ?_, by simp, by simp [callsDefined]⟩
        simp [runRefCalls, applyRefCall, hdes]
      · have hdes : nssPKIObject_Destroy o =
            (some { o with refCount := o.refCount - 1 }, false) := by
          have : ¬ o.refCount - 1 = 0 := by omega
          simp [nssPKIObject_Destroy, hw, this]
        rw [hdes] at hrest
        obtain ⟨m, hm1, hm2, hm3, hm4⟩ := ih { o with refCount := o.refCount - 1 }
          (by simp only; omega) (by simp only; omega) hrest
          (by simp only at *; push_cast at hsum; omega)
          (by simp only at *; push_cast at hsum ⊢; omega)
        have hne : rest ≠ [] := by
          intro h
          rw [h] at hm1
          simp at hm1
        refine ⟨m + 1, by rw [cD, hm1], ?_, ?_, ?_⟩
        · simp only [runRefCalls, applyRefCall, hdes, hm2]
          rfl
        · rw [getLast?_cons_of_ne_nil _ _ hne]; exact hm3
        · simp only [callsDefined, applyRefCall, hdes, Option.isSome_some, Bool.true_and]
          exact hm4


/-! ## Lemmas on the hash tables -/


theorem nssItem_Equal_iff (a b : NSSItem) : nssItem_Equal a b = true ↔ a = b := by
  cases a with
  | mk da =>
    cases b with
    | mk db =>
      simp only [nssItem_Equal, NSSItem.size, Bool.and_eq_true, beq_iff_eq, NSSItem.mk.injEq]
      constructor
      · intro h; exact h.2
      · intro h; exact ⟨by rw [h], h⟩

theorem compare_objects_iff (a b : UID) : compare_objects a b = true ↔ a = b := by
  cases a with
  | mk a0 a1 =>
    cases b with
    | mk b0 b1 =>
      simp [compare_objects, List.range, List.range.loop, UID.get, nssItem_Equal_iff]

theorem matches_object_iff {ν : Type} (key : UID) (he : PLHashEntry UID ν)
    (hh : he.keyHash = hash_object he.key) :
    PLHashEntry.matches hash_object compare_objects key he = true ↔ he.key = key := by
  simp only [PLHashEntry.matches, Bool.and_eq_true, beq_iff_eq, compare_objects_iff]
  constructor
  · intro h; exact h.2.symm
  · intro h; subst h; exact ⟨hh, rfl⟩

theorem matches_instance_iff {ν : Type} (key : nssCryptokiObject)
    (he : PLHashEntry nssCryptokiObject ν) (hh : he.keyHash = hash_instance he.key) :
    PLHashEntry.matches hash_instance compare_instances key he = true ↔
      nssCryptokiObject_Equal he.key key = true := by
  simp only [PLHashEntry.matches, Bool.and_eq_true, beq_iff_eq, compare_instances,
    nssCryptokiObject_Equal, hh, hash_instance]
  constructor
  · intro h; exact ⟨h.2.1.symm, h.2.2.symm⟩
  · intro h; rw [h.1, h.2]; exact ⟨rfl, rfl, rfl⟩

theorem matches_instance_congr {ν : Type} (k1 k2 : nssCryptokiObject)
    (h : nssCryptokiObject_Equal k1 k2 = true) (he : PLHashEntry nssCryptokiObject ν) :
    PLHashEntry.matches hash_instance compare_instances k1 he =
      PLHashEntry.matches hash_instance compare_instances k2 he := by
  rw [nssCryptokiObject_Equal_iff] at h
  simp only [PLHashEntry.matches, compare_instances, hash_instance, h.1, h.2]

theorem lookup_instance_congr {ν : Type} (k1 k2 : nssCryptokiObject)
    (h : nssCryptokiObject_Equal k1 k2 = true) (ht : PLHashTable nssCryptokiObject ν) :
    PL_HashTableLookup hash_instance compare_instances ht k1 =
      PL_HashTableLookup hash_instance compare_instances ht k2 := by
  unfold PL_HashTableLookup
  have : PLHashEntry.matches (ν := ν) hash_instance compare_instances k1 =
      PLHashEntry.matches hash_instance compare_instances k2 :=
    funext (matches_instance_congr k1 k2 h)
  rw [this]

theorem matches_instance_self {ν : Type} (k1 k2 : nssCryptokiObject) (v : ν)
    (h : nssCryptokiObject_Equal k1 k2 = true) :
    PLHashEntry.matches hash_instance compare_instances k1 ⟨hash_instance k2, k2, v⟩ = true := by
  rw [nssCryptokiObject_Equal_iff] at h
  simp [PLHashEntry.matches, compare_instances, hash_instance, h.1, h.2]

theorem lookup_add_of_matches {κ ν : Type} (keyHash : κ → Nat) (keyCompare : κ → κ → Bool)
    (ht : PLHashTable κ ν) (k k2 : κ) (v : ν)
    (hcongr : ∀ he : PLHashEntry κ ν, PLHashEntry.matches keyHash keyCompare k2 he =
      PLHashEntry.matches keyHash keyCompare k he)
    (hself : PLHashEntry.matches keyHash keyCompare k2 ⟨keyHash k, k, v⟩ = true) :
    PL_HashTableLookup keyHash keyCompare (PL_HashTableAdd keyHash keyCompare ht k v) k2 =
      some v := by
  induction ht with
  | nil => simp [PL_HashTableLookup, PL_HashTableAdd, hself]
  | cons he rest ih =>
    unfold PL_HashTableAdd
    by_cases hm : PLHashEntry.matches keyHash keyCompare k he = true
    · have hm2 : PLHashEntry.matches keyHash keyCompare k2 { he with value := v } = true := by
        rw [hcongr]; exact hm
      simp [hm, PL_HashTableLookup, List.find?_cons, hm2]
    · have hm2 : PLHashEntry.matches keyHash keyCompare k2 he = false := by
        rw [hcongr]; simpa using hm
      have hm3 : PLHashEntry.matches keyHash keyCompare k he = false := by simpa using hm
      simp only [hm3, Bool.false_eq_true, if_false]
      unfold PL_HashTableLookup at ih ⊢
      rw [List.find?_cons_of_neg _ (by simp [hm2])]
      exact ih

theorem add_of_lookup_none {κ ν : Type} (keyHash : κ → Nat) (keyCompare : κ → κ → Bool)
    (ht : PLHashTable κ ν) (k : κ) (v : ν)
    (h : PL_HashTableLookup keyHash keyCompare ht k = none) :
    PL_HashTableAdd keyHash keyCompare ht k v = ht ++ [⟨keyHash k, k, v⟩] := by
  induction ht with
  | nil => rfl
  | cons he rest ih =>
    unfold PL_HashTableLookup at h ih
    unfold PL_HashTableAdd
    by_cases hm : PLHashEntry.matches keyHash keyCompare k he = true
    · simp [List.find?_cons, hm] at h
    · simp only [Bool.not_eq_true] at hm
      simp only [List.find?_cons, hm] at h
      simp only [hm, Bool.false_eq_true, if_false, List.cons_append, List.cons.injEq, true_and]
      exact ih h

theorem lookup_none_iff {κ ν : Type} (keyHash : κ → Nat) (keyCompare : κ → κ → Bool)
    (ht : PLHashTable κ ν) (k : κ) :
    PL_HashTableLookup keyHash keyCompare ht k = none ↔
      ∀ he ∈ ht, PLHashEntry.matches keyHash keyCompare k he = false := by
  unfold PL_HashTableLookup
  simp [List.find?_eq_none]

theorem lookup_some {κ ν : Type} (keyHash : κ → Nat) (keyCompare : κ → κ → Bool)
    (ht : PLHashTable κ ν) (k : κ) (v : ν)
    (h : PL_HashTableLookup keyHash keyCompare ht k = some v) :
    ∃ he ∈ ht, PLHashEntry.matches keyHash keyCompare k he = true ∧ he.value = v := by
  unfold PL_HashTableLookup at h
  cases hf : ht.find? (PLHashEntry.matches keyHash keyCompare k) with
  | none => simp [hf] at h
  | some he =>
    simp [hf] at h
    exact ⟨he, List.mem_of_find?_eq_some hf, List.find?_some hf, h⟩


/-! ## Lemmas on the core add-instance routine -/


theorem add_object_instance_found (vt : Vtable) (env : AllocEnv) (c : nssPKIObjectCollection)
    (inst : nssCryptokiObject) (node : Nat)
    (h : PL_HashTableLookup hash_instance compare_instances c.PKIinstancehashtable inst =
      some node) :
    add_object_instance vt env c inst = some (c, some node, true) := by
  unfold add_object_instance
  rw [h]

theorem add_object_instance_uid_hit (vt : Vtable) (env : AllocEnv)
    (c : nssPKIObjectCollection) (inst : nssCryptokiObject) (node : Nat)
    (nd : pkiObjectCollectionNode) (o : nssPKIObject)
    (h1 : PL_HashTableLookup hash_instance compare_instances c.PKIinstancehashtable inst = none)
    (hmark : env.markOk = true)
    (hst : (vt.getUIDFromInstance inst UID.zero).1 = PR_SUCCESS)
    (h2 : PL_HashTableLookup hash_object compare_objects c.PKIobjecthashtable
      (vt.getUIDFromInstance inst UID.zero).2 = some node)
    (hnd : c.nodes[node]? = some nd) (ho : nd.object = some o)
    (hkeep : nssPKIObject_AddInstance_discards o inst = false) :
    add_object_instance vt env c inst =
      some ({ c with
                nodes := c.nodes.set node
                  { nd with object := some (nssPKIObject_AddInstance env.arrayOk o inst).2 }
                PKIinstancehashtable :=
                  c.PKIinstancehashtable ++ [⟨hash_instance inst, inst, node⟩] },
            some node, false) := by
  unfold add_object_instance
  simp only [h1, hmark, hst, h2, hnd, ho, hkeep, Bool.not_true, Bool.false_eq_true, if_false,
    ne_eq, not_true_eq_false]
  rw [add_of_lookup_none _ _ _ _ _ h1]

theorem add_object_instance_new (vt : Vtable) (env : AllocEnv)
    (c : nssPKIObjectCollection) (inst : nssCryptokiObject)
    (h1 : PL_HashTableLookup hash_instance compare_instances c.PKIinstancehashtable inst = none)
    (hmark : env.markOk = true) (hnode : env.nodeOk = true) (hobj : env.objectOk = true)
    (harr : env.arrayOk = true)
    (hst : (vt.getUIDFromInstance inst UID.zero).1 = PR_SUCCESS)
    (h2 : PL_HashTableLookup hash_object compare_objects c.PKIobjecthashtable
      (vt.getUIDFromInstance inst UID.zero).2 = none) :
    add_object_instance vt env c inst =
      some ({ c with
                nodes := c.nodes ++
                  [{ haveObject := false
                     object := some ⟨1, [inst], c.lockType⟩
                     uid := (vt.getUIDFromInstance inst UID.zero).2 }]
                PKIobjecthashtable := c.PKIobjecthashtable ++
                  [⟨hash_object (vt.getUIDFromInstance inst UID.zero).2,
                    (vt.getUIDFromInstance inst UID.zero).2, c.nodes.length⟩]
                size := c.size + 1
                PKIinstancehashtable :=
                  c.PKIinstancehashtable ++ [⟨hash_instance inst, inst, c.nodes.length⟩] },
            some c.nodes.length, false) := by
  have hcreate : nssPKIObject_Create env (some inst) c.lockType =
      some ⟨1, [inst], c.lockType⟩ := by
    simp [nssPKIObject_Create, hobj, harr, nssPKIObject_AddInstance,
      nssPKIObject.numInstances, wrapInt32]
  unfold add_object_instance
  simp only [h1, hmark, hnode, hst, h2, hcreate, Bool.not_true, Bool.false_eq_true, if_false,
    ne_eq, not_true_eq_false, sizeIncr]
  rw [add_of_lookup_none _ _ _ _ _ h1, add_of_lookup_none _ _ _ _ _ h2]


theorem nssPKIObject_AddInstance_holds (object : nssPKIObject) (inst : nssCryptokiObject) :
    ∃ x ∈ (nssPKIObject_AddInstance true object inst).2.instances,
      nssCryptokiObject_Equal x inst = true := by
  rcases nssPKIObject_AddInstance_cases true object inst with
    ⟨pre, x, post, h1, h2, h3, h4⟩ | ⟨h1, h2⟩
  · rw [h4]
    exact ⟨{ x with label := inst.label }, by simp, h3⟩
  · rw [h2]
    exact ⟨inst, by simp, by simp [nssCryptokiObject_Equal]⟩

theorem nssPKIObject_Create_instances (env : AllocEnv) (inst : nssCryptokiObject)
    (lockType : nssPKILockType) (o : nssPKIObject)
    (h : nssPKIObject_Create env (some inst) lockType = some o) :
    o = ⟨1, [inst], lockType⟩ := by
  unfold nssPKIObject_Create at h
  by_cases hok : env.objectOk = true
  · simp only [hok, Bool.not_true, Bool.false_eq_true, if_false] at h
    cases harr : env.arrayOk with
    | false => simp [harr, nssPKIObject_AddInstance, nssPKIObject.numInstances] at h
    | true =>
      simp [harr, nssPKIObject_AddInstance, nssPKIObject.numInstances, wrapInt32] at h
      exact h.symm
  · simp [hok] at h

/-- What a successful call of `add_object_instance` leaves behind: the instance index maps
the instance to the returned node; and unless the instance was already present, the node is
in the arena and, when the array allocation succeeded, its object holds the instance. -/
theorem add_object_instance_indexed (vt : Vtable) (env : AllocEnv)
    (c c1 : nssPKIObjectCollection) (inst : nssCryptokiObject) (node : Nat) (found : Bool)
    (h : add_object_instance vt env c inst = some (c1, some node, found)) :
    PL_HashTableLookup hash_instance compare_instances c1.PKIinstancehashtable inst =
        some node ∧
      (found = false → env.arrayOk = true →
        ∃ nd o, c1.nodes[node]? = some nd ∧ nd.object = some o ∧
          ∃ x ∈ o.instances, nssCryptokiObject_Equal x inst = true) := by
  have hself : nssCryptokiObject_Equal inst inst = true := by simp [nssCryptokiObject_Equal]
  unfold add_object_instance at h
  cases hl : PL_HashTableLookup hash_instance compare_instances c.PKIinstancehashtable inst with
  | some n =>
    simp only [hl, Option.some.injEq, Prod.mk.injEq] at h
    obtain ⟨rfl, rfl, rfl⟩ := h
    exact ⟨hl, by simp⟩
  | none =>
    simp only [hl] at h
    cases hmark : env.markOk with
    | false => simp [hmark] at h
    | true =>
      simp only [hmark, Bool.not_true, Bool.false_eq_true, if_false] at h
      by_cases hst : (vt.getUIDFromInstance inst UID.zero).1 = PR_SUCCESS
      · simp only [hst, ne_eq, not_true_eq_false, if_false] at h
        cases hu : PL_HashTableLookup hash_object compare_objects c.PKIobjecthashtable
            (vt.getUIDFromInstance inst UID.zero).2 with
        | some n2 =>
          simp only [hu] at h
          cases hnd : c.nodes[n2]? with
          | none => simp [hnd] at h
          | some nd =>
            simp only [hnd] at h
            cases ho : nd.object with
            | none => simp [ho] at h
            | some o =>
              simp only [ho] at h
              cases hd : nssPKIObject_AddInstance_discards o inst with
              | true => simp [hd] at h
              | false =>
              simp only [hd, Bool.false_eq_true, if_false, Option.some.injEq,
                Prod.mk.injEq] at h
              obtain ⟨rfl, rfl, rfl⟩ := h
              refine ⟨lookup_add_of_matches _ _ _ _ _ _ (fun _ => rfl)
                (matches_instance_self _ _ _ hself), ?_⟩
              intro _ harr
              have hlt : n2 < c.nodes.length := by
                rcases List.getElem?_eq_some_iff.1 hnd with ⟨hlt, _⟩
                exact hlt
              refine ⟨{ nd with object := some (nssPKIObject_AddInstance env.arrayOk o inst).2 },
                (nssPKIObject_AddInstance env.arrayOk o inst).2, ?_, rfl, ?_⟩
              · simp only [List.getElem?_set_self hlt]
              · rw [harr]
                exact nssPKIObject_AddInstance_holds o inst
        | none =>
          simp only [hu] at h
          cases hnode : env.nodeOk with
          | false => simp [hnode] at h
          | true =>
            simp only [hnode, Bool.not_true, Bool.false_eq_true, if_false] at h
            cases hc : nssPKIObject_Create env (some inst) c.lockType with
            | none => simp [hc] at h
            | some o =>
              simp only [hc, Option.some.injEq, Prod.mk.injEq] at h
              obtain ⟨rfl, rfl, rfl⟩ := h
              refine ⟨lookup_add_of_matches _ _ _ _ _ _ (fun _ => rfl)
                (matches_instance_self _ _ _ hself), ?_⟩
              intro _ _
              have ho2 := nssPKIObject_Create_instances _ _ _ _ hc
              refine ⟨{ haveObject := false, object := some o,
                        uid := (vt.getUIDFromInstance inst UID.zero).2 },
                o, ?_, rfl, inst, ?_, hself⟩
              · simp
              · rw [ho2]; simp
      · simp [hst] at h


theorem nssCryptokiObject_Equal_symm (a b : nssCryptokiObject)
    (h : nssCryptokiObject_Equal a b = true) : nssCryptokiObject_Equal b a = true := by
  rw [nssCryptokiObject_Equal_iff] at h ⊢
  exact ⟨h.1.symm, h.2.symm⟩

theorem nssCryptokiObject_Equal_trans (a b c : nssCryptokiObject)
    (h1 : nssCryptokiObject_Equal a b = true) (h2 : nssCryptokiObject_Equal b c = true) :
    nssCryptokiObject_Equal a c = true := by
  rw [nssCryptokiObject_Equal_iff] at h1 h2 ⊢
  exact ⟨h1.1.trans h2.1, h1.2.trans h2.2⟩

/-! ## The invariant is kept by the core add-instance routine -/


theorem CollInv_empty (vt : Vtable) (lockType : nssPKILockType) :
    CollInv vt (nssPKIObjectCollection_Create lockType) [] := by
  constructor <;> simp [nssPKIObjectCollection_Create]

theorem key_unique {κ ν : Type} (ht : PLHashTable κ ν)
    (hnd : (ht.map fun he => he.key).Nodup) (a b : PLHashEntry κ ν) (ha : a ∈ ht) (hb : b ∈ ht)
    (hk : a.key = b.key) : a = b := by
  induction ht with
  | nil => simp at ha
  | cons he rest ih =>
    simp only [List.map_cons, List.nodup_cons, List.mem_map, not_exists, not_and] at hnd
    rcases List.mem_cons.1 ha with ha1 | ha1
    · rcases List.mem_cons.1 hb with hb1 | hb1
      · rw [ha1, hb1]
      · rw [ha1] at hk
        exact absurd hk.symm (hnd.1 b hb1)
    · rcases List.mem_cons.1 hb with hb1 | hb1
      · rw [hb1] at hk
        exact absurd hk (hnd.1 a ha1)
      · exact ih hnd.2 ha1 hb1

theorem NodeInv_mono (vt : Vtable) (seen : List nssCryptokiObject) (inst : nssCryptokiObject)
    (u : UID) (l : List nssCryptokiObject) (h : NodeInv vt seen u l)
    (hnew : uidOf vt inst = u → ∃ x ∈ l, nssCryptokiObject_Equal x inst = true) :
    NodeInv vt (seen ++ [inst]) u l := by
  refine ⟨h.distinct, ?_, ?_⟩
  · intro x hx
    exact ⟨List.mem_append_left _ (h.sound x hx).1, (h.sound x hx).2⟩
  · intro y hy hu
    rcases List.mem_append.1 hy with hy | hy
    · exact h.complete y hy hu
    · simp only [List.mem_singleton] at hy
      subst hy
      exact hnew hu

/-- Case A: the instance is already in the instance index. -/
theorem CollInv_found (vt : Vtable) (c : nssPKIObjectCollection)
    (seen : List nssCryptokiObject) (inst : nssCryptokiObject) (node : Nat)
    (hinv : CollInv vt c seen)
    (hfun : ∀ y ∈ seen, nssCryptokiObject_Equal y inst = true → uidOf vt y = uidOf vt inst)
    (hl : PL_HashTableLookup hash_instance compare_instances c.PKIinstancehashtable inst =
      some node) :
    CollInv vt c (seen ++ [inst]) := by
  obtain ⟨he, hhe, hm, _⟩ := lookup_some _ _ _ _ _ hl
  have hk := hinv.instHash he hhe
  have heq : nssCryptokiObject_Equal he.key inst = true := (matches_instance_iff _ _ hk.1).1 hm
  have hu : uidOf vt he.key = uidOf vt inst := hfun _ hk.2 heq
  refine ⟨hinv.objHash, hinv.objNodup, hinv.sizeEq, ?_, ?_, ?_, ?_⟩
  · intro u
    rw [hinv.objKeys u]
    constructor
    · rintro ⟨y, hy, hyu⟩
      exact ⟨y, List.mem_append_left _ hy, hyu⟩
    · rintro ⟨y, hy, hyu⟩
      rcases List.mem_append.1 hy with hy | hy
      · exact ⟨y, hy, hyu⟩
      · simp only [List.mem_singleton] at hy
        subst hy
        exact ⟨he.key, hk.2, hu.trans hyu⟩
  · intro e hemem
    obtain ⟨nd, o, h1, h2, h3, h4⟩ := hinv.objNodes e hemem
    refine ⟨nd, o, h1, h2, h3, NodeInv_mono vt seen inst _ _ h4 ?_⟩
    intro hyu
    obtain ⟨x, hx, hxe⟩ := h4.complete he.key hk.2 (hu.trans hyu)
    exact ⟨x, hx, nssCryptokiObject_Equal_trans _ _ _ hxe heq⟩
  · intro e hemem
    exact ⟨(hinv.instHash e hemem).1, List.mem_append_left _ (hinv.instHash e hemem).2⟩
  · intro y hy
    rcases List.mem_append.1 hy with hy | hy
    · exact hinv.instAll y hy
    · simp only [List.mem_singleton] at hy
      subst hy
      exact ⟨he, hhe, heq⟩


theorem lookup_instance_none (c : nssPKIObjectCollection) (vt : Vtable)
    (seen : List nssCryptokiObject) (inst : nssCryptokiObject) (hinv : CollInv vt c seen)
    (hl : PL_HashTableLookup hash_instance compare_instances c.PKIinstancehashtable inst =
      none) :
    ∀ y ∈ seen, nssCryptokiObject_Equal y inst = false := by
  intro y hy
  obtain ⟨he, hhe, heq⟩ := hinv.instAll y hy
  have hm := (lookup_none_iff _ _ _ _).1 hl he hhe
  rw [← Bool.not_eq_true] at hm ⊢
  intro hyi
  apply hm
  rw [matches_instance_iff _ _ (hinv.instHash he hhe).1]
  exact nssCryptokiObject_Equal_trans _ _ _ heq hyi

theorem instHash_append (vt : Vtable) (c : nssPKIObjectCollection)
    (seen : List nssCryptokiObject) (inst : nssCryptokiObject) (node : Nat)
    (hinv : CollInv vt c seen) :
    ∀ he ∈ c.PKIinstancehashtable ++ [⟨hash_instance inst, inst, node⟩],
      he.keyHash = hash_instance he.key ∧ he.key ∈ seen ++ [inst] := by
  intro e hemem
  rcases List.mem_append.1 hemem with h | h
  · exact ⟨(hinv.instHash e h).1, List.mem_append_left _ (hinv.instHash e h).2⟩
  · simp only [List.mem_singleton] at h
    subst h
    exact ⟨rfl, by simp⟩

theorem instAll_append (vt : Vtable) (c : nssPKIObjectCollection)
    (seen : List nssCryptokiObject) (inst : nssCryptokiObject) (node : Nat)
    (hinv : CollInv vt c seen) :
    ∀ y ∈ seen ++ [inst], ∃ he ∈ c.PKIinstancehashtable ++ [⟨hash_instance inst, inst, node⟩],
      nssCryptokiObject_Equal he.key y = true := by
  intro y hy
  rcases List.mem_append.1 hy with h | h
  · obtain ⟨he, hhe, heq⟩ := hinv.instAll y h
    exact ⟨he, List.mem_append_left _ hhe, heq⟩
  · simp only [List.mem_singleton] at h
    subst h
    exact ⟨⟨hash_instance y, y, node⟩, by simp, by simp [nssCryptokiObject_Equal]⟩

/-- Case B: the instance is new and its identifier is in the UID index. -/
theorem CollInv_uid_hit (vt : Vtable) (c : nssPKIObjectCollection)
    (seen : List nssCryptokiObject) (inst : nssCryptokiObject) (node : Nat)
    (hinv : CollInv vt c seen)
    (hl : PL_HashTableLookup hash_instance compare_instances c.PKIinstancehashtable inst =
      none)
    (hu : PL_HashTableLookup hash_object compare_objects c.PKIobjecthashtable
      (uidOf vt inst) = some node) :
    ∃ nd o, c.nodes[node]? = some nd ∧ nd.object = some o ∧
      nssPKIObject_AddInstance_discards o inst = false ∧
      (nssPKIObject_AddInstance true o inst).2 =
        { o with instances := o.instances ++ [inst] } ∧
      CollInv vt
        { c with
          nodes := c.nodes.set node
            { nd with object := some { o with instances := o.instances ++ [inst] } }
          PKIinstancehashtable :=
            c.PKIinstancehashtable ++ [⟨hash_instance inst, inst, node⟩] }
        (seen ++ [inst]) := by
  obtain ⟨he0, hhe0, hm0, hv0⟩ := lookup_some _ _ _ _ _ hu
  have hkey0 : he0.key = uidOf vt inst := (matches_object_iff _ _ (hinv.objHash he0 hhe0)).1 hm0
  obtain ⟨nd, o, hnd, hnduid, hobj, hnode⟩ := hinv.objNodes he0 hhe0
  rw [hv0] at hnd
  have hfresh := lookup_instance_none c vt seen inst hinv hl
  have hno : ∀ x ∈ o.instances, nssCryptokiObject_Equal x inst = false :=
    fun x hx => hfresh x (hnode.sound x hx).1
  have hadd : (nssPKIObject_AddInstance true o inst).2 =
      { o with instances := o.instances ++ [inst] } := by
    rcases nssPKIObject_AddInstance_cases true o inst with
      ⟨pre, x, post, h1, _, h3, _⟩ | ⟨_, h2⟩
    · have := hno x (by rw [h1]; simp)
      rw [h3] at this
      exact absurd this (by simp)
    · rw [h2]; rfl
  have hlt : node < c.nodes.length := (List.getElem?_eq_some_iff.1 hnd).1
  have hkeep : nssPKIObject_AddInstance_discards o inst = false := by
    simp [nssPKIObject_AddInstance_discards, (findInstance_none inst o.instances 0).2 hno]
  refine ⟨nd, o, hnd, hobj, hkeep, hadd, hinv.objHash, hinv.objNodup, hinv.sizeEq, ?_, ?_,
    instHash_append vt c seen inst node hinv, instAll_append vt c seen inst node hinv⟩
  · intro u
    rw [hinv.objKeys u]
    constructor
    · rintro ⟨y, hy, hyu⟩
      exact ⟨y, List.mem_append_left _ hy, hyu⟩
    · rintro ⟨y, hy, hyu⟩
      rcases List.mem_append.1 hy with hy | hy
      · exact ⟨y, hy, hyu⟩
      · simp only [List.mem_singleton] at hy
        subst hy
        rw [← hyu, ← hkey0]
        exact (hinv.objKeys he0.key).1 (List.mem_map.2 ⟨he0, hhe0, rfl⟩)
  · intro e hemem
    obtain ⟨nd1, o1, h1, h2, h3, h4⟩ := hinv.objNodes e hemem
    by_cases hv : e.value = node
    · have hsame : nd1 = nd := by
        rw [hv, hnd] at h1
        exact (Option.some.inj h1).symm
      subst hsame
      have ho : o1 = o := by
        rw [hobj] at h3
        exact (Option.some.inj h3).symm
      subst ho
      have hek : e.key = uidOf vt inst := by rw [← h2, hnduid, hkey0]
      refine ⟨{ nd1 with object := some { o1 with instances := o1.instances ++ [inst] } },
        { o1 with instances := o1.instances ++ [inst] }, ?_, h2, rfl, ?_, ?_, ?_⟩
      · simp only [hv, List.getElem?_set_self hlt]
      · have := nssPKIObject_AddInstance_distinct_step true o1 inst h4.distinct
        rw [hadd] at this
        exact this
      · intro x hx
        rcases List.mem_append.1 hx with hx | hx
        · exact ⟨List.mem_append_left _ (h4.sound x hx).1, (h4.sound x hx).2⟩
        · simp only [List.mem_singleton] at hx
          subst hx
          exact ⟨by simp, hek.symm⟩
      · intro y hy hyu
        rcases List.mem_append.1 hy with hy | hy
        · obtain ⟨x, hx, hxe⟩ := h4.complete y hy hyu
          exact ⟨x, List.mem_append_left _ hx, hxe⟩
        · simp only [List.mem_singleton] at hy
          subst hy
          exact ⟨y, by simp, by simp [nssCryptokiObject_Equal]⟩
    · refine ⟨nd1, o1, ?_, h2, h3, NodeInv_mono vt seen inst _ _ h4 ?_⟩
      · simp only [List.getElem?_set_ne (Ne.symm hv)]
        exact h1
      · intro hyu
        exfalso
        apply hv
        have : e = he0 := key_unique _ hinv.objNodup e he0 hemem hhe0 (by rw [← hyu, hkey0])
        rw [this, hv0]

/-- Case C: the instance is new and so is its identifier. -/
theorem CollInv_new (vt : Vtable) (c : nssPKIObjectCollection)
    (seen : List nssCryptokiObject) (inst : nssCryptokiObject)
    (hinv : CollInv vt c seen)
    (hu : PL_HashTableLookup hash_object compare_objects c.PKIobjecthashtable
      (uidOf vt inst) = none) :
    CollInv vt
      { c with
        nodes := c.nodes ++
          [{ haveObject := false, object := some ⟨1, [inst], c.lockType⟩, uid := uidOf vt inst }]
        PKIobjecthashtable := c.PKIobjecthashtable ++
          [⟨hash_object (uidOf vt inst), uidOf vt inst, c.nodes.length⟩]
        size := c.size + 1
        PKIinstancehashtable :=
          c.PKIinstancehashtable ++ [⟨hash_instance inst, inst, c.nodes.length⟩] }
      (seen ++ [inst]) := by
  have hnokey : ∀ he ∈ c.PKIobjecthashtable, he.key ≠ uidOf vt inst := by
    intro he hhe hk
    have hm := (lookup_none_iff _ _ _ _).1 hu he hhe
    rw [(matches_object_iff _ _ (hinv.objHash he hhe)).2 hk] at hm
    exact absurd hm (by simp)
  have hunseen : ∀ y ∈ seen, uidOf vt y ≠ uidOf vt inst := by
    intro y hy hyu
    obtain ⟨he, hhe, hk⟩ := List.mem_map.1 ((hinv.objKeys (uidOf vt inst)).2 ⟨y, hy, hyu⟩)
    exact hnokey he hhe hk
  refine ⟨?_, ?_, ?_, ?_, ?_, instHash_append vt c seen inst _ hinv,
    instAll_append vt c seen inst _ hinv⟩
  · intro e hemem
    rcases List.mem_append.1 hemem with h | h
    · exact hinv.objHash e h
    · simp only [List.mem_singleton] at h
      subst h
      rfl
  · simp only [List.map_append, List.map_cons, List.map_nil]
    rw [List.nodup_append]
    refine ⟨hinv.objNodup, by simp, ?_⟩
    intro u hu1 hu2
    simp only [List.mem_singleton] at hu2
    subst hu2
    obtain ⟨he, hhe, hk⟩ := List.mem_map.1 hu1
    exact hnokey he hhe hk
  · simp [hinv.sizeEq]
  · intro u
    simp only [List.map_append, List.map_cons, List.map_nil, List.mem_append,
      List.mem_singleton]
    rw [hinv.objKeys u]
    constructor
    · rintro (⟨y, hy, hyu⟩ | h)
      · exact ⟨y, Or.inl hy, hyu⟩
      · exact ⟨inst, Or.inr rfl, h.symm⟩
    · rintro ⟨y, hy | hy, hyu⟩
      · exact Or.inl ⟨y, hy, hyu⟩
      · subst hy
        exact Or.inr hyu.symm
  · intro e hemem
    rcases List.mem_append.1 hemem with h | h
    · obtain ⟨nd1, o1, h1, h2, h3, h4⟩ := hinv.objNodes e h
      have hlt : e.value < c.nodes.length := (List.getElem?_eq_some_iff.1 h1).1
      refine ⟨nd1, o1, ?_, h2, h3, NodeInv_mono vt seen inst _ _ h4 ?_⟩
      · simp only [List.getElem?_append_left hlt]
        exact h1
      · intro hyu
        exact absurd hyu.symm (hnokey e h)
    · simp only [List.mem_singleton] at h
      subst h
      refine ⟨{ haveObject := false, object := some ⟨1, [inst], c.lockType⟩,
                uid := uidOf vt inst }, ⟨1, [inst], c.lockType⟩, ?_, rfl, rfl, ?_, ?_, ?_⟩
      · simp
      · simp [DistinctInstances]
      · intro x hx
        simp only [List.mem_singleton] at hx
        subst hx
        exact ⟨by simp, rfl⟩
      · intro y hy hyu
        rcases List.mem_append.1 hy with hy | hy
        · exact absurd hyu (hunseen y hy)
        · simp only [List.mem_singleton] at hy
          subst hy
          exact ⟨y, by simp, by simp [nssCryptokiObject_Equal]⟩


theorem AddInstances_loop_inv (vt : Vtable) (rest : List nssCryptokiObject) :
    ∀ (c : nssPKIObjectCollection) (seen : List nssCryptokiObject) (i : Nat),
      CollInv vt c seen →
      (∀ y ∈ rest, (vt.getUIDFromInstance y UID.zero).1 = PR_SUCCESS) →
      (∀ x ∈ seen ++ rest, ∀ y ∈ seen ++ rest,
        nssCryptokiObject_Equal x y = true → uidOf vt x = uidOf vt y) →
      ∃ c1, AddInstances_loop vt allocsOk 0 c rest i PR_SUCCESS = some (c1, PR_SUCCESS) ∧
        CollInv vt c1 (seen ++ rest) := by
  induction rest with
  | nil =>
    intro c seen i hinv _ _
    exact ⟨c, rfl, by simpa using hinv⟩
  | cons inst rest ih =>
    intro c seen i hinv hok hfun
    have hassoc : seen ++ inst :: rest = (seen ++ [inst]) ++ rest := by simp
    have hok2 : ∀ y ∈ rest, (vt.getUIDFromInstance y UID.zero).1 = PR_SUCCESS :=
      fun y hy => hok y (List.mem_cons_of_mem _ hy)
    have hst := hok inst (List.mem_cons_self _ _)
    have hfun2 : ∀ x ∈ (seen ++ [inst]) ++ rest, ∀ y ∈ (seen ++ [inst]) ++ rest,
        nssCryptokiObject_Equal x y = true → uidOf vt x = uidOf vt y := by
      rw [← hassoc]; exact hfun
    have hstep : ∀ c1 node found,
        add_object_instance vt AllocEnv.ok c inst = some (c1, some node, found) →
        CollInv vt c1 (seen ++ [inst]) →
        ∃ c2, AddInstances_loop vt allocsOk 0 c (inst :: rest) i PR_SUCCESS =
            some (c2, PR_SUCCESS) ∧ CollInv vt c2 (seen ++ inst :: rest) := by
      intro c1 node found hadd hinv1
      obtain ⟨c2, h1, h2⟩ := ih c1 (seen ++ [inst]) (i + 1) hinv1 hok2 hfun2
      refine ⟨c2, ?_, by rw [hassoc]; exact h2⟩
      simp only [AddInstances_loop, true_or, if_true, allocsOk, hadd]
      exact h1
    cases hl : PL_HashTableLookup hash_instance compare_instances
        c.PKIinstancehashtable inst with
    | some node =>
      refine hstep c node true (add_object_instance_found vt _ c inst node hl)
        (CollInv_found vt c seen inst node hinv ?_ hl)
      intro y hy hyi
      exact hfun y (List.mem_append_left _ hy) inst (by simp) hyi
    | none =>
      cases hu : PL_HashTableLookup hash_object compare_objects c.PKIobjecthashtable
          (uidOf vt inst) with
      | some node =>
        obtain ⟨nd, o, hnd, hobj, hkeep, hadd, hinv1⟩ :=
          CollInv_uid_hit vt c seen inst node hinv hl hu
        have h := add_object_instance_uid_hit vt AllocEnv.ok c inst node nd o hl rfl hst hu
          hnd hobj hkeep
        have harr : AllocEnv.ok.arrayOk = true := rfl
        rw [harr, hadd] at h
        exact hstep _ node false h hinv1
      | none =>
        have h := add_object_instance_new vt AllocEnv.ok c inst hl rfl rfl rfl rfl hst hu
        exact hstep _ _ false h (CollInv_new vt c seen inst hinv hu)

theorem AddInstances_inv (vt : Vtable) (lockType : nssPKILockType)
    (insts : List nssCryptokiObject)
    (hok : ∀ y ∈ insts, (vt.getUIDFromInstance y UID.zero).1 = PR_SUCCESS)
    (hfun : ∀ x ∈ insts, ∀ y ∈ insts, x.token = y.token → x.handle = y.handle →
      uidOf vt x = uidOf vt y) :
    ∃ c, nssPKIObjectCollection_AddInstances vt allocsOk
        (nssPKIObjectCollection_Create lockType) (some insts) 0 = some (c, PR_SUCCESS) ∧
      CollInv vt c insts := by
  obtain ⟨c, h1, h2⟩ := AddInstances_loop_inv vt insts (nssPKIObjectCollection_Create lockType)
    [] 0 (CollInv_empty vt lockType) hok (by
      intro x hx y hy hxy
      rw [nssCryptokiObject_Equal_iff] at hxy
      exact hfun x (by simpa using hx) y (by simpa using hy) hxy.1 hxy.2)
  exact ⟨c, h1, by simpa using h2⟩

/-! ## Lemmas on the removal of instances -/


theorem getElem?_mid {α : Type} (A C : List α) (x : α) : (A ++ x :: C)[A.length]? = some x := by
  rw [List.getElem?_append_right (Nat.le_refl _)]
  simp

theorem set_mid {α : Type} (A C : List α) (x y : α) :
    (A ++ x :: C).set A.length y = A ++ y :: C := by
  induction A with
  | nil => rfl
  | cons a A ih => simp [List.set, ih]

theorem getLast?_map_getD_cons {α β : Type} (f : α → β) (x : α) (R : List α) (st : β) :
    (((x :: R).getLast?).map f).getD st = ((R.getLast?).map f).getD (f x) := by
  cases R with
  | nil => simp
  | cons y R =>
    rw [List.getLast?_cons_cons]
    cases hl : (y :: R).getLast? with
    | none => simp at hl
    | some z => rfl

theorem DeleteStoredObject_loop_spec (del : nssCryptokiObject → PRStatus)
    (R : List nssCryptokiObject) :
    ∀ (S : List nssCryptokiObject) (g : Nat) (st : PRStatus) (i k : Nat)
      (arr : List (Option nssCryptokiObject)),
      k = S.length → i = S.length + g →
      arr = S.map some ++ List.replicate g none ++ R.map some →
      ∃ g1, DeleteStoredObject_loop del R.length i arr k st =
        some ((S ++ R.filter fun x => decide (del x ≠ PR_SUCCESS)).map some ++
            List.replicate g1 none,
          (S ++ R.filter fun x => decide (del x ≠ PR_SUCCESS)).length,
          ((R.getLast?).map del).getD st) := by
  induction R with
  | nil =>
    intro S g st i k arr hk _ harr
    refine ⟨g, ?_⟩
    subst hk harr
    simp [DeleteStoredObject_loop]
  | cons x R ih =>
    intro S g st i k arr hk hi harr
    have hlen : (S.map some ++ List.replicate g (none : Option nssCryptokiObject)).length =
        i := by simp [hi]
    have hget : arr[i]? = some (some x) := by
      rw [harr, ← hlen]
      simp only [List.map_cons]
      exact getElem?_mid _ _ _
    have hset : arr.set i none =
        S.map some ++ List.replicate (g + 1) none ++ R.map some := by
      rw [harr, ← hlen]
      simp only [List.map_cons]
      rw [set_mid, List.replicate_succ', List.append_assoc, List.append_assoc,
        List.append_assoc]
      rfl
    rw [getLast?_map_getD_cons]
    simp only [List.length_cons, DeleteStoredObject_loop, hget]
    by_cases hs : del x = PR_SUCCESS
    · simp only [hs, if_true]
      obtain ⟨g1, h1⟩ := ih S (g + 1) (del x) (i + 1) k (arr.set i none) hk (by omega) hset
      refine ⟨g1, ?_⟩
      rw [hs] at h1
      rw [h1]
      simp [List.filter_cons, hs]
    · simp only [hs, if_false]
      have hset2 : (arr.set i none).set k (some x) =
          (S ++ [x]).map some ++ List.replicate g none ++ R.map some := by
        rw [hset, hk]
        have : S.map some ++ List.replicate (g + 1) (none : Option nssCryptokiObject) ++
            R.map some =
            S.map some ++ none :: (List.replicate g none ++ R.map some) := by
          rw [List.replicate_succ, List.append_assoc]
          rfl
        rw [this]
        have hl : (S.map (some : nssCryptokiObject → Option nssCryptokiObject)).length =
            S.length := by simp
        rw [← hl, set_mid]
        simp
      obtain ⟨g1, h1⟩ := ih (S ++ [x]) g (del x) (i + 1) (k + 1) _ (by simp [hk])
        (by simp; omega) hset2
      refine ⟨g1, ?_⟩
      rw [h1]
      simp [List.filter_cons, hs]

theorem nssPKIObject_DeleteStoredObject_eq (del : nssCryptokiObject → PRStatus)
    (object : nssPKIObject) :
    nssPKIObject_DeleteStoredObject del object =
      some (((object.instances.getLast?).map del).getD PR_SUCCESS,
        { object with
          instances := object.instances.filter fun x => decide (del x ≠ PR_SUCCESS) }) := by
  obtain ⟨g1, h⟩ := DeleteStoredObject_loop_spec del object.instances [] 0 PR_SUCCESS 0 0
    (object.instances.map some) rfl rfl (by simp)
  unfold nssPKIObject_DeleteStoredObject
  rw [nssPKIObject.numInstances, h]
  simp only [List.nil_append]
  by_cases h0 : (object.instances.filter fun x => decide (del x ≠ PR_SUCCESS)).length = 0
  · simp only [h0, if_true]
    rw [List.length_eq_zero] at h0
    rw [h0]
  · simp only [h0, if_false]
    have : ∀ (F : List nssCryptokiObject) (n : Nat),
        ((F.map some ++ List.replicate n none).take F.length).filterMap id = F := by
      intro F n
      have hl : (F.map (some : nssCryptokiObject → Option nssCryptokiObject)).length =
          F.length := by simp
      rw [← hl, List.take_left']
      · induction F with
        | nil => rfl
        | cons a F ih => simp [List.filterMap_cons]
      · rfl
    rw [this]


theorem findToken_append (token : Nat) (pre post : List nssCryptokiObject)
    (x : nssCryptokiObject) (i : Nat) (hpre : ∀ y ∈ pre, y.token ≠ token)
    (hx : x.token = token) :
    findToken token (pre ++ x :: post) i = some (i + pre.length) := by
  induction pre generalizing i with
  | nil => simp [findToken, hx]
  | cons a pre ih =>
    have ha : a.token ≠ token := hpre a (List.mem_cons_self _ _)
    have hstep : findToken token (a :: (pre ++ x :: post)) i =
        findToken token (pre ++ x :: post) (i + 1) := by
      simp [findToken, ha]
    rw [List.cons_append, hstep, ih (i + 1) (fun y hy => hpre y (List.mem_cons_of_mem _ hy))]
    simp only [List.length_cons]
    congr 1
    omega

theorem nssPKIObject_RemoveInstanceForToken_eq (object : nssPKIObject) (token : Nat)
    (pre post : List nssCryptokiObject) (x : nssCryptokiObject)
    (hsplit : object.instances = pre ++ x :: post)
    (hpre : ∀ y ∈ pre, y.token ≠ token) (hx : x.token = token) :
    nssPKIObject_RemoveInstanceForToken object token =
      (PR_SUCCESS,
        { object with
          instances :=
            match post.getLast? with
            | none => pre
            | some last => pre ++ last :: post.dropLast }) := by
  have hn : object.numInstances = pre.length + 1 + post.length := by
    simp [nssPKIObject.numInstances, hsplit]; omega
  have hn0 : ¬ object.numInstances = 0 := by omega
  have hfind := findToken_append token pre post x 0 hpre hx
  unfold nssPKIObject_RemoveInstanceForToken
  simp only [hn0, if_false]
  rw [hsplit, hfind, hn]
  rcases List.eq_nil_or_concat post with hp | ⟨L, b, hp⟩
  · subst hp
    have h1 : (pre ++ [x])[pre.length + 1 + ([] : List nssCryptokiObject).length - 1]? =
        some x := by
      simp
    simp only [h1, Nat.zero_add]
    simp [set_mid]
  · rw [List.concat_eq_append] at hp
    subst hp
    have hidx : pre.length + 1 + (L ++ [b]).length - 1 = (pre ++ x :: L).length := by
      simp; omega
    have h1 : (pre ++ x :: (L ++ [b]))[pre.length + 1 + (L ++ [b]).length - 1]? =
        some b := by
      rw [hidx]
      have : pre ++ x :: (L ++ [b]) = (pre ++ x :: L) ++ b :: [] := by simp
      rw [this]
      exact getElem?_mid _ _ _
    simp only [h1, Nat.zero_add]
    rw [set_mid, hidx]
    have h2 : pre ++ b :: (L ++ [b]) = (pre ++ b :: L) ++ [b] := by simp
    have h3 : (pre ++ x :: L).length = (pre ++ b :: L).length := by simp
    rw [h2, h3, List.take_left']
    · simp
    · rfl


/-! ## Lemmas on the best-match selection -/

theorem FindBest_newer_cases (s : BestCertState) (bestdc : nssDecodedCert)
    (c : NSSCertificate) (dc : nssDecodedCert) :
    ((FindBest_newer s bestdc c dc).best = s.best ∨
      (FindBest_newer s bestdc c dc).best = some (nssCertificate_AddRef c, dc)) ∧
    (FindBest_newer s bestdc c dc).bestCertMatches = s.bestCertMatches := by
  unfold FindBest_newer
  split
  · exact ⟨Or.inr rfl, rfl⟩
  · exact ⟨Or.inl rfl, rfl⟩

theorem FindBest_trust_cases (usage : NSSUsage) (s : BestCertState) (bestdc : nssDecodedCert)
    (c : NSSCertificate) (dc : nssDecodedCert) :
    ((FindBest_trust usage s bestdc c dc).best = s.best ∨
      (FindBest_trust usage s bestdc c dc).best = some (nssCertificate_AddRef c, dc)) ∧
    (FindBest_trust usage s bestdc c dc).bestCertMatches = s.bestCertMatches := by
  unfold FindBest_trust
  split
  · split
    · exact ⟨Or.inl rfl, rfl⟩
    · exact FindBest_newer_cases { s with bestCertIsTrusted := true } bestdc c dc
  · split
    · exact ⟨Or.inr rfl, rfl⟩
    · exact FindBest_newer_cases s bestdc c dc

theorem FindBest_time_cases (time : NSSTime) (usage : NSSUsage) (s : BestCertState)
    (bestdc : nssDecodedCert) (c : NSSCertificate) (dc : nssDecodedCert) :
    ((FindBest_time time usage s bestdc c dc).best = s.best ∨
      (FindBest_time time usage s bestdc c dc).best = some (nssCertificate_AddRef c, dc)) ∧
    (FindBest_time time usage s bestdc c dc).bestCertMatches = s.bestCertMatches := by
  unfold FindBest_time
  split
  · split
    · exact ⟨Or.inl rfl, rfl⟩
    · exact FindBest_trust_cases usage { s with bestCertIsValidAtTime := true } bestdc c dc
  · split
    · exact ⟨Or.inr rfl, rfl⟩
    · exact FindBest_trust_cases usage s bestdc c dc

theorem BestInv_step (time : NSSTime) (usage : NSSUsage) (seen : List NSSCertificate)
    (s : BestCertState) (c : NSSCertificate) (h : BestInv usage seen s) :
    BestInv usage (seen ++ [c]) (FindBest_step time usage s c) := by
  unfold FindBest_step nssCertificate_GetDecoding
  cases hdc : c.decoding with
  | none =>
    simp only []
    refine ⟨?_, ?_⟩
    · intro hb x hx
      rcases List.mem_append.1 hx with hx | hx
      · exact h.1 hb x hx
      · simp only [List.mem_singleton] at hx
        rw [hx]; exact hdc
    · intro b bdc hb
      obtain ⟨⟨x, hx, hx2⟩, h2, h3⟩ := h.2 b bdc hb
      refine ⟨⟨x, List.mem_append_left _ hx, hx2⟩, h2, ?_⟩
      intro y hy dc hyd hm
      rcases List.mem_append.1 hy with hy | hy
      · exact h3 y hy dc hyd hm
      · simp only [List.mem_singleton] at hy
        rw [hy, hdc] at hyd
        exact absurd hyd (by simp)
  | some dc =>
    simp only []
    cases hbest : s.best with
    | none =>
      simp only []
      refine ⟨by simp, ?_⟩
      intro b bdc hb
      simp only [Option.some.injEq, Prod.mk.injEq] at hb
      obtain ⟨rfl, rfl⟩ := hb
      refine ⟨⟨c, by simp, hdc, rfl⟩, rfl, ?_⟩
      intro y hy dc2 hyd hm
      rcases List.mem_append.1 hy with hy | hy
      · rw [h.1 hbest y hy] at hyd
        exact absurd hyd (by simp)
      · simp only [List.mem_singleton] at hy
        rw [hy, hdc] at hyd
        simp only [Option.some.injEq] at hyd
        rw [hyd]; exact hm
    | some p =>
      obtain ⟨b, bdc⟩ := p
      obtain ⟨⟨x, hx, hx2, hx3⟩, h2, h3⟩ := h.2 b bdc hbest
      simp only []
      have key : ∀ s1 : BestCertState,
          (s1.best = s.best ∨ s1.best = some (nssCertificate_AddRef c, dc)) →
          s1.bestCertMatches = s.bestCertMatches →
          (s1.best = s.best → dc.matchUsage usage = true → s.bestCertMatches = true) →
          (s1.best = some (nssCertificate_AddRef c, dc) →
            s.bestCertMatches = dc.matchUsage usage) →
          BestInv usage (seen ++ [c]) s1 := by
        intro s1 hcase hm hkeep htake
        refine ⟨?_, ?_⟩
        · intro hn
          rcases hcase with hc | hc
          · rw [hc, hbest] at hn; exact absurd hn (by simp)
          · rw [hc] at hn; exact absurd hn (by simp)
        · intro b1 bdc1 hb1
          rcases hcase with hc | hc
          · rw [hc, hbest] at hb1
            simp only [Option.some.injEq, Prod.mk.injEq] at hb1
            obtain ⟨rfl, rfl⟩ := hb1
            refine ⟨⟨x, List.mem_append_left _ hx, hx2, hx3⟩, by rw [hm]; exact h2, ?_⟩
            intro y hy d hyd hmt
            rw [hm]
            rcases List.mem_append.1 hy with hy | hy
            · exact h3 y hy d hyd hmt
            · simp only [List.mem_singleton] at hy
              rw [hy, hdc] at hyd
              simp only [Option.some.injEq] at hyd
              rw [← hyd] at hmt
              exact hkeep (by rw [hc, hbest]) hmt
          · have htk := htake hc
            rw [hc] at hb1
            simp only [Option.some.injEq, Prod.mk.injEq] at hb1
            obtain ⟨rfl, rfl⟩ := hb1
            refine ⟨⟨c, by simp, hdc, rfl⟩, by rw [hm]; exact htk, ?_⟩
            intro y hy d hyd hmt
            rw [hm]
            rcases List.mem_append.1 hy with hy | hy
            · exact h3 y hy d hyd hmt
            · simp only [List.mem_singleton] at hy
              rw [hy, hdc] at hyd
              simp only [Option.some.injEq] at hyd
              rw [← hyd] at hmt
              rw [htk]; exact hmt
      cases hbm : s.bestCertMatches <;> cases htm : dc.matchUsage usage
      · -- neither matches
        simp only [Bool.false_and, Bool.not_false, Bool.true_and, Bool.false_eq_true, if_false]
        obtain ⟨h1, h2⟩ := FindBest_time_cases time usage s bdc c dc
        exact key _ (by rw [hbest] at h1; rw [hbest]; exact h1) (by rw [h2])
          (by intro _ hh; rw [htm] at hh; exact absurd hh (by simp))
          (by intro _; rw [hbm, htm])
      · -- the candidate matches, the best does not
        simp only [Bool.false_and, Bool.not_false, Bool.true_and, Bool.false_eq_true, if_false,
          if_true]
        refine ⟨by simp, ?_⟩
        intro b1 bdc1 hb1
        simp only [Option.some.injEq, Prod.mk.injEq] at hb1
        obtain ⟨rfl, rfl⟩ := hb1
        exact ⟨⟨c, by simp, hdc, rfl⟩, htm.symm, fun _ _ _ _ _ => rfl⟩
      · -- the best matches, the candidate does not
        simp only [Bool.not_false, Bool.and_self, if_true]
        exact key s (Or.inl rfl) rfl (by intro _ _; exact hbm)
          (by
            intro hc
            rw [hbest] at hc
            simp only [Option.some.injEq, Prod.mk.injEq] at hc
            exfalso
            have : bdc.matchUsage usage = dc.matchUsage usage := by rw [hc.2]
            rw [← h2, hbm, htm] at this
            exact absurd this (by simp))
      · -- both match
        simp only [Bool.not_true, Bool.and_false, Bool.false_and, Bool.false_eq_true, if_false]
        obtain ⟨h1, h2⟩ := FindBest_time_cases time usage s bdc c dc
        exact key _ (by rw [hbest] at h1; rw [hbest]; exact h1) (by rw [h2])
          (by intro _ _; exact hbm) (by intro _; rw [hbm, htm])

theorem BestInv_foldl (time : NSSTime) (usage : NSSUsage) (l : List NSSCertificate) :
    ∀ (seen : List NSSCertificate) (s : BestCertState), BestInv usage seen s →
      BestInv usage (seen ++ l) (l.foldl (FindBest_step time usage) s) := by
  induction l with
  | nil => intro seen s h; simpa using h
  | cons c l ih =>
    intro seen s h
    have := ih (seen ++ [c]) _ (BestInv_step time usage seen s c h)
    simpa using this

theorem nssCertificate_AddRef_decoding (c : NSSCertificate) :
    (nssCertificate_AddRef c).decoding = c.decoding := rfl

/-! ## Lemmas on arrays and nicknames -/

theorem readArray_map_some {α : Type} (l : List α) (k : Nat) :
    readArray (l.map some ++ List.replicate (k + 1) none) = l := by
  induction l with
  | nil => simp [readArray, List.replicate_succ]
  | cons a l ih => simp [readArray, ih]

theorem Join_copy_spec {α : Type} (l2 : List α) :
    ∀ (l1 : List α) (k : Nat),
      Join_copy (l1.map some ++ List.replicate (l2.length + k) none) l2 l1.length =
        (l1 ++ l2).map some ++ List.replicate k none := by
  induction l2 with
  | nil => intro l1 k; simp [Join_copy]
  | cons c l2 ih =>
    intro l1 k
    have h1 : l1.map some ++ List.replicate ((c :: l2).length + k) (none : Option α) =
        l1.map some ++ none :: List.replicate (l2.length + k) none := by
      have : (c :: l2).length + k = (l2.length + k) + 1 := by simp; omega
      rw [this, List.replicate_succ]
    have hl : (l1.map (some : α → Option α)).length = l1.length := by simp
    rw [Join_copy, h1, ← hl, set_mid]
    have h2 : l1.map some ++ some c :: List.replicate (l2.length + k) (none : Option α) =
        (l1 ++ [c]).map some ++ List.replicate (l2.length + k) none := by simp
    have h3 : (l1.map (some : α → Option α)).length + 1 = (l1 ++ [c]).length := by simp
    rw [h2, h3, ih (l1 ++ [c]) k]
    simp

theorem GetNicknameForToken_loop_token (t : Nat) (l : List nssCryptokiObject) :
    GetNicknameForToken_loop true (some t) l =
      (l.find? fun x => decide (x.token = t)).bind fun x => x.label := by
  induction l with
  | nil => rfl
  | cons x rest ih =>
    by_cases hx : x.token = t
    · simp [GetNicknameForToken_loop, hx, nssUTF8_Duplicate]
    · simp [GetNicknameForToken_loop, hx, ih]

theorem GetNicknameForToken_loop_none (l : List nssCryptokiObject) :
    GetNicknameForToken_loop true none l =
      (l.find? fun x => x.label.isSome).bind fun x => x.label := by
  induction l with
  | nil => rfl
  | cons x rest ih =>
    cases hx : x.label with
    | none => simp [GetNicknameForToken_loop, hx, ih]
    | some s => simp [GetNicknameForToken_loop, hx, nssUTF8_Duplicate]

theorem AddInstances_loop_failed (vt : Vtable) (allocs : Nat → AllocEnv) (n : Nat)
    (l : List nssCryptokiObject) :
    ∀ (c : nssPKIObjectCollection) (i : Nat) (status : PRStatus), status ≠ PR_SUCCESS →
      AddInstances_loop vt allocs n c l i status = some (c, status) := by
  induction l with
  | nil => intro c i status _; rfl
  | cons inst rest ih =>
    intro c i status hs
    unfold AddInstances_loop
    by_cases hc : n = 0 ∨ i < n
    · simp only [hc, if_true, hs, if_false]
      exact ih c (i + 1) status hs
    · simp only [hc, if_false]

theorem AddInstances_loop_eq (vt : Vtable) (allocs : Nat → AllocEnv) (n : Nat)
    (l : List nssCryptokiObject) :
    ∀ (c : nssPKIObjectCollection) (i : Nat),
      AddInstances_loop vt allocs n c l i PR_SUCCESS =
        addUntilFailure vt allocs c (if n = 0 then l else l.take (n - i)) i := by
  induction l with
  | nil => intro c i; simp [AddInstances_loop, addUntilFailure]
  | cons inst rest ih =>
    intro c i
    unfold AddInstances_loop
    by_cases hn : n = 0
    · simp only [hn, true_or, if_true, addUntilFailure]
      cases hadd : add_object_instance vt (allocs i) c inst with
      | none => rfl
      | some r =>
        obtain ⟨c1, node, found⟩ := r
        cases node with
        | none =>
          simp only []
          exact AddInstances_loop_failed vt allocs 0 rest c1 (i + 1) PR_FAILURE (by decide)
        | some nd =>
          simp only []
          have := ih c1 (i + 1)
          rw [hn] at this
          simpa using this
    · by_cases hi : i < n
      · have htake : (inst :: rest).take (n - i) = inst :: rest.take (n - (i + 1)) := by
          have : n - i = (n - (i + 1)) + 1 := by omega
          rw [this, List.take_succ_cons]
        simp only [hn, hi, false_or, if_true, if_false, htake, addUntilFailure]
        cases hadd : add_object_instance vt (allocs i) c inst with
        | none => rfl
        | some r =>
          obtain ⟨c1, node, found⟩ := r
          cases node with
          | none =>
            simp only []
            exact AddInstances_loop_failed vt allocs n rest c1 (i + 1) PR_FAILURE (by decide)
          | some nd =>
            simp only []
            have := ih c1 (i + 1)
            simpa [hn] using this
      · have h0 : n - i = 0 := by omega
        simp [hn, hi, h0, addUntilFailure]

theorem add_object_instance_failed (vt : Vtable) (env : AllocEnv)
    (c c1 : nssPKIObjectCollection) (inst : nssCryptokiObject) (found : Bool)
    (h : add_object_instance vt env c inst = some (c1, none, found)) : c1 = c := by
  unfold add_object_instance at h
  cases hl : PL_HashTableLookup hash_instance compare_instances c.PKIinstancehashtable inst with
  | some n => simp [hl] at h
  | none =>
    simp only [hl] at h
    cases hmark : env.markOk with
    | false =>
      simp [hmark] at h
      exact h.1.symm
    | true =>
      simp only [hmark, Bool.not_true, Bool.false_eq_true, if_false] at h
      by_cases hst : (vt.getUIDFromInstance inst UID.zero).1 = PR_SUCCESS
      · simp only [hst, ne_eq, not_true_eq_false, if_false] at h
        cases hu : PL_HashTableLookup hash_object compare_objects c.PKIobjecthashtable
            (vt.getUIDFromInstance inst UID.zero).2 with
        | some n2 =>
          simp only [hu] at h
          cases hnd : c.nodes[n2]? with
          | none => simp [hnd] at h
          | some nd =>
            simp only [hnd] at h
            cases ho : nd.object with
            | none => simp [ho] at h
            | some o =>
              cases hd : nssPKIObject_AddInstance_discards o inst <;> simp [ho, hd] at h
        | none =>
          simp only [hu] at h
          cases hnode : env.nodeOk with
          | false =>
            simp [hnode] at h
            exact h.1.symm
          | true =>
            simp only [hnode, Bool.not_true, Bool.false_eq_true, if_false] at h
            cases hc : nssPKIObject_Create env (some inst) c.lockType with
            | none =>
              simp [hc] at h
              exact h.1.symm
            | some o => simp [hc] at h
      · simp [hst] at h
        exact h.1.symm

/-! ## Lemmas on the well-formed UID index -/


theorem remove_spec {ν : Type} (ht : PLHashTable UID ν) (k : UID)
    (hh : ∀ he ∈ ht, he.keyHash = hash_object he.key)
    (hnd : (ht.map fun he => he.key).Nodup) :
    ∀ he ∈ (PL_HashTableRemove hash_object compare_objects ht k).1, he ∈ ht ∧ he.key ≠ k := by
  induction ht with
  | nil => intro he h; simp [PL_HashTableRemove] at h
  | cons e rest ih =>
    simp only [List.map_cons, List.nodup_cons, List.mem_map, not_exists, not_and] at hnd
    have hhe := hh e (List.mem_cons_self _ _)
    have hhr : ∀ he ∈ rest, he.keyHash = hash_object he.key :=
      fun he h => hh he (List.mem_cons_of_mem _ h)
    intro he hmem
    unfold PL_HashTableRemove at hmem
    by_cases hm : PLHashEntry.matches hash_object compare_objects k e = true
    · simp only [hm, if_true] at hmem
      have hek : e.key = k := (matches_object_iff k e hhe).1 hm
      refine ⟨List.mem_cons_of_mem _ hmem, ?_⟩
      intro hk
      exact hnd.1 he hmem (hk.trans hek.symm)
    · simp only [hm, if_false] at hmem
      rcases List.mem_cons.1 hmem with h1 | h1
      · rw [h1]
        refine ⟨List.mem_cons_self _ _, ?_⟩
        intro hk
        exact hm ((matches_object_iff k e hhe).2 hk)
      · obtain ⟨h2, h3⟩ := ih hhr hnd.2 he h1
        exact ⟨List.mem_cons_of_mem _ h2, h3⟩

/-- A call of `add_object_instance` that stores a new instance keeps the UID index well
formed and returns a node that the UID index references. -/
theorem add_object_instance_added (vt : Vtable) (env : AllocEnv)
    (c c1 : nssPKIObjectCollection) (inst : nssCryptokiObject) (node : Nat)
    (hwf : UidIndexWF c)
    (h : add_object_instance vt env c inst = some (c1, some node, false)) :
    UidIndexWF c1 ∧ ∃ he ∈ c1.PKIobjecthashtable, he.value = node := by
  unfold add_object_instance at h
  cases hl : PL_HashTableLookup hash_instance compare_instances c.PKIinstancehashtable inst with
  | some n => simp [hl] at h
  | none =>
    simp only [hl] at h
    cases hmark : env.markOk with
    | false => simp [hmark] at h
    | true =>
      simp only [hmark, Bool.not_true, Bool.false_eq_true, if_false] at h
      by_cases hst : (vt.getUIDFromInstance inst UID.zero).1 = PR_SUCCESS
      · simp only [hst, ne_eq, not_true_eq_false, if_false] at h
        cases hu : PL_HashTableLookup hash_object compare_objects c.PKIobjecthashtable
            (vt.getUIDFromInstance inst UID.zero).2 with
        | some n2 =>
          simp only [hu] at h
          cases hnd : c.nodes[n2]? with
          | none => simp [hnd] at h
          | some nd =>
            simp only [hnd] at h
            cases ho : nd.object with
            | none => simp [ho] at h
            | some o =>
              simp only [ho] at h
              cases hd : nssPKIObject_AddInstance_discards o inst with
              | true => simp [hd] at h
              | false =>
              simp only [hd, Bool.false_eq_true, if_false, Option.some.injEq, Prod.mk.injEq,
                and_true] at h
              obtain ⟨rfl, rfl⟩ := h
              obtain ⟨he0, hhe0, _, hv0⟩ := lookup_some _ _ _ _ _ hu
              have hlt : n2 < c.nodes.length := (List.getElem?_eq_some_iff.1 hnd).1
              refine ⟨⟨hwf.objHash, hwf.objNodup, ?_, hwf.sizeGe⟩, he0, hhe0, hv0⟩
              intro e hemem
              obtain ⟨nd1, o1, h1, h2, h3⟩ := hwf.objNodes e hemem
              by_cases hv : e.value = n2
              · have hsame : nd1 = nd := by
                  rw [hv, hnd] at h1
                  exact (Option.some.inj h1).symm
                subst hsame
                exact ⟨{ nd1 with object := some (nssPKIObject_AddInstance env.arrayOk o inst).2 },
                  (nssPKIObject_AddInstance env.arrayOk o inst).2,
                  by simp only [hv, List.getElem?_set_self hlt], h2, rfl⟩
              · exact ⟨nd1, o1, by simp only [List.getElem?_set_ne (Ne.symm hv)]; exact h1,
                  h2, h3⟩
        | none =>
          simp only [hu] at h
          cases hnode : env.nodeOk with
          | false => simp [hnode] at h
          | true =>
            simp only [hnode, Bool.not_true, Bool.false_eq_true, if_false] at h
            cases hc : nssPKIObject_Create env (some inst) c.lockType with
            | none => simp [hc] at h
            | some o =>
              simp only [hc, Option.some.injEq, Prod.mk.injEq, and_true] at h
              obtain ⟨rfl, rfl⟩ := h
              rw [add_of_lookup_none _ _ _ _ _ hu]
              have hnokey : ∀ he ∈ c.PKIobjecthashtable,
                  he.key ≠ (vt.getUIDFromInstance inst UID.zero).2 := by
                intro he hhe hk
                have hm := (lookup_none_iff _ _ _ _).1 hu he hhe
                rw [(matches_object_iff _ _ (hwf.objHash he hhe)).2 hk] at hm
                exact absurd hm (by simp)
              refine ⟨⟨?_, ?_, ?_, ?_⟩,
                ⟨hash_object (vt.getUIDFromInstance inst UID.zero).2,
                  (vt.getUIDFromInstance inst UID.zero).2, c.nodes.length⟩, by simp, rfl⟩
              · intro e hemem
                rcases List.mem_append.1 hemem with h1 | h1
                · exact hwf.objHash e h1
                · simp only [List.mem_singleton] at h1
                  subst h1
                  rfl
              · simp only [List.map_append, List.map_cons, List.map_nil]
                rw [List.nodup_append]
                refine ⟨hwf.objNodup, by simp, ?_⟩
                intro u hu1 hu2
                simp only [List.mem_singleton] at hu2
                subst hu2
                obtain ⟨he, hhe, hk⟩ := List.mem_map.1 hu1
                exact hnokey he hhe hk
              · intro e hemem
                rcases List.mem_append.1 hemem with h1 | h1
                · obtain ⟨nd1, o1, h2, h3, h4⟩ := hwf.objNodes e h1
                  have hlt : e.value < c.nodes.length := (List.getElem?_eq_some_iff.1 h2).1
                  exact ⟨nd1, o1, by simp only [List.getElem?_append_left hlt]; exact h2,
                    h3, h4⟩
                · simp only [List.mem_singleton] at h1
                  subst h1
                  exact ⟨{ haveObject := false, object := some o,
                           uid := (vt.getUIDFromInstance inst UID.zero).2 }, o, by simp, rfl,
                    rfl⟩
              · have := hwf.sizeGe
                simp [sizeIncr]
                omega
      · simp [hst] at h


/-! ## Lemmas on the enumeration of the UID index -/


theorem get_objects_callback_fail (vt : Vtable) (he : PLHashEntry UID Nat) (idx : Nat)
    (nodes : List pkiObjectCollectionNode) (args : get_obj_args)
    (node : pkiObjectCollectionNode) (o : nssPKIObject)
    (hnd : nodes[he.value]? = some node) (ho : node.object = some o)
    (hproto : node.haveObject = false) (hfail : vt.createObject o = none) :
    get_objects_callback vt he idx (nodes, args) =
      some (HTEnumerate.HT_ENUMERATE_REMOVE,
        (nodes.set he.value { node with object := none }, { args with error := 1 })) := by
  simp [get_objects_callback, hnd, ho, hproto, hfail]

theorem get_objects_callback_ok (vt : Vtable) (he : PLHashEntry UID Nat) (idx : Nat)
    (nodes : List pkiObjectCollectionNode) (args : get_obj_args)
    (node : pkiObjectCollectionNode) (o o2 : nssPKIObject)
    (hnd : nodes[he.value]? = some node) (ho : node.object = some o)
    (hprom : (if node.haveObject then some o else vt.createObject o) = some o2)
    (hcap : args.nr_objs < args.rvObjects.length) :
    get_objects_callback vt he idx (nodes, args) =
      some (if args.nr_objs + 1 < args.rvSize then HTEnumerate.HT_ENUMERATE_NEXT
            else HTEnumerate.HT_ENUMERATE_STOP,
        (nodes.set he.value
            { haveObject := true, object := some (nssPKIObject_AddRef o2), uid := node.uid },
          { args with
            rvObjects := args.rvObjects.set args.nr_objs (some (nssPKIObject_AddRef o2))
            nr_objs := args.nr_objs + 1 })) := by
  cases hh : node.haveObject with
  | true =>
    simp only [hh, if_true, Option.some.injEq] at hprom
    subst hprom
    simp only [get_objects_callback, hnd, ho, hh, Bool.not_true, Bool.false_eq_true, if_false,
      hcap, if_true]
    split <;> rfl
  | false =>
    simp only [hh, Bool.false_eq_true, if_false] at hprom
    simp only [get_objects_callback, hnd, ho, hh, Bool.not_false, if_true, hprom, hcap]
    split <;> rfl


theorem get_objects_enum (vt : Vtable) (E : PLHashTable UID Nat) :
    ∀ (n : Nat) (nodes : List pkiObjectCollectionNode) (args : get_obj_args)
      (P Q : List (Option nssPKIObject)),
      (∀ e ∈ E, ∃ nd o, nodes[e.value]? = some nd ∧ nd.object = some o) →
      (E.map fun e => e.value).Nodup →
      args.nr_objs < args.rvSize → args.rvSize ≤ args.rvObjects.length →
      args.rvObjects = P ++ Q → P.length = args.nr_objs →
      ∃ m T nodes1 args1 S,
        PL_HashTableEnumerateEntries (get_objects_callback vt) E n (nodes, args) =
          some (m, T, nodes1, args1) ∧
        S.Sublist E ∧
        args1.nr_objs = args.nr_objs + S.length ∧ args1.nr_objs ≤ args.rvSize ∧
        args1.rvObjects = P ++ S.map (fun e => objAt nodes1 e.value) ++ Q.drop S.length ∧
        (∀ e ∈ S, ∃ nd o, nodes1[e.value]? = some nd ∧ nd.haveObject = true ∧
          nd.object = some o) ∧
        (∀ i, i ∉ E.map (fun e => e.value) → nodes1[i]? = nodes[i]?) ∧
        ((∀ o, (vt.createObject o).isSome = true) →
          S = E.take (args.rvSize - args.nr_objs) ∧ T = E) ∧
        (args.error = 1 → args1.error = 1) ∧
        (S = [] → E ≠ [] → args1.error = 1) ∧
        n ≤ m ∧ (E ≠ [] → n < m) ∧ (E = [] → m = n) := by
  induction E with
  | nil =>
    intro n nodes args P Q _ _ hnr _ hbuf _
    refine ⟨n, [], nodes, args, [], rfl, List.Sublist.refl _, by simp, by omega, by simpa using hbuf,
      by simp, fun _ _ => rfl, fun _ => by simp, fun h => h, fun _ h => absurd rfl h,
      Nat.le_refl _, fun h => absurd rfl h, fun _ => rfl⟩
  | cons e E ih =>
    intro n nodes args P Q hE hnd hnr hcap hbuf hP
    obtain ⟨nd, o, hnode, hobj⟩ := hE e (List.mem_cons_self _ _)
    simp only [List.map_cons, List.nodup_cons] at hnd
    obtain ⟨hv, hnd2⟩ := hnd
    have hframe0 : ∀ (x : pkiObjectCollectionNode), ∀ e1 ∈ E,
        (nodes.set e.value x)[e1.value]? = nodes[e1.value]? := by
      intro x e1 he1
      have hne : e.value ≠ e1.value := by
        intro h
        apply hv
        rw [h]
        exact List.mem_map.2 ⟨e1, he1, rfl⟩
      simp only [List.getElem?_set_ne hne]
    have hE2 : ∀ (x : pkiObjectCollectionNode), ∀ e1 ∈ E, ∃ nd1 o1,
        (nodes.set e.value x)[e1.value]? = some nd1 ∧ nd1.object = some o1 := by
      intro x e1 he1
      rw [hframe0 x e1 he1]
      exact hE e1 (List.mem_cons_of_mem _ he1)
    have hlt : e.value < nodes.length := (List.getElem?_eq_some_iff.1 hnode).1
    cases hprom : (if nd.haveObject then some o else vt.createObject o) with
    | none =>
      have hh : nd.haveObject = false := by
        cases h : nd.haveObject with
        | false => rfl
        | true => simp [h] at hprom
      have hfail : vt.createObject o = none := by simpa [hh] using hprom
      have hcb := get_objects_callback_fail vt e n nodes args nd o hnode hobj hh hfail
      obtain ⟨m, T, nodes1, args1, S, h1, h2, h3, h4, h5, h6, h7, _, h9, _, h11, _, _⟩ :=
        ih (n + 1) (nodes.set e.value { nd with object := none }) { args with error := 1 } P Q
          (hE2 _) hnd2 hnr hcap hbuf hP
      refine ⟨m, T, nodes1, args1, S, ?_, List.Sublist.cons _ h2, h3, h4, h5, h6, ?_, ?_, ?_,
        ?_, by omega, fun _ => by omega, fun h => by simp at h⟩
      · simp only [PL_HashTableEnumerateEntries, hcb, h1]
      · intro i hi
        simp only [List.map_cons, List.mem_cons, not_or] at hi
        rw [h7 i hi.2, List.getElem?_set_ne (Ne.symm hi.1)]
      · intro hall
        have := hall o
        rw [hfail] at this
        simp at this
      · intro _
        exact h9 rfl
      · intro _ _
        exact h9 rfl
    | some o2 =>
      have hcapn : args.nr_objs < args.rvObjects.length := by omega
      have hcb := get_objects_callback_ok vt e n nodes args nd o o2 hnode hobj hprom hcapn
      have hQ : ∃ q Q1, Q = q :: Q1 := by
        cases Q with
        | nil =>
          rw [hbuf] at hcapn
          simp at hcapn
          omega
        | cons q Q1 => exact ⟨q, Q1, rfl⟩
      obtain ⟨q, Q1, hQ1⟩ := hQ
      have hset : args.rvObjects.set args.nr_objs (some (nssPKIObject_AddRef o2)) =
          (P ++ [some (nssPKIObject_AddRef o2)]) ++ Q1 := by
        rw [hbuf, hQ1, ← hP, set_mid]
        simp
      have hnode1 : (nodes.set e.value
          { haveObject := true, object := some (nssPKIObject_AddRef o2), uid := nd.uid })[e.value]? =
          some { haveObject := true, object := some (nssPKIObject_AddRef o2), uid := nd.uid } := by
        simp only [List.getElem?_set_self hlt]
      by_cases hnext : args.nr_objs + 1 < args.rvSize
      · simp only [hnext, if_true] at hcb
        obtain ⟨m, T, nodes1, args1, S, h1, h2, h3, h4, h5, h6, h7, h8, h9, _, h11, _, _⟩ :=
          ih (n + 1)
            (nodes.set e.value
              { haveObject := true, object := some (nssPKIObject_AddRef o2), uid := nd.uid })
            { args with
              rvObjects := args.rvObjects.set args.nr_objs (some (nssPKIObject_AddRef o2))
              nr_objs := args.nr_objs + 1 }
            (P ++ [some (nssPKIObject_AddRef o2)]) Q1 (hE2 _) hnd2 hnext
            (by simpa using hcap) hset (by simp [hP])
        have hkeep : nodes1[e.value]? =
            some { haveObject := true, object := some (nssPKIObject_AddRef o2), uid := nd.uid } := by
          rw [h7 e.value hv, hnode1]
        refine ⟨m, e :: T, nodes1, args1, e :: S, ?_, List.Sublist.cons₂ _ h2, ?_, h4, ?_, ?_,
          ?_, ?_, ?_, fun h => by simp at h, by omega, fun _ => by omega, fun h => by simp at h⟩
        · simp only [PL_HashTableEnumerateEntries, hcb, h1]
        · simp only at h3
          simp only [List.length_cons]
          omega
        · rw [h5, hQ1]
          simp [objAt, hkeep]
        · intro e1 he1
          rcases List.mem_cons.1 he1 with rfl | he1
          · exact ⟨_, _, hkeep, rfl, rfl⟩
          · exact h6 e1 he1
        · intro i hi
          simp only [List.map_cons, List.mem_cons, not_or] at hi
          rw [h7 i hi.2, List.getElem?_set_ne (Ne.symm hi.1)]
        · intro hall
          obtain ⟨hS, hT⟩ := h8 hall
          simp only at hS
          have hk : args.rvSize - args.nr_objs = (args.rvSize - (args.nr_objs + 1)) + 1 := by
            omega
          rw [hk, List.take_succ_cons, ← hS, hT]
          exact ⟨rfl, rfl⟩
        · intro herr
          exact h9 herr
      · simp only [hnext, if_false] at hcb
        refine ⟨n + 1, e :: E,
          nodes.set e.value
            { haveObject := true, object := some (nssPKIObject_AddRef o2), uid := nd.uid },
          { args with
            rvObjects := args.rvObjects.set args.nr_objs (some (nssPKIObject_AddRef o2))
            nr_objs := args.nr_objs + 1 },
          [e], ?_, ?_, ?_, ?_, ?_, ?_, ?_, ?_, fun h => h,
          fun h => by simp at h, by omega, fun _ => by omega, fun h => by simp at h⟩
        · simp only [PL_HashTableEnumerateEntries, hcb]
        · exact List.Sublist.cons₂ _ (List.nil_sublist _)
        · simp
        · simp only
          omega
        · simp only [hset, hQ1]
          simp [objAt, hnode1]
        · intro e1 he1
          simp only [List.mem_singleton] at he1
          subst he1
          exact ⟨_, _, hnode1, rfl, rfl⟩
        · intro i hi
          simp only [List.map_cons, List.mem_cons, not_or] at hi
          rw [List.getElem?_set_ne (Ne.symm hi.1)]
        · intro _
          have hk : args.rvSize - args.nr_objs = 0 + 1 := by omega
          rw [hk, List.take_succ_cons]
          simp


theorem UidIndexWF_values_nodup (c : nssPKIObjectCollection) (hwf : UidIndexWF c) :
    (c.PKIobjecthashtable.map fun e => e.value).Nodup := by
  refine List.Nodup.map_on ?_ (List.Nodup.of_map _ hwf.objNodup)
  intro a ha b hb hab
  obtain ⟨nd1, _, h1, h2, _⟩ := hwf.objNodes a ha
  obtain ⟨nd2, _, h3, h4, _⟩ := hwf.objNodes b hb
  rw [hab, h3] at h1
  have : nd2 = nd1 := Option.some.inj h1
  exact key_unique _ hwf.objNodup a b ha hb (by rw [← h2, ← h4, this])

theorem GetObjects_run (vt : Vtable) (lastError : Option NSSError)
    (c : nssPKIObjectCollection) (buf : List (Option nssPKIObject)) (rvSize : Nat)
    (hwf : UidIndexWF c) (hsz : 1 ≤ rvSize) (hcap : rvSize ≤ buf.length) :
    ∃ r S, nssPKIObjectCollection_GetObjects vt lastError c buf rvSize = some r ∧
      S.Sublist c.PKIobjecthashtable ∧ S.length ≤ rvSize ∧
      r.rvObjects = S.map (fun e => objAt r.collection.nodes e.value) ++ buf.drop S.length ∧
      (∀ e ∈ S, ∃ nd o, r.collection.nodes[e.value]? = some nd ∧ nd.haveObject = true ∧
        nd.object = some o) ∧
      ((∀ o, (vt.createObject o).isSome = true) → S = c.PKIobjecthashtable.take rvSize) ∧
      r.status = PR_SUCCESS ∧ r.lastError = lastError := by
  obtain ⟨m, T, nodes1, args1, S, h1, h2, h3, h4, h5, h6, _, h8, _, h10, _, _, h13⟩ :=
    get_objects_enum vt c.PKIobjecthashtable 0 c.nodes
      { rvObjects := buf, rvSize := rvSize, nr_objs := 0, error := 0 } [] buf
      (fun e he => by
        obtain ⟨nd, o, h1, _, h3⟩ := hwf.objNodes e he
        exact ⟨nd, o, h1, h3⟩)
      (UidIndexWF_values_nodup c hwf) (by simpa using hsz) (by simpa using hcap) rfl rfl
  simp only [Nat.zero_add, List.nil_append] at h3 h4 h5
  have hfirst : ∃ first, args1.rvObjects[0]? = some first ∧
      (S ≠ [] → first ≠ none) := by
    cases S with
    | nil =>
      cases buf with
      | nil => simp at hcap; omega
      | cons b buf1 =>
        refine ⟨b, by rw [h5]; simp, fun h => absurd rfl h⟩
    | cons e S1 =>
      obtain ⟨nd, o, hn1, _, hn3⟩ := h6 e (List.mem_cons_self _ _)
      refine ⟨some o, by rw [h5]; simp [objAt, hn1, hn3], fun _ => by simp⟩
  obtain ⟨first, hf1, hf2⟩ := hfirst
  have hres : ∃ r, nssPKIObjectCollection_GetObjects vt lastError c buf rvSize = some r ∧
      r.collection.nodes = nodes1 ∧ r.rvObjects = args1.rvObjects ∧ r.status = PR_SUCCESS ∧
      r.lastError = lastError := by
    unfold nssPKIObjectCollection_GetObjects
    simp only [h1]
    by_cases hm : m = 0
    · simp only [hm, if_true]
      exact ⟨_, rfl, rfl, rfl, rfl, rfl⟩
    · simp only [hm, if_false, hf1]
      have hE : c.PKIobjecthashtable ≠ [] := fun h => hm (h13 h)
      have hcond : ¬ (args1.error = 0 ∧ first = none) := by
        rintro ⟨he0, hfn⟩
        by_cases hS : S = []
        · have := h10 hS hE
          rw [this] at he0
          exact absurd he0 (by decide)
        · exact hf2 hS hfn
      simp only [hcond, if_false]
      exact ⟨_, rfl, rfl, rfl, rfl, rfl⟩
  obtain ⟨r, hr1, hr2, hr3, hr4, hr5⟩ := hres
  refine ⟨r, S, hr1, h2, by omega, by rw [hr3, h5, hr2], ?_, ?_, hr4, hr5⟩
  · intro e he
    rw [hr2]
    exact h6 e he
  · intro hall
    have := (h8 hall).1
    simpa using this


/-- The sample collection `protoCollection` is what `nssPKIObjectCollection_AddInstances`
builds, and its UID index is well formed. -/
theorem protoCollection_built :
    nssPKIObjectCollection_AddInstances failingVtable allocsOk
      (nssPKIObjectCollection_Create nssPKILockType.nssPKIMonitor)
      (some [⟨1, 100, none⟩]) 0 = some (protoCollection, PR_SUCCESS) := by
  decide

theorem protoCollection_wf : UidIndexWF protoCollection :=
  ⟨by decide, by decide, by simp [protoCollection], by decide⟩

/-- The sample collection `twoNodeCollection` is what `nssPKIObjectCollection_AddInstances`
builds, and its UID index is well formed. -/
theorem twoNodeCollection_built :
    nssPKIObjectCollection_AddInstances handleVtable allocsOk
      (nssPKIObjectCollection_Create nssPKILockType.nssPKIMonitor)
      (some [⟨1, 100, none⟩, ⟨2, 100, none⟩]) 0 = some (twoNodeCollection, PR_SUCCESS) := by
  decide

theorem twoNodeCollection_wf : UidIndexWF twoNodeCollection :=
  ⟨by decide, by decide, by simp [twoNodeCollection], by decide⟩

/-! ## Claims on objects -/


/-- C4. `nssPKIObject_AddInstance` with a successful allocation returns success; if some
instance equals the candidate under `(token, handle)`, the first such instance gets the
candidate's label and nothing else changes; otherwise the candidate is appended. -/
theorem nssPKIObject_AddInstance_spec (object : nssPKIObject) (inst : nssCryptokiObject) :
    (nssPKIObject_AddInstance true object inst).1 = PR_SUCCESS ∧
    (nssPKIObject_AddInstance true object inst).2.refCount = object.refCount ∧
    ((∃ pre x post, object.instances = pre ++ x :: post ∧
        (∀ y ∈ pre, nssCryptokiObject_Equal y inst = false) ∧
        nssCryptokiObject_Equal x inst = true ∧
        (nssPKIObject_AddInstance true object inst).2.instances =
          pre ++ { x with label := inst.label } :: post) ∨
     ((∀ y ∈ object.instances, nssCryptokiObject_Equal y inst = false) ∧
        (nssPKIObject_AddInstance true object inst).2.instances =
          object.instances ++ [inst])) := by
  rcases nssPKIObject_AddInstance_cases true object inst with
    ⟨pre, x, post, h1, h2, h3, h4⟩ | ⟨h1, h2⟩
  · rw [h4]
    exact ⟨rfl, rfl, Or.inl ⟨pre, x, post, h1, h2, h3, rfl⟩⟩
  · rw [h2]
    exact ⟨rfl, rfl, Or.inr ⟨h1, rfl⟩⟩

/-- C3. `nssPKIObject_AddInstance` keeps the instances of an object pairwise distinct under
`(token, handle)`, whatever the allocator does; so does every sequence of such calls. -/
theorem nssPKIObject_AddInstance_distinct (arrayOk : Bool) (object : nssPKIObject)
    (inst : nssCryptokiObject) (h : DistinctInstances object.instances) :
    DistinctInstances (nssPKIObject_AddInstance arrayOk object inst).2.instances ∧
    ∀ calls : List (Bool × nssCryptokiObject),
      DistinctInstances
        (calls.foldl (fun o c => (nssPKIObject_AddInstance c.1 o c.2).2) object).instances := by
  refine ⟨nssPKIObject_AddInstance_distinct_step arrayOk object inst h, ?_⟩
  intro calls
  induction calls generalizing object with
  | nil => simpa using h
  | cons c rest ih =>
    simp only [List.foldl_cons]
    exact ih _ (nssPKIObject_AddInstance_distinct_step c.1 object c.2 h)

/-- Witness of C3 on an object that holds `(token 100, handle 1)`: the same pair with another
label, then a new pair. -/
theorem nssPKIObject_AddInstance_distinct_witness :
    DistinctInstances
        (nssPKIObject_AddInstance true
          ⟨1, [⟨1, 100, some "x"⟩], nssPKILockType.nssPKILock⟩ ⟨1, 100, some "y"⟩).2.instances ∧
    ∀ calls : List (Bool × nssCryptokiObject),
      DistinctInstances
        (calls.foldl (fun o c => (nssPKIObject_AddInstance c.1 o c.2).2)
          ⟨1, [⟨1, 100, some "x"⟩], nssPKILockType.nssPKILock⟩).instances :=
  nssPKIObject_AddInstance_distinct true
    ⟨1, [⟨1, 100, some "x"⟩], nssPKILockType.nssPKILock⟩ ⟨1, 100, some "y"⟩ (by decide)

/-- C10. An object returned by `nssPKIObject_Create` has count 1. In every sequence of `k`
AddRef and `k + 1` Destroy calls on it in which every Destroy is applied to a count of at
least one, the Destroy calls return false `k` times and then true once, this last Destroy
is the last call of the sequence, and no call is applied to the destroyed object. -/
theorem nssPKIObject_refCount_lifecycle (env : AllocEnv)
    (instanceOpt : Option nssCryptokiObject) (lockType : nssPKILockType) (o : nssPKIObject)
    (k : Nat) (calls : List RefCall)
    (hcreate : nssPKIObject_Create env instanceOpt lockType = some o)
    (hA : calls.count RefCall.AddRef = k) (hD : calls.count RefCall.Destroy = k + 1)
    (hlive : destroysLive (some o) calls = true) :
    o.refCount = 1 ∧ runRefCalls (some o) calls = List.replicate k false ++ [true] ∧
      calls.getLast? = some RefCall.Destroy ∧ callsDefined (some o) calls = true := by
  have h1 : o.refCount = 1 := nssPKIObject_Create_refCount env instanceOpt lockType o hcreate
  obtain ⟨m, hm1, hm2, hm3, hm4⟩ := runRefCalls_spec calls o (by rw [h1]; decide)
    (by rw [h1]; decide) hlive (by omega) (by rw [h1, hA, hD]; push_cast; omega)
  have hmk : m = k := by omega
  subst hmk
  exact ⟨h1, hm2, hm3, hm4⟩

/-- Witness of C10: AddRef, Destroy, AddRef, Destroy, Destroy on a new object. -/
theorem nssPKIObject_refCount_lifecycle_witness :
    (⟨1, [], nssPKILockType.nssPKILock⟩ : nssPKIObject).refCount = 1 ∧
      runRefCalls (some ⟨1, [], nssPKILockType.nssPKILock⟩)
        [RefCall.AddRef, RefCall.Destroy, RefCall.AddRef, RefCall.Destroy, RefCall.Destroy] =
        List.replicate 2 false ++ [true] ∧
      [RefCall.AddRef, RefCall.Destroy, RefCall.AddRef, RefCall.Destroy,
        RefCall.Destroy].getLast? = some RefCall.Destroy ∧
      callsDefined (some ⟨1, [], nssPKILockType.nssPKILock⟩)
        [RefCall.AddRef, RefCall.Destroy, RefCall.AddRef, RefCall.Destroy, RefCall.Destroy] =
        true :=
  nssPKIObject_refCount_lifecycle AllocEnv.ok none nssPKILockType.nssPKILock
    ⟨1, [], nssPKILockType.nssPKILock⟩ 2
    [RefCall.AddRef, RefCall.Destroy, RefCall.AddRef, RefCall.Destroy, RefCall.Destroy]
    (by decide) (by decide) (by decide) (by decide)

/-! ## Claims on collections -/

/-- C1. Instances added to a new collection by `nssPKIObjectCollection_AddInstances`, every
UID computation and allocation succeeding and the UID depending only on `(token, handle)`:
the call succeeds and `size` is the number of distinct UIDs among the added instances. -/
theorem AddInstances_size (vt : Vtable) (lockType : nssPKILockType)
    (insts : List nssCryptokiObject)
    (hok : ∀ y ∈ insts, (vt.getUIDFromInstance y UID.zero).1 = PR_SUCCESS)
    (hfun : ∀ x ∈ insts, ∀ y ∈ insts, x.token = y.token → x.handle = y.handle →
      uidOf vt x = uidOf vt y) :
    ∃ c, nssPKIObjectCollection_AddInstances vt allocsOk
        (nssPKIObjectCollection_Create lockType) (some insts) 0 = some (c, PR_SUCCESS) ∧
      nssPKIObjectCollection_Count c = ((insts.map (uidOf vt)).dedup).length := by
  obtain ⟨c, h1, hinv⟩ := AddInstances_inv vt lockType insts hok hfun
  refine ⟨c, h1, ?_⟩
  have hperm : (c.PKIobjecthashtable.map fun he => he.key).Perm (insts.map (uidOf vt)).dedup := by
    rw [List.perm_ext_iff_of_nodup hinv.objNodup (List.nodup_dedup _)]
    intro u
    rw [hinv.objKeys u, List.mem_dedup, List.mem_map]
  rw [nssPKIObjectCollection_Count, hinv.sizeEq, ← hperm.length_eq, List.length_map]

/-- Witness of C1: four instances, two of them with the same `(token, handle)`, with two
distinct UIDs (the UID is the one-byte item holding the handle). -/
theorem AddInstances_size_witness :
    ∃ c, nssPKIObjectCollection_AddInstances handleVtable allocsOk
        (nssPKIObjectCollection_Create nssPKILockType.nssPKILock)
        (some [⟨1, 100, some "x"⟩, ⟨2, 100, none⟩, ⟨1, 200, none⟩, ⟨1, 100, some "y"⟩]) 0 =
          some (c, PR_SUCCESS) ∧
      nssPKIObjectCollection_Count c =
        (([⟨1, 100, some "x"⟩, ⟨2, 100, none⟩, ⟨1, 200, none⟩, ⟨1, 100, some "y"⟩].map
          (uidOf handleVtable)).dedup).length :=
  AddInstances_size handleVtable nssPKILockType.nssPKILock
    [⟨1, 100, some "x"⟩, ⟨2, 100, none⟩, ⟨1, 200, none⟩, ⟨1, 100, some "y"⟩]
    (by decide) (by decide)

/-- C2. Under the conditions of C1, every node of the UID index has an object whose
instances are pairwise distinct under `(token, handle)`, are all among the added instances
with the node's UID, and include one for each added instance with the node's UID. -/
theorem AddInstances_instance_lists (vt : Vtable) (lockType : nssPKILockType)
    (insts : List nssCryptokiObject)
    (hok : ∀ y ∈ insts, (vt.getUIDFromInstance y UID.zero).1 = PR_SUCCESS)
    (hfun : ∀ x ∈ insts, ∀ y ∈ insts, x.token = y.token → x.handle = y.handle →
      uidOf vt x = uidOf vt y) :
    ∃ c, nssPKIObjectCollection_AddInstances vt allocsOk
        (nssPKIObjectCollection_Create lockType) (some insts) 0 = some (c, PR_SUCCESS) ∧
      ∀ he ∈ c.PKIobjecthashtable, ∃ nd o, c.nodes[he.value]? = some nd ∧
        nd.object = some o ∧ DistinctInstances o.instances ∧
        (∀ x ∈ o.instances, x ∈ insts ∧ uidOf vt x = nd.uid) ∧
        (∀ y ∈ insts, uidOf vt y = nd.uid →
          ∃ x ∈ o.instances, nssCryptokiObject_Equal x y = true) := by
  obtain ⟨c, h1, hinv⟩ := AddInstances_inv vt lockType insts hok hfun
  refine ⟨c, h1, ?_⟩
  intro he hhe
  obtain ⟨nd, o, h2, h3, h4, h5⟩ := hinv.objNodes he hhe
  refine ⟨nd, o, h2, h4, h5.distinct, ?_, ?_⟩
  · intro x hx
    rw [h3]
    exact h5.sound x hx
  · intro y hy hyu
    rw [h3] at hyu
    exact h5.complete y hy hyu

/-- Witness of C2, on the input of the witness of C1. -/
theorem AddInstances_instance_lists_witness :
    ∃ c, nssPKIObjectCollection_AddInstances handleVtable allocsOk
        (nssPKIObjectCollection_Create nssPKILockType.nssPKILock)
        (some [⟨1, 100, some "x"⟩, ⟨2, 100, none⟩, ⟨1, 200, none⟩, ⟨1, 100, some "y"⟩]) 0 =
          some (c, PR_SUCCESS) ∧
      ∀ he ∈ c.PKIobjecthashtable, ∃ nd o, c.nodes[he.value]? = some nd ∧
        nd.object = some o ∧ DistinctInstances o.instances ∧
        (∀ x ∈ o.instances,
          x ∈ [⟨1, 100, some "x"⟩, ⟨2, 100, none⟩, ⟨1, 200, none⟩, ⟨1, 100, some "y"⟩] ∧
            uidOf handleVtable x = nd.uid) ∧
        (∀ y ∈ [⟨1, 100, some "x"⟩, ⟨2, 100, none⟩, ⟨1, 200, none⟩, ⟨1, 100, some "y"⟩],
          uidOf handleVtable y = nd.uid →
            ∃ x ∈ o.instances, nssCryptokiObject_Equal x y = true) :=
  AddInstances_instance_lists handleVtable nssPKILockType.nssPKILock
    [⟨1, 100, some "x"⟩, ⟨2, 100, none⟩, ⟨1, 200, none⟩, ⟨1, 100, some "y"⟩]
    (by decide) (by decide)

/-- A second call after a defined call of `add_object_instance` that returned a node: with an
instance of the same `(token, handle)` it returns the collection unchanged, the same node,
and the flag "already present"; and when the first call stored the instance (array
allocation succeeding), that node's object holds an instance with this `(token, handle)`. -/
theorem add_object_instance_second_call (vt : Vtable) (env env2 : AllocEnv)
    (c c1 : nssPKIObjectCollection) (inst inst2 : nssCryptokiObject) (node : Nat)
    (found : Bool)
    (hfirst : add_object_instance vt env c inst = some (c1, some node, found))
    (hsame : nssCryptokiObject_Equal inst2 inst = true) :
    add_object_instance vt env2 c1 inst2 = some (c1, some node, true) ∧
      (found = false → env.arrayOk = true →
        ∃ nd o, c1.nodes[node]? = some nd ∧ nd.object = some o ∧
          ∃ x ∈ o.instances, nssCryptokiObject_Equal x inst2 = true) := by
  obtain ⟨h1, h2⟩ := add_object_instance_indexed vt env c c1 inst node found hfirst
  constructor
  · apply add_object_instance_found
    rw [lookup_instance_congr inst2 inst hsame]
    exact h1
  · intro hf harr
    obtain ⟨nd, o, h3, h4, x, hx, hxe⟩ := h2 hf harr
    exact ⟨nd, o, h3, h4, x, hx,
      nssCryptokiObject_Equal_trans x inst inst2 hxe (nssCryptokiObject_Equal_symm _ _ hsame)⟩

/-- C5 at its failing inputs. (1) An object that holds the instance `(token 100, handle 1)`
is put into a new collection with `nssPKIObjectCollection_AddObject`, which leaves the
instance index empty; `add_object_instance` of an instance with the same pair then misses
the instance index, finds the identifier in the UID index, has the instance discarded by
`nssPKIObject_AddInstance` and hands the destroyed instance to `PL_HashTableAdd`: the first
addition is undefined. (2) On a collection with one node, `add_object_instance` of
`(token 100, handle 2)` with the same identifier and a failing array reallocation returns
the node with "not found before"; the second call returns the collection unchanged, the
same node and "already present", and the node's object holds `(token 100, handle 1)`
only. -/
theorem add_object_instance_node_without_instance :
    add_object_instance failingVtable AllocEnv.ok
        (nssPKIObjectCollection_AddObject failingVtable AllocEnv.ok
          (nssPKIObjectCollection_Create nssPKILockType.nssPKIMonitor)
          ⟨1, [⟨1, 100, some "x"⟩], nssPKILockType.nssPKIMonitor⟩).1
        ⟨1, 100, some "y"⟩ = none ∧
    ((add_object_instance failingVtable ⟨true, true, true, false⟩ protoCollection
          ⟨2, 100, none⟩).bind fun r =>
        (add_object_instance failingVtable AllocEnv.ok r.1 ⟨2, 100, none⟩).map fun r2 =>
          (r.2, r2.2, decide (r2.1 = r.1),
            r2.1.nodes.map fun nd => nd.object.map fun o => o.instances)) =
      some ((some 0, false), (some 0, true), true, [some [⟨1, 100, none⟩]]) :=
  ⟨rfl, rfl⟩

/-- C6, as stated, fails: after `(tokenA, 1, "x")` and then `(tokenA, 1, "y")` the collection
has size 1 and one node with one instance, whose label is still "x". -/
theorem exact_duplicate_counterexample :
    (nssPKIObjectCollection_AddInstances failingVtable allocsOk
        (nssPKIObjectCollection_Create nssPKILockType.nssPKIMonitor)
        (some [⟨1, 100, some "x"⟩, ⟨1, 100, some "y"⟩]) 0).map
      (fun r => (r.1.size, r.1.nodes.map fun nd => nd.object.map fun o =>
        o.instances.map fun i => i.label)) =
      some (1, [some [some "x"]]) ∧ some "x" ≠ some "y" := by
  decide

/-- C6, amended. After `(tokenA, 1, "x")` and then `(tokenA, 1, "y")` are added to an empty
collection (UID computation succeeding), the size is 1, the UID index has one node, the
node's object has exactly one instance, and its label is the first label, "x". -/
theorem exact_duplicate_keeps_label (vt : Vtable) (lockType : nssPKILockType) (tokenA : Nat)
    (huid : (vt.getUIDFromInstance ⟨1, tokenA, some "x"⟩ UID.zero).1 = PR_SUCCESS) :
    ∃ c node nd o,
      nssPKIObjectCollection_AddInstances vt allocsOk
          (nssPKIObjectCollection_Create lockType)
          (some [⟨1, tokenA, some "x"⟩, ⟨1, tokenA, some "y"⟩]) 0 = some (c, PR_SUCCESS) ∧
        c.size = 1 ∧ c.PKIobjecthashtable.map (fun he => he.value) = [node] ∧
        c.nodes[node]? = some nd ∧ nd.object = some o ∧
        o.instances = [⟨1, tokenA, some "x"⟩] := by
  have h1 := add_object_instance_new vt AllocEnv.ok (nssPKIObjectCollection_Create lockType)
    ⟨1, tokenA, some "x"⟩ rfl rfl rfl rfl rfl huid rfl
  have h2 := (add_object_instance_indexed vt AllocEnv.ok _ _ _ _ _ h1).1
  have h3 := add_object_instance_found vt AllocEnv.ok _ ⟨1, tokenA, some "y"⟩ _
    ((lookup_instance_congr ⟨1, tokenA, some "y"⟩ ⟨1, tokenA, some "x"⟩
      (by simp [nssCryptokiObject_Equal]) _).trans h2)
  refine ⟨{ nodes := [⟨false, some ⟨1, [⟨1, tokenA, some "x"⟩], lockType⟩,
                (vt.getUIDFromInstance ⟨1, tokenA, some "x"⟩ UID.zero).2⟩]
            PKIobjecthashtable :=
              [⟨hash_object (vt.getUIDFromInstance ⟨1, tokenA, some "x"⟩ UID.zero).2,
                (vt.getUIDFromInstance ⟨1, tokenA, some "x"⟩ UID.zero).2, 0⟩]
            PKIinstancehashtable :=
              [⟨hash_instance ⟨1, tokenA, some "x"⟩, ⟨1, tokenA, some "x"⟩, 0⟩]
            size := 1
            objectType := pkiObjectType.pkiObjectType_Certificate
            lockType := lockType },
    0, ⟨false, some ⟨1, [⟨1, tokenA, some "x"⟩], lockType⟩,
      (vt.getUIDFromInstance ⟨1, tokenA, some "x"⟩ UID.zero).2⟩,
    ⟨1, [⟨1, tokenA, some "x"⟩], lockType⟩, ?_, rfl, rfl, rfl, rfl, rfl⟩
  simp only [nssPKIObjectCollection_AddInstances, AddInstances_loop, allocsOk, true_or,
    if_true, h1, h3]
  rfl

/-- Witness of C6 (amended), with token 100 and the identifier `sampleUID`. -/
theorem exact_duplicate_keeps_label_witness :
    ∃ c node nd o,
      nssPKIObjectCollection_AddInstances failingVtable allocsOk
          (nssPKIObjectCollection_Create nssPKILockType.nssPKIMonitor)
          (some [⟨1, 100, some "x"⟩, ⟨1, 100, some "y"⟩]) 0 = some (c, PR_SUCCESS) ∧
        c.size = 1 ∧ c.PKIobjecthashtable.map (fun he => he.value) = [node] ∧
        c.nodes[node]? = some nd ∧ nd.object = some o ∧
        o.instances = [⟨1, 100, some "x"⟩] :=
  exact_duplicate_keeps_label failingVtable nssPKILockType.nssPKIMonitor 100 (by decide)


/-- C7. Two instances with different `(token, handle)` pairs and equal UIDs, added to an empty
collection by `nssPKIObjectCollection_AddInstances`: the size is 1, the UID index has one
node, its object holds exactly the two instances, and the instance index has exactly two
entries, one per instance, both with that node as value. -/
theorem dedup_across_tokens (vt : Vtable) (lockType : nssPKILockType)
    (a b : nssCryptokiObject) (hne : a.token ≠ b.token ∨ a.handle ≠ b.handle)
    (ha : (vt.getUIDFromInstance a UID.zero).1 = PR_SUCCESS)
    (hb : (vt.getUIDFromInstance b UID.zero).1 = PR_SUCCESS)
    (huid : (vt.getUIDFromInstance a UID.zero).2 = (vt.getUIDFromInstance b UID.zero).2) :
    ∃ c node nd o,
      nssPKIObjectCollection_AddInstances vt allocsOk
          (nssPKIObjectCollection_Create lockType) (some [a, b]) 0 = some (c, PR_SUCCESS) ∧
        c.size = 1 ∧ c.PKIobjecthashtable.map (fun he => he.value) = [node] ∧
        c.nodes[node]? = some nd ∧ nd.object = some o ∧ o.instances = [a, b] ∧
        c.PKIinstancehashtable.map (fun he => (he.key, he.value)) = [(a, node), (b, node)] := by
  have hneq : nssCryptokiObject_Equal a b = false := by
    rw [← Bool.not_eq_true, nssCryptokiObject_Equal_iff]
    intro h
    rcases hne with h1 | h1
    · exact h1 h.1
    · exact h1 h.2
  have h1 := add_object_instance_new vt AllocEnv.ok (nssPKIObjectCollection_Create lockType)
    a rfl rfl rfl rfl rfl ha rfl
  have hl : PL_HashTableLookup hash_instance compare_instances
      [⟨hash_instance a, a, 0⟩] b = (none : Option Nat) := by
    rw [lookup_none_iff]
    intro he hhe
    simp only [List.mem_singleton] at hhe
    subst hhe
    rw [← Bool.not_eq_true, matches_instance_iff _ _ rfl]
    simpa using hneq
  have hu : PL_HashTableLookup hash_object compare_objects
      [⟨hash_object (vt.getUIDFromInstance a UID.zero).2,
        (vt.getUIDFromInstance a UID.zero).2, 0⟩]
      (vt.getUIDFromInstance b UID.zero).2 = some 0 := by
    have hm : PLHashEntry.matches hash_object compare_objects
        (vt.getUIDFromInstance b UID.zero).2
        (⟨hash_object (vt.getUIDFromInstance a UID.zero).2,
          (vt.getUIDFromInstance a UID.zero).2, 0⟩ : PLHashEntry UID Nat) = true :=
      (matches_object_iff _ _ rfl).2 huid
    simp [PL_HashTableLookup, List.find?_cons, hm]
  have hadd : nssPKIObject_AddInstance AllocEnv.ok.arrayOk ⟨1, [a], lockType⟩ b =
      (PR_SUCCESS, ⟨1, [a, b], lockType⟩) := by
    simp [nssPKIObject_AddInstance, nssPKIObject.numInstances, findInstance, hneq, AllocEnv.ok]
  have h2 := add_object_instance_uid_hit vt AllocEnv.ok
    { nodes := [⟨false, some ⟨1, [a], lockType⟩, (vt.getUIDFromInstance a UID.zero).2⟩]
      PKIobjecthashtable :=
        [⟨hash_object (vt.getUIDFromInstance a UID.zero).2,
          (vt.getUIDFromInstance a UID.zero).2, 0⟩]
      PKIinstancehashtable := [⟨hash_instance a, a, 0⟩]
      size := 1
      objectType := pkiObjectType.pkiObjectType_Certificate
      lockType := lockType }
    b 0 ⟨false, some ⟨1, [a], lockType⟩, (vt.getUIDFromInstance a UID.zero).2⟩
    ⟨1, [a], lockType⟩ hl rfl hb hu rfl rfl
    (by simp [nssPKIObject_AddInstance_discards, findInstance, hneq])
  rw [hadd] at h2
  refine ⟨{ nodes := [⟨false, some ⟨1, [a, b], lockType⟩,
                (vt.getUIDFromInstance a UID.zero).2⟩]
            PKIobjecthashtable :=
              [⟨hash_object (vt.getUIDFromInstance a UID.zero).2,
                (vt.getUIDFromInstance a UID.zero).2, 0⟩]
            PKIinstancehashtable := [⟨hash_instance a, a, 0⟩, ⟨hash_instance b, b, 0⟩]
            size := 1
            objectType := pkiObjectType.pkiObjectType_Certificate
            lockType := lockType },
    0, ⟨false, some ⟨1, [a, b], lockType⟩, (vt.getUIDFromInstance a UID.zero).2⟩,
    ⟨1, [a, b], lockType⟩, ?_, rfl, rfl, rfl, rfl, rfl, rfl⟩
  simp only [nssPKIObjectCollection_AddInstances, AddInstances_loop, allocsOk, true_or,
    if_true, h1]
  have h1c : ({ nodes := (nssPKIObjectCollection_Create lockType).nodes ++
                  [{ haveObject := false
                     object := some ⟨1, [a], (nssPKIObjectCollection_Create lockType).lockType⟩
                     uid := (vt.getUIDFromInstance a UID.zero).2 }]
                PKIobjecthashtable :=
                  (nssPKIObjectCollection_Create lockType).PKIobjecthashtable ++
                  [⟨hash_object (vt.getUIDFromInstance a UID.zero).2,
                    (vt.getUIDFromInstance a UID.zero).2,
                    (nssPKIObjectCollection_Create lockType).nodes.length⟩]
                PKIinstancehashtable :=
                  (nssPKIObjectCollection_Create lockType).PKIinstancehashtable ++
                  [⟨hash_instance a, a, (nssPKIObjectCollection_Create lockType).nodes.length⟩]
                size := (nssPKIObjectCollection_Create lockType).size + 1
                objectType := (nssPKIObjectCollection_Create lockType).objectType
                lockType := (nssPKIObjectCollection_Create lockType).lockType } :
              nssPKIObjectCollection) =
      { nodes := [⟨false, some ⟨1, [a], lockType⟩, (vt.getUIDFromInstance a UID.zero).2⟩]
        PKIobjecthashtable :=
          [⟨hash_object (vt.getUIDFromInstance a UID.zero).2,
            (vt.getUIDFromInstance a UID.zero).2, 0⟩]
        PKIinstancehashtable := [⟨hash_instance a, a, 0⟩]
        size := 1
        objectType := pkiObjectType.pkiObjectType_Certificate
        lockType := lockType } := rfl
  rw [h1c, h2]
  rfl

/-- Witness of C7: `(tokenA = 100, 1)` and `(tokenB = 200, 7)`, both with identifier
`(DER = "aa", ∅)`. -/
theorem dedup_across_tokens_witness :
    ∃ c node nd o,
      nssPKIObjectCollection_AddInstances failingVtable allocsOk
          (nssPKIObjectCollection_Create nssPKILockType.nssPKIMonitor)
          (some [⟨1, 100, none⟩, ⟨7, 200, none⟩]) 0 = some (c, PR_SUCCESS) ∧
        c.size = 1 ∧ c.PKIobjecthashtable.map (fun he => he.value) = [node] ∧
        c.nodes[node]? = some nd ∧ nd.object = some o ∧
        o.instances = [⟨1, 100, none⟩, ⟨7, 200, none⟩] ∧
        c.PKIinstancehashtable.map (fun he => (he.key, he.value)) =
          [(⟨1, 100, none⟩, node), (⟨7, 200, none⟩, node)] :=
  dedup_across_tokens failingVtable nssPKILockType.nssPKIMonitor ⟨1, 100, none⟩ ⟨7, 200, none⟩
    (by decide) (by decide) (by decide) (by decide)


/-- C8 at its failing inputs. (1) One instance is added to a new collection and
`nssPKIObjectCollection_GetCertificates` is called while promotion fails: the enumerator
removes the entry from the UID table and `size` stays 1, with no entry left. (2) Two objects
with the same UID are added with `nssPKIObjectCollection_AddObject`: the table keeps one
entry and `size` is 2. -/
theorem size_differs_from_uid_table :
    ((nssPKIObjectCollection_AddInstances failingVtable allocsOk
          (nssPKIObjectCollection_Create nssPKILockType.nssPKIMonitor)
          (some [⟨1, 100, none⟩]) 0).bind fun r =>
        nssPKIObjectCollection_GetCertificates failingVtable true none r.1 none 0).map
      (fun r => (r.collection.size, r.collection.PKIobjecthashtable.length)) = some (1, 0) ∧
    ((fun c : nssPKIObjectCollection => (c.size, c.PKIobjecthashtable.length))
      (nssPKIObjectCollection_AddObject failingVtable AllocEnv.ok
        (nssPKIObjectCollection_AddObject failingVtable AllocEnv.ok
          (nssPKIObjectCollection_Create nssPKILockType.nssPKIMonitor)
          ⟨1, [], nssPKILockType.nssPKIMonitor⟩).1
        ⟨1, [⟨1, 100, none⟩], nssPKILockType.nssPKIMonitor⟩).1) = (2, 1) := by
  decide

/-- C9 at its failing input. `nssPKIObjectCollection_AddInstanceAsObject` on a new collection
with failing promotion returns failure and removes the node from the UID table only: the
instance table still has one entry, whose node (number 0) the UID table no longer has. -/
theorem instance_index_keeps_removed_node :
    (nssPKIObjectCollection_AddInstanceAsObject failingVtable AllocEnv.ok
        (nssPKIObjectCollection_Create nssPKILockType.nssPKIMonitor) ⟨1, 100, none⟩).map
      (fun r => (r.2, r.1.PKIinstancehashtable.map (fun he => he.value),
        r.1.PKIobjecthashtable.map (fun he => he.value))) = some (PR_FAILURE, [0], []) := by
  decide


/-! ## Claims on the removal of instances -/


/-- C16. `nssPKIObject_DeleteStoredObject` returns, and the instances left in the object are
exactly the original instances whose deletion failed, in their original order; none is left
when every deletion succeeded. -/
theorem nssPKIObject_DeleteStoredObject_instances (del : nssCryptokiObject → PRStatus)
    (object : nssPKIObject) :
    ∃ status o, nssPKIObject_DeleteStoredObject del object = some (status, o) ∧
      o.instances = object.instances.filter (fun x => decide (del x ≠ PR_SUCCESS)) ∧
      o.instances.Sublist object.instances ∧
      ((∀ x ∈ object.instances, del x = PR_SUCCESS) → o.instances = []) := by
  refine ⟨_, _, nssPKIObject_DeleteStoredObject_eq del object, rfl, List.filter_sublist _, ?_⟩
  intro h
  simp only [List.filter_eq_nil_iff]
  intro x hx
  simp [h x hx]

/-- C17, as stated, fails: with instances on tokens 1, 2, 3 and a deletion that fails for
token 2 only, the remaining list is the instance on token 2 and the returned status is
`PR_SUCCESS`, the outcome for token 3. -/
theorem partial_delete_counterexample :
    (nssPKIObject_DeleteStoredObject sampleDelete
        ⟨1, [⟨1, 1, none⟩, ⟨1, 2, none⟩, ⟨1, 3, none⟩], nssPKILockType.nssPKILock⟩).map
      (fun r => (r.1, r.2.instances)) = some (PR_SUCCESS, [⟨1, 2, none⟩]) ∧
    PR_SUCCESS ≠ PR_FAILURE := by
  decide

/-- C17, amended. For an object with instances `i1`, `i2`, `i3` in that order, where the
deletion succeeds for `i1` and `i3` and fails for `i2`, the remaining instance list is
`[i2]` and the returned status is `PR_SUCCESS`, the status of the last deletion. -/
theorem partial_delete_last_status (del : nssCryptokiObject → PRStatus)
    (object : nssPKIObject) (i1 i2 i3 : nssCryptokiObject)
    (hinst : object.instances = [i1, i2, i3])
    (h1 : del i1 = PR_SUCCESS) (h2 : del i2 ≠ PR_SUCCESS) (h3 : del i3 = PR_SUCCESS) :
    nssPKIObject_DeleteStoredObject del object =
      some (PR_SUCCESS, { object with instances := [i2] }) := by
  rw [nssPKIObject_DeleteStoredObject_eq, hinst]
  simp [List.filter_cons, h1, h2, h3, List.getLast?_cons_cons]

/-- Witness of C17 (amended): tokens 1, 2, 3 with a deletion that fails for token 2. -/
theorem partial_delete_last_status_witness :
    nssPKIObject_DeleteStoredObject sampleDelete
        ⟨1, [⟨1, 1, none⟩, ⟨1, 2, none⟩, ⟨1, 3, none⟩], nssPKILockType.nssPKILock⟩ =
      some (PR_SUCCESS,
        { (⟨1, [⟨1, 1, none⟩, ⟨1, 2, none⟩, ⟨1, 3, none⟩], nssPKILockType.nssPKILock⟩ :
            nssPKIObject) with instances := [⟨1, 2, none⟩] }) :=
  partial_delete_last_status sampleDelete
    ⟨1, [⟨1, 1, none⟩, ⟨1, 2, none⟩, ⟨1, 3, none⟩], nssPKILockType.nssPKILock⟩
    ⟨1, 1, none⟩ ⟨1, 2, none⟩ ⟨1, 3, none⟩ rfl (by decide) (by decide) (by decide)

/-- C18. `nssPKIObject_DeleteStoredObject` returns the status of the deletion of the last
instance of the list, and `PR_SUCCESS` for an object with no instances. -/
theorem nssPKIObject_DeleteStoredObject_status (del : nssCryptokiObject → PRStatus)
    (object : nssPKIObject) :
    (nssPKIObject_DeleteStoredObject del object).map (fun r => r.1) =
      some (match object.instances.getLast? with
        | none => PR_SUCCESS
        | some last => del last) := by
  rw [nssPKIObject_DeleteStoredObject_eq]
  cases object.instances.getLast? <;> rfl

/-- C19 at its failing inputs. With no instance on the token, the call drops the last
instance all the same: the single instance on token 100 is lost when token 200 is removed,
and of the instances on tokens 100 and 101 only the first is left. -/
theorem RemoveInstanceForToken_drops_other_token :
    (nssPKIObject_RemoveInstanceForToken
        ⟨1, [⟨1, 100, none⟩], nssPKILockType.nssPKILock⟩ 200).2.instances = [] ∧
    (nssPKIObject_RemoveInstanceForToken
        ⟨1, [⟨1, 100, none⟩, ⟨1, 101, none⟩], nssPKILockType.nssPKILock⟩ 200).2.instances =
      [⟨1, 100, none⟩] := by
  decide

/-- C20. When the first instance on token `t` is `x`, with `pre` before it and `post` after
it, `nssPKIObject_RemoveInstanceForToken` returns success and leaves one instance fewer:
`pre`, then the former last instance in the slot of `x` followed by the rest of `post`
(or `pre` alone when `x` was last); every other instance, on `t` or not, is still there. -/
theorem nssPKIObject_RemoveInstanceForToken_spec (object : nssPKIObject) (t : Nat)
    (pre post : List nssCryptokiObject) (x : nssCryptokiObject)
    (hsplit : object.instances = pre ++ x :: post)
    (hpre : ∀ y ∈ pre, y.token ≠ t) (hx : x.token = t) :
    (nssPKIObject_RemoveInstanceForToken object t).1 = PR_SUCCESS ∧
    (nssPKIObject_RemoveInstanceForToken object t).2.instances =
      (match post.getLast? with
        | none => pre
        | some last => pre ++ last :: post.dropLast) ∧
    (nssPKIObject_RemoveInstanceForToken object t).2.instances.length + 1 =
      object.instances.length ∧
    ∀ y ∈ pre ++ post, y ∈ (nssPKIObject_RemoveInstanceForToken object t).2.instances := by
  rw [nssPKIObject_RemoveInstanceForToken_eq object t pre post x hsplit hpre hx]
  refine ⟨rfl, rfl, ?_, ?_⟩
  · rw [hsplit]
    rcases List.eq_nil_or_concat post with hp | ⟨L, b, hp⟩
    · subst hp; simp
    · rw [List.concat_eq_append] at hp
      subst hp
      simp
      omega
  · intro y hy
    rcases List.eq_nil_or_concat post with hp | ⟨L, b, hp⟩
    · subst hp
      simpa using hy
    · rw [List.concat_eq_append] at hp
      subst hp
      have hg : (L ++ [b]).getLast? = some b := by simp
      have hd : (L ++ [b]).dropLast = L := by simp
      simp only [List.mem_append, List.mem_singleton] at hy
      rw [hg, hd]
      simp only [List.mem_append, List.mem_cons]
      tauto

/-- Witness of C20: instances on tokens 1, 2, 3, 2; the first instance on token 2 is
replaced by the last one, which is on token 2 as well. -/
theorem nssPKIObject_RemoveInstanceForToken_spec_witness :
    (nssPKIObject_RemoveInstanceForToken
        ⟨1, [⟨1, 1, none⟩, ⟨1, 2, none⟩, ⟨1, 3, none⟩, ⟨2, 2, none⟩],
          nssPKILockType.nssPKILock⟩ 2).1 = PR_SUCCESS ∧
    (nssPKIObject_RemoveInstanceForToken
        ⟨1, [⟨1, 1, none⟩, ⟨1, 2, none⟩, ⟨1, 3, none⟩, ⟨2, 2, none⟩],
          nssPKILockType.nssPKILock⟩ 2).2.instances =
      (match ([⟨1, 3, none⟩, ⟨2, 2, none⟩] : List nssCryptokiObject).getLast? with
        | none => [⟨1, 1, none⟩]
        | some last =>
          [⟨1, 1, none⟩] ++ last ::
            ([⟨1, 3, none⟩, ⟨2, 2, none⟩] : List nssCryptokiObject).dropLast) ∧
    (nssPKIObject_RemoveInstanceForToken
        ⟨1, [⟨1, 1, none⟩, ⟨1, 2, none⟩, ⟨1, 3, none⟩, ⟨2, 2, none⟩],
          nssPKILockType.nssPKILock⟩ 2).2.instances.length + 1 =
      (⟨1, [⟨1, 1, none⟩, ⟨1, 2, none⟩, ⟨1, 3, none⟩, ⟨2, 2, none⟩],
          nssPKILockType.nssPKILock⟩ : nssPKIObject).instances.length ∧
    ∀ y ∈ [⟨1, 1, none⟩] ++ ([⟨1, 3, none⟩, ⟨2, 2, none⟩] : List nssCryptokiObject),
      y ∈ (nssPKIObject_RemoveInstanceForToken
        ⟨1, [⟨1, 1, none⟩, ⟨1, 2, none⟩, ⟨1, 3, none⟩, ⟨2, 2, none⟩],
          nssPKILockType.nssPKILock⟩ 2).2.instances :=
  nssPKIObject_RemoveInstanceForToken_spec
    ⟨1, [⟨1, 1, none⟩, ⟨1, 2, none⟩, ⟨1, 3, none⟩, ⟨2, 2, none⟩], nssPKILockType.nssPKILock⟩
    2 [⟨1, 1, none⟩] [⟨1, 3, none⟩, ⟨2, 2, none⟩] ⟨1, 2, none⟩ rfl (by decide) rfl


/-! ## Claims on the best-match selection -/

/-- C11 at its failing input. Certificates 1 and 2 do not match the usage and 1 is valid, so
the comparison of 2 with 1 sets `bestCertIsValidAtTime`; certificate 3 matches the usage, is
not valid and replaces 1 without the flag being cleared; certificate 4 matches and is valid
but loses to 3 on the "newer" test. The call returns 3, which is not valid, although 4
equals it on usage and is valid. -/
theorem FindBestCertificate_stale_validity :
    (nssCertificateArray_FindBestCertificate 0
        (some [sampleCert 1 false true false (fun _ => false),
          sampleCert 2 false false false (fun _ => false),
          sampleCert 3 true false false (fun _ => true),
          sampleCert 4 true true false (fun _ => false)]) none 0).map (certView ⟨0⟩ 0) =
      some (⟨[3]⟩, 2, some (true, false, false)) ∧
    certView ⟨0⟩ 0 (sampleCert 4 true true false (fun _ => false)) =
      (⟨[4]⟩, 1, some (true, true, false)) :=
  ⟨rfl, rfl⟩

/-- C12. If some certificate of the array has a decoded form that matches the usage, the
call returns a certificate of the array (add-refed) whose decoded form matches the usage. -/
theorem FindBestCertificate_matches_usage (PR_Now : Int) (certs : List NSSCertificate)
    (timeOpt : Option NSSTime) (usage : NSSUsage)
    (h : ∃ c ∈ certs, ∃ dc, c.decoding = some dc ∧ dc.matchUsage usage = true) :
    ∃ r c dc, nssCertificateArray_FindBestCertificate PR_Now (some certs) timeOpt usage =
        some r ∧ c ∈ certs ∧ r = nssCertificate_AddRef c ∧ r.decoding = some dc ∧
      dc.matchUsage usage = true := by
  obtain ⟨c0, hc0, dc0, hd0, hm0⟩ := h
  unfold nssCertificateArray_FindBestCertificate
  simp only []
  generalize FindBest_timeArg PR_Now timeOpt = time
  have hinv := BestInv_foldl time usage certs []
    { best := none, bestCertMatches := false, bestCertIsValidAtTime := false,
      bestCertIsTrusted := false } ⟨by simp, by simp⟩
  simp only [List.nil_append] at hinv
  cases hb : (certs.foldl (FindBest_step time usage)
      { best := none, bestCertMatches := false, bestCertIsValidAtTime := false,
        bestCertIsTrusted := false }).best with
  | none =>
    have := hinv.1 hb c0 hc0
    rw [hd0] at this
    exact absurd this (by simp)
  | some p =>
    obtain ⟨b, bdc⟩ := p
    obtain ⟨⟨x, hx, hx2, hx3⟩, h2, h3⟩ := hinv.2 b bdc hb
    refine ⟨b, x, bdc, by simp, hx, hx3, ?_, ?_⟩
    · rw [hx3, nssCertificate_AddRef_decoding, hx2]
    · rw [← h2]
      exact h3 c0 hc0 dc0 hd0 hm0

/-- Witness of C12: the only certificate that matches the usage comes second of three. -/
theorem FindBestCertificate_matches_usage_witness :
    ∃ r c dc, nssCertificateArray_FindBestCertificate 0
        (some [sampleCert 1 false true true (fun _ => true),
          sampleCert 2 true false false (fun _ => false),
          sampleCert 3 false true true (fun _ => true)]) none 5 = some r ∧
      c ∈ [sampleCert 1 false true true (fun _ => true),
          sampleCert 2 true false false (fun _ => false),
          sampleCert 3 false true true (fun _ => true)] ∧
      r = nssCertificate_AddRef c ∧ r.decoding = some dc ∧ dc.matchUsage 5 = true :=
  FindBestCertificate_matches_usage 0
    [sampleCert 1 false true true (fun _ => true),
      sampleCert 2 true false false (fun _ => false),
      sampleCert 3 false true true (fun _ => true)] none 5
    ⟨sampleCert 2 true false false (fun _ => false), by simp, _, rfl, rfl⟩

/-- C13, as stated, fails: of two certificates that match, are valid and are trusted, neither
newer than the other, the call returns the second one (encoding 2), not the first. -/
theorem FindBestCertificate_tie_counterexample :
    (nssCertificateArray_FindBestCertificate 0
        (some [sampleCert 1 true true true (fun _ => false),
          sampleCert 2 true true true (fun _ => false)]) none 0).map (certView ⟨0⟩ 0) =
      some (⟨[2]⟩, 2, some (true, true, true)) ∧
    (sampleCert 1 true true true (fun _ => false)).encoding ≠ ⟨[2]⟩ :=
  ⟨rfl, by decide⟩

/-- C13, amended. For an array of two decodable certificates that are equal on usage match,
on validity at the time and on trust for the usage, and of which neither is newer than the
other, the call returns the second (later-seen) certificate, add-refed. -/
theorem FindBestCertificate_tie_takes_later (PR_Now : Int) (c1 c2 : NSSCertificate)
    (d1 d2 : nssDecodedCert) (timeOpt : Option NSSTime) (usage : NSSUsage)
    (h1 : c1.decoding = some d1) (h2 : c2.decoding = some d2)
    (husage : d1.matchUsage usage = d2.matchUsage usage)
    (hvalid : d1.isValidAtTime (FindBest_timeArg PR_Now timeOpt) =
      d2.isValidAtTime (FindBest_timeArg PR_Now timeOpt))
    (htrust : d1.isTrustedForUsage usage = d2.isTrustedForUsage usage)
    (hnewer1 : d1.isNewerThan d2.data = false) (_hnewer2 : d2.isNewerThan d1.data = false) :
    nssCertificateArray_FindBestCertificate PR_Now (some [c1, c2]) timeOpt usage =
      some (nssCertificate_AddRef c2) := by
  unfold nssCertificateArray_FindBestCertificate
  simp only [List.foldl_cons, List.foldl_nil, FindBest_step, nssCertificate_GetDecoding, h1, h2,
    husage, FindBest_time, FindBest_trust, FindBest_newer, hvalid, htrust, hnewer1]
  cases d2.matchUsage usage <;>
    cases d2.isValidAtTime (FindBest_timeArg PR_Now timeOpt) <;>
    cases d2.isTrustedForUsage usage <;> simp

/-- Witness of C13 (amended): two certificates that match, are valid and are trusted, with a
comparator that never answers "newer". -/
theorem FindBestCertificate_tie_takes_later_witness :
    nssCertificateArray_FindBestCertificate 0
        (some [sampleCert 1 true true true (fun _ => false),
          sampleCert 2 true true true (fun _ => false)]) none 0 =
      some (nssCertificate_AddRef (sampleCert 2 true true true (fun _ => false))) :=
  FindBestCertificate_tie_takes_later 0 (sampleCert 1 true true true (fun _ => false))
    (sampleCert 2 true true true (fun _ => false)) _ _ none 0 rfl rfl rfl rfl rfl rfl rfl

/-- C14. For an array `[c1, c2, c3]` of decodable certificates that all match the usage,
where `c1` is not valid at the time, `c2` is valid and not trusted, and `c3` is valid and
trusted, the call returns `c3`, add-refed, whatever the "newer" comparator answers. -/
theorem FindBestCertificate_scenario (PR_Now : Int) (c1 c2 c3 : NSSCertificate)
    (d1 d2 d3 : nssDecodedCert) (timeOpt : Option NSSTime) (usage : NSSUsage)
    (h1 : c1.decoding = some d1) (h2 : c2.decoding = some d2) (h3 : c3.decoding = some d3)
    (hu1 : d1.matchUsage usage = true) (hu2 : d2.matchUsage usage = true)
    (hu3 : d3.matchUsage usage = true)
    (hv1 : d1.isValidAtTime (FindBest_timeArg PR_Now timeOpt) = false)
    (hv2 : d2.isValidAtTime (FindBest_timeArg PR_Now timeOpt) = true)
    (hv3 : d3.isValidAtTime (FindBest_timeArg PR_Now timeOpt) = true)
    (ht2 : d2.isTrustedForUsage usage = false) (ht3 : d3.isTrustedForUsage usage = true) :
    nssCertificateArray_FindBestCertificate PR_Now (some [c1, c2, c3]) timeOpt usage =
      some (nssCertificate_AddRef c3) := by
  unfold nssCertificateArray_FindBestCertificate
  simp [FindBest_step, nssCertificate_GetDecoding, h1, h2, h3, hu1, hu2, hu3, FindBest_time,
    FindBest_trust, hv1, hv2, hv3, ht2, ht3]

/-- Witness of C14: certificate 2 is newer than certificate 3. -/
theorem FindBestCertificate_scenario_witness :
    nssCertificateArray_FindBestCertificate 0
        (some [sampleCert 1 true false false (fun _ => false),
          sampleCert 2 true true false (fun _ => true),
          sampleCert 3 true true true (fun _ => false)]) none 0 =
      some (nssCertificate_AddRef (sampleCert 3 true true true (fun _ => false))) :=
  FindBestCertificate_scenario 0 (sampleCert 1 true false false (fun _ => false))
    (sampleCert 2 true true false (fun _ => true))
    (sampleCert 3 true true true (fun _ => false)) _ _ _ none 0
    rfl rfl rfl rfl rfl rfl rfl rfl rfl rfl rfl

/-- C15, as stated, fails: for a one-element array whose certificate has no decoded form the
call returns `NULL`. -/
theorem FindBestCertificate_single_counterexample :
    (nssCertificateArray_FindBestCertificate 0
        (some [{ object := ⟨1, [], nssPKILockType.nssPKIMonitor⟩, encoding := ⟨[1]⟩,
                 decoding := none }]) none 0).isNone = true :=
  rfl

/-- C15, amended. The call returns `NULL` for a `NULL` array and for an array with no
element; for a one-element array it returns that element add-refed when the certificate has
a decoded form and `NULL` when it has none; the add-ref increments a count that is not the
largest `PRInt32` by one and changes nothing else. -/
theorem FindBestCertificate_small_arrays (PR_Now : Int) (timeOpt : Option NSSTime)
    (usage : NSSUsage) (c : NSSCertificate) :
    nssCertificateArray_FindBestCertificate PR_Now none timeOpt usage = none ∧
    nssCertificateArray_FindBestCertificate PR_Now (some []) timeOpt usage = none ∧
    nssCertificateArray_FindBestCertificate PR_Now (some [c]) timeOpt usage =
      (if c.decoding.isSome then some (nssCertificate_AddRef c) else none) ∧
    (nssCertificate_AddRef c).encoding = c.encoding ∧
    (nssCertificate_AddRef c).decoding = c.decoding ∧
    (nssCertificate_AddRef c).object.instances = c.object.instances ∧
    (-2 ^ 31 ≤ c.object.refCount → c.object.refCount < 2 ^ 31 - 1 →
      (nssCertificate_AddRef c).object.refCount = c.object.refCount + 1) := by
  refine ⟨rfl, rfl, ?_, rfl, rfl, rfl, ?_⟩
  · unfold nssCertificateArray_FindBestCertificate
    cases hd : c.decoding with
    | none => simp [FindBest_step, nssCertificate_GetDecoding, hd]
    | some dc => simp [FindBest_step, nssCertificate_GetDecoding, hd]
  · intro hlo hhi
    simp only [nssCertificate_AddRef, nssPKIObject_AddRef, wrapInt32]
    omega

/-! ## Claims on arrays, nicknames, identifiers and hashes -/

/-- C21. With the reallocation succeeding, `nssCertificateArray_Join` of two arrays is the
array of the pointers of the first followed by those of the second; when the first array is
`NULL` the result is the second, and when the second is `NULL` the result is the first. -/
theorem nssCertificateArray_Join_spec (l1 l2 : List NSSCertificate)
    (certs : Option (List NSSCertificate)) (arrayOk : Bool) :
    nssCertificateArray_Join true (some l1) (some l2) = some (l1 ++ l2) ∧
    nssCertificateArray_Join arrayOk none certs = certs ∧
    nssCertificateArray_Join arrayOk (some l1) none = some l1 := by
  refine ⟨?_, rfl, rfl⟩
  unfold nssCertificateArray_Join
  have h : l1.length + l2.length + 1 - l1.length = l2.length + 1 := by omega
  simp only [Bool.not_true, Bool.false_eq_true, if_false, h]
  rw [Join_copy_spec l2 l1 1, readArray_map_some]

/-- C26. With the copy succeeding, `nssPKIObject_GetNicknameForToken` with a token returns
the label of the first instance on that token (`NULL` when there is none); without a token
it returns the label of the first instance that has a label (`NULL` when there is none). -/
theorem nssPKIObject_GetNicknameForToken_spec (object : nssPKIObject) (t : Nat) :
    nssPKIObject_GetNicknameForToken true object (some t) =
      (match object.instances.find? (fun x => decide (x.token = t)) with
        | some x => x.label
        | none => none) ∧
    nssPKIObject_GetNicknameForToken true object none =
      (match object.instances.find? (fun x => x.label.isSome) with
        | some x => x.label
        | none => none) := by
  unfold nssPKIObject_GetNicknameForToken
  rw [GetNicknameForToken_loop_token, GetNicknameForToken_loop_none]
  constructor
  · cases object.instances.find? (fun x => decide (x.token = t)) <;> rfl
  · cases object.instances.find? (fun x => x.label.isSome) <;> rfl

/-- C27 at its failing input. For a CRL whose encoding is absent, `crl_getUIDFromObject`
sets the last error to invalid argument and returns `PR_FALSE`, which is the value of
`PR_SUCCESS`, not of `PR_FAILURE`. -/
theorem crl_getUIDFromObject_returns_success :
    crl_getUIDFromObject none ⟨⟨1, [], nssPKILockType.nssPKILock⟩, NSSItem.zero⟩ UID.zero =
      (PR_SUCCESS, UID.zero, some NSSError.NSS_ERROR_INVALID_ARGUMENT) ∧
    PR_SUCCESS ≠ PR_FAILURE := by
  decide

/-- C28. Keys that the comparator of a table accepts as equal have the same hash:
`compare_objects` with `hash_object`, `compare_instances` with `hash_instance`; so a key
stored with `PL_HashTableAdd` is found by `PL_HashTableLookup` under every equal key. -/
theorem hash_consistent_with_compare :
    (∀ u v : UID, compare_objects u v = true → hash_object u = hash_object v) ∧
    (∀ a b : nssCryptokiObject, compare_instances a b = true →
      hash_instance a = hash_instance b) ∧
    (∀ (ht : PLHashTable UID Nat) (u v : UID) (node : Nat), compare_objects v u = true →
      PL_HashTableLookup hash_object compare_objects
        (PL_HashTableAdd hash_object compare_objects ht u node) v = some node) ∧
    (∀ (ht : PLHashTable nssCryptokiObject Nat) (a b : nssCryptokiObject) (node : Nat),
      compare_instances b a = true →
      PL_HashTableLookup hash_instance compare_instances
        (PL_HashTableAdd hash_instance compare_instances ht a node) b = some node) := by
  refine ⟨?_, ?_, ?_, ?_⟩
  · intro u v h
    rw [(compare_objects_iff u v).1 h]
  · intro a b h
    simp only [compare_instances, Bool.and_eq_true, beq_iff_eq] at h
    simp only [hash_instance, h.1, h.2]
  · intro ht u v node h
    have huv : v = u := (compare_objects_iff v u).1 h
    subst huv
    refine lookup_add_of_matches _ _ _ _ _ _ (fun _ => rfl) ?_
    simp [PLHashEntry.matches, (compare_objects_iff v v).2 rfl]
  · intro ht a b node h
    have hab : nssCryptokiObject_Equal b a = true := h
    exact lookup_add_of_matches _ _ _ _ _ _ (matches_instance_congr b a hab)
      (matches_instance_self b a node hab)

/-! ## Claims on collections: failures and retrieval -/

/-- C25. `nssPKIObjectCollection_AddInstances` on a `NULL` array does nothing and succeeds;
on an array it hands the instances (all of them when `numInstances` is 0, else the first
`numInstances`) to `add_object_instance` in order until the first call that fails, returns
failure exactly in that case, and the collection is as the calls before the failing one
left it: the failing call does not change it, and no later instance reaches the core. -/
theorem AddInstances_stops_at_first_failure (vt : Vtable) (allocs : Nat → AllocEnv)
    (c : nssPKIObjectCollection) (l : List nssCryptokiObject) (numInstances : Nat) :
    nssPKIObjectCollection_AddInstances vt allocs c none numInstances =
      some (c, PR_SUCCESS) ∧
    nssPKIObjectCollection_AddInstances vt allocs c (some l) numInstances =
      addUntilFailure vt allocs c
        (if numInstances = 0 then l else l.take numInstances) 0 ∧
    (∀ (env : AllocEnv) (c0 c1 : nssPKIObjectCollection) (inst : nssCryptokiObject)
      (found : Bool), add_object_instance vt env c0 inst = some (c1, none, found) →
        c1 = c0) := by
  refine ⟨rfl, ?_, ?_⟩
  · unfold nssPKIObjectCollection_AddInstances
    exact AddInstances_loop_eq vt allocs numInstances l c 0
  · intro env c0 c1 inst found h
    exact add_object_instance_failed vt env c0 c1 inst found h

/-- C24. On a collection with a well-formed UID index, when `add_object_instance` stores the
instance and returns a node whose proto-object `createObject` then fails to promote,
`nssPKIObjectCollection_AddInstanceAsObject` returns failure, no entry of the UID index
references the node any more, and `size` is one less than just after the instance was
added. -/
theorem AddInstanceAsObject_promotion_failure (vt : Vtable) (env : AllocEnv)
    (c c1 : nssPKIObjectCollection) (inst : nssCryptokiObject) (node : Nat)
    (nd : pkiObjectCollectionNode) (o : nssPKIObject)
    (hwf : UidIndexWF c)
    (hadd : add_object_instance vt env c inst = some (c1, some node, false))
    (hnd : c1.nodes[node]? = some nd) (hproto : nd.haveObject = false)
    (ho : nd.object = some o) (hfail : vt.createObject o = none) :
    ∃ c2, nssPKIObjectCollection_AddInstanceAsObject vt env c inst = some (c2, PR_FAILURE) ∧
      (∀ he ∈ c2.PKIobjecthashtable, he.value ≠ node) ∧
      c2.size + 1 = c1.size := by
  obtain ⟨hwf1, he0, hhe0, hv0⟩ := add_object_instance_added vt env c c1 inst node hwf hadd
  have hlt : node < c1.nodes.length := (List.getElem?_eq_some_iff.1 hnd).1
  have hpos : 1 ≤ c1.size := by
    have h1 := hwf1.sizeGe
    have h2 : 0 < c1.PKIobjecthashtable.length := List.length_pos_of_mem hhe0
    omega
  refine ⟨{ c1 with
              nodes := c1.nodes.set node { nd with object := none }
              PKIobjecthashtable :=
                (PL_HashTableRemove hash_object compare_objects c1.PKIobjecthashtable nd.uid).1
              size := sizeDecr c1.size }, ?_, ?_, ?_⟩
  · unfold nssPKIObjectCollection_AddInstanceAsObject
    simp only [hadd, hnd, hproto, ho, hfail, Bool.not_false, if_true,
      nssPKIObjectCollection_RemoveNode, List.getElem?_set_self hlt]
  · intro he hmem hval
    obtain ⟨h1, h2⟩ := remove_spec c1.PKIobjecthashtable nd.uid hwf1.objHash hwf1.objNodup
      he hmem
    obtain ⟨nd1, o1, h3, h4, _⟩ := hwf1.objNodes he h1
    rw [hval, hnd] at h3
    apply h2
    rw [← h4, ← Option.some.inj h3]
  · simp only [sizeDecr]
    have : ¬ c1.size = 0 := by omega
    simp only [this, if_false]
    omega

/-- Witness of C24: the instance `(token 100, handle 1)` on a new collection, with a
promotion that always fails. -/
theorem AddInstanceAsObject_promotion_failure_witness :
    ∃ c2, nssPKIObjectCollection_AddInstanceAsObject failingVtable AllocEnv.ok
        (nssPKIObjectCollection_Create nssPKILockType.nssPKIMonitor) ⟨1, 100, none⟩ =
        some (c2, PR_FAILURE) ∧
      (∀ he ∈ c2.PKIobjecthashtable, he.value ≠ 0) ∧
      c2.size + 1 =
        (nssPKIObjectCollection.mk
          [⟨false, some ⟨1, [⟨1, 100, none⟩], nssPKILockType.nssPKIMonitor⟩, sampleUID⟩]
          [⟨1, sampleUID, 0⟩] [⟨101, ⟨1, 100, none⟩, 0⟩] 1
          pkiObjectType.pkiObjectType_Certificate nssPKILockType.nssPKIMonitor).size :=
  AddInstanceAsObject_promotion_failure failingVtable AllocEnv.ok
    (nssPKIObjectCollection_Create nssPKILockType.nssPKIMonitor) _ ⟨1, 100, none⟩ 0
    ⟨false, some ⟨1, [⟨1, 100, none⟩], nssPKILockType.nssPKIMonitor⟩, sampleUID⟩
    ⟨1, [⟨1, 100, none⟩], nssPKILockType.nssPKIMonitor⟩
    ⟨by simp [nssPKIObjectCollection_Create], by simp [nssPKIObjectCollection_Create],
      by simp [nssPKIObjectCollection_Create], by simp [nssPKIObjectCollection_Create]⟩
    (by decide) (by decide) rfl rfl rfl

/-- C22. On a collection with a well-formed UID index and a buffer of at least
`rvSize ≥ 1` slots, `nssPKIObjectCollection_GetObjects` returns; the objects written are
those of a sub-sequence `S` of the UID index, in order, at the front of the buffer, so at
most `rvSize` objects and each node at most once; every returned node has `haveObject` set
afterwards; and when every promotion succeeds `S` is the first `rvSize` entries, that is
exactly `min rvSize (number of nodes in the UID index)` objects. -/
theorem GetObjects_writes_at_most_rvSize (vt : Vtable) (lastError : Option NSSError)
    (c : nssPKIObjectCollection) (buf : List (Option nssPKIObject)) (rvSize : Nat)
    (hwf : UidIndexWF c) (hsz : 1 ≤ rvSize) (hcap : rvSize ≤ buf.length) :
    ∃ r S, nssPKIObjectCollection_GetObjects vt lastError c buf rvSize = some r ∧
      S.Sublist c.PKIobjecthashtable ∧ (S.map fun e => e.value).Nodup ∧
      S.length ≤ rvSize ∧
      r.rvObjects = S.map (fun e => objAt r.collection.nodes e.value) ++ buf.drop S.length ∧
      (∀ e ∈ S, ∃ nd o, r.collection.nodes[e.value]? = some nd ∧ nd.haveObject = true ∧
        nd.object = some o) ∧
      ((∀ o, (vt.createObject o).isSome = true) →
        S = c.PKIobjecthashtable.take rvSize ∧
        S.length = min rvSize c.PKIobjecthashtable.length) := by
  obtain ⟨r, S, h1, h2, h3, h4, h5, h6, _, _⟩ :=
    GetObjects_run vt lastError c buf rvSize hwf hsz hcap
  refine ⟨r, S, h1, h2, ?_, h3, h4, h5, ?_⟩
  · exact List.Nodup.sublist (List.Sublist.map _ h2) (UidIndexWF_values_nodup c hwf)
  · intro hall
    have := h6 hall
    exact ⟨this, by rw [this, List.length_take]⟩

/-- Witness of C22: two proto-object nodes, a buffer of one slot, promotions that
succeed. -/
theorem GetObjects_writes_at_most_rvSize_witness :
    ∃ r S, nssPKIObjectCollection_GetObjects handleVtable none twoNodeCollection [none] 1 =
        some r ∧
      S.Sublist twoNodeCollection.PKIobjecthashtable ∧ (S.map fun e => e.value).Nodup ∧
      S.length ≤ 1 ∧
      r.rvObjects = S.map (fun e => objAt r.collection.nodes e.value) ++
        [none].drop S.length ∧
      (∀ e ∈ S, ∃ nd o, r.collection.nodes[e.value]? = some nd ∧ nd.haveObject = true ∧
        nd.object = some o) ∧
      ((∀ o, (handleVtable.createObject o).isSome = true) →
        S = twoNodeCollection.PKIobjecthashtable.take 1 ∧
        S.length = min 1 twoNodeCollection.PKIobjecthashtable.length) :=
  GetObjects_writes_at_most_rvSize handleVtable none twoNodeCollection [none] 1
    twoNodeCollection_wf (by decide) (by decide)

/-- C23 at its failing input. (1) On a new collection, whose UID index is empty,
`nssPKIObjectCollection_GetObjects` with a buffer of null slots returns `PR_SUCCESS` with
the buffer and the last-error slot as they were: nothing is written and
`NSS_ERROR_NOT_FOUND` is not set, because of the early return on `numentries == 0`.
(2) Through `nssPKIObjectCollection_GetCertificates`: after a first call has removed the
only entry from the UID index (failed promotion, `size` still 1), a second call with a
caller-supplied buffer of one null slot returns the buffer untouched and the last-error
slot empty. -/
theorem GetObjects_empty_index_not_found_unset :
    (∀ (vt : Vtable) (lastError : Option NSSError) (lockType : nssPKILockType)
        (buf : List (Option nssPKIObject)) (rvSize : Nat),
      nssPKIObjectCollection_GetObjects vt lastError
          (nssPKIObjectCollection_Create lockType) buf rvSize =
        some ⟨nssPKIObjectCollection_Create lockType, buf, PR_SUCCESS, lastError⟩) ∧
    ((nssPKIObjectCollection_GetCertificates failingVtable true none protoCollection
          (some [none]) 0).bind fun r1 =>
        (nssPKIObjectCollection_GetCertificates failingVtable true none r1.collection
            (some [none]) 0).map fun r2 =>
          (r1.collection.size, r1.collection.PKIobjecthashtable.length, r2.rv,
            r2.lastError)) = some (1, 0, some [none], none) ∧
    (none : Option NSSError) ≠ some NSSError.NSS_ERROR_NOT_FOUND := by
  exact ⟨fun vt lastError lockType buf rvSize => rfl, rfl, by decide⟩

end PKIBase
